import Mathlib

/-!
Multi-resolution level set: construction, maintenance, probing and resolution
blending

A shallow embedding of `level_set.cpp`
(`SPHINXsys/src/shared/geometries/level_set.cpp`):

* the queries `LevelSet::probeIsWithinMeshBound`, `probeNormalDirection`,
  `probeKernelIntegral`, `probeKernelGradientIntegral`, and
  `MultilevelLevelSet::getMeshLevel`, `getProbeLevel`, `probeKernelIntegral`,
  `probeKernelGradientIntegral`, on the structure `LevelSet`;
* the constructors of `BaseLevelSet`, `LevelSet` and `RefinedLevelSet`, the
  passes `initializeDataInACell`, `initializeDataInACellFromCoarse`,
  `tagACellIsInnerPackage`, `finishDataPackages`, and the maintenance passes up
  to `cleanInterface`, on the structure `LevelSetState`;
* the statements of `createDataPackage` one by one, with the pool lock, on the
  structure `CreationProgress`;
* the smoothed step `BaseLevelSet::computeHeaviside`, and
  `UpdateAReactionSpecies` of `particle_dynamics_diffusion_reaction.h`.

Conventions of the embedding.

* `Real` (a C++ `double`) is read as an exact rational number, so every statement
  below is about the arithmetic the code writes down, not about rounding.
* `Vecd` and `Vecu` are the fixed-size vectors of the code; the dimension is the
  parameter `D`.  The components of a `Vecu` are `size_t` values, and the one
  subtraction the code performs on them is taken modulo `2 ^ 64`.
* Reading `mesh_levels_[i]` yields `Fault.outOfBounds` when `i` is not an index
  of the vector, and the `exit(1)` branch of `getMeshLevel` yields
  `Fault.fatalExit`.
* `Eps`, `RAND_MAX`, the length `norm()` of the vector library,
  `Mesh::CellIndexFromPosition`, `isWithinCorePackage`, the interpolating
  `probeMesh`, the members of `Shape` and the per-package computations are
  declared outside this file of the code; they enter as parameters or as fields
  of the structures that read them.
* `computeHeaviside` and `UpdateAReactionSpecies` are written over any ordered
  field with `sin`, `Pi`, `exp` and `TinyReal` as parameters, and their theorems
  are stated over the real numbers `ℝ` with the sine and the exponential; the
  constant `Pi` of the code is a `double` below `π`.
* The structure `LevelSet` and `probeNormalDirection` are written over any
  ordered field as well: the length of the returned normal direction is stated
  over `ℝ` with the Euclidean length, the other statements over `Real`.
* A package pointer is the position of the package in the pool of its level.
  The parallel iterators over cells and over packages are taken in sequence,
  one cell or package after the other; `rand()` is a given sequence of values.
-/

namespace SPH

/-- The floating-point type `Real` of the code, read as exact rationals. -/
abbrev Real := ℚ

/-- A position or any other `Vecd` of the code, of dimension `D`. -/
abbrev Vecd (D : Nat) := Fin D → Real

/-- A cell index or a cell count, `Vecu` in the code, of dimension `D`. -/
abbrev Vecu (D : Nat) := Fin D → Nat

/-- Number of values of a `size_t`. -/
def SIZE_T_RANGE : Nat := 2 ^ 64

/-- Ways in which a call does not return a value. -/
inductive Fault where
  /-- The diagnostic followed by `exit(1)` in `getMeshLevel`. -/
  | fatalExit
  /-- A read of `mesh_levels_[i]` with `i` beyond the last level. -/
  | outOfBounds
  /-- The bare `throw` of the `BaseLevelSet` constructor: with no exception in
  flight it ends the process. -/
  | terminated
  /-- A read through a package pointer that was never set. -/
  | invalidAddress
  deriving DecidableEq, Repr

/-- One resolution level, as far as the queries below read it.  The fields
after `number_of_cells_` stand for members whose bodies are in headers outside
`level_set.cpp`: `Mesh::CellIndexFromPosition`, `isWithinCorePackage`, and
`probeMesh` instantiated at `kernel_weight_addrs_`, `kernel_gradient_addrs_`,
`phi_addrs_` and `phi_gradient_addrs_`.  The number type `R` of the C++ `Real`
is a parameter: it is the rationals `Real` everywhere but in the statement on
the length of the normal direction, which is made over the real numbers. -/
structure LevelSet (R : Type) (D : Nat) where
  global_h_ratio_ : R
  data_spacing_ : R
  number_of_cells_ : Vecu D
  CellIndexFromPosition : (Fin D → R) → Vecu D
  isWithinCorePackage : (Fin D → R) → Bool
  probeMesh_kernel_weight : (Fin D → R) → R
  probeMesh_kernel_gradient : (Fin D → R) → (Fin D → R)
  probeMesh_phi : (Fin D → R) → R
  probeMesh_phi_gradient : (Fin D → R) → (Fin D → R)

namespace LevelSet

variable {D : Nat}

/-- One pass of the loop body of `LevelSet::probeIsWithinMeshBound` for
dimension `i`: two independent `if`s, each clearing the flag. -/
def probeIsWithinMeshBoundStep (cell_pos number_of_cells_ : Vecu D)
    (is_bounded : Bool) (i : Fin D) : Bool :=
  let is_bounded := if cell_pos i < 2 then false else is_bounded
  let is_bounded :=
    if cell_pos i > (number_of_cells_ i + SIZE_T_RANGE - 2) % SIZE_T_RANGE then false
    else is_bounded
  is_bounded

/-- Embedding of `LevelSet::probeIsWithinMeshBound` (level_set.cpp 196-208). -/
def probeIsWithinMeshBound (l : LevelSet Real D) (position : Vecd D) : Bool :=
  let cell_pos := l.CellIndexFromPosition position
  (List.finRange D).foldl (probeIsWithinMeshBoundStep cell_pos l.number_of_cells_) true

/-- Embedding of `LevelSet::probeKernelIntegral` (level_set.cpp 130-134): the
second argument is not read. -/
def probeKernelIntegral (l : LevelSet Real D) (position : Vecd D) (_h_ratio : Real) : Real :=
  l.probeMesh_kernel_weight position

/-- Embedding of `LevelSet::probeKernelGradientIntegral` (level_set.cpp 136-140). -/
def probeKernelGradientIntegral (l : LevelSet Real D) (position : Vecd D) (_h_ratio : Real) :
    Vecd D :=
  l.probeMesh_kernel_gradient position

/-- Embedding of `LevelSet::probeSignedDistance` (level_set.cpp 124-128). -/
def probeSignedDistance (l : LevelSet Real D) (position : Vecd D) : Real :=
  l.probeMesh_phi position

/-- Embedding of `LevelSet::probeLevelSetGradient` (level_set.cpp 118-122). -/
def probeLevelSetGradient {R : Type} (l : LevelSet R D) (position : Fin D → R) : Fin D → R :=
  l.probeMesh_phi_gradient position

end LevelSet

/-- The squared Euclidean length of a vector, `normSqr()` of the vector library. -/
def normSqr {R : Type} [Field R] {D : Nat} (v : Fin D → R) : R := ∑ i, v i * v i

/-- The vector `v / v.norm()`, which is what `normalize()` of the vector
library returns.  The length function `norm` of the library is a parameter. -/
def normalize {R : Type} [Field R] {D : Nat} (norm : (Fin D → R) → R) (v : Fin D → R) :
    Fin D → R :=
  fun i => v i / norm v

namespace LevelSet

variable {D : Nat}

/-- The jittered position of one pass of the loop of `probeNormalDirection`.
Component `i` receives the `i`-th call of `rand()` of the pass; `rand n` is the
value of the `n`-th call of `rand()` since the loop was entered, and `drawn` the
number of calls made before this pass. -/
def jittered {R : Type} [Field R] (RAND_MAX : Nat) (l : LevelSet R D) (rand : Nat → Nat)
    (drawn : Nat) (position : Fin D → R) : Fin D → R :=
  fun i => position i +
    (((rand (drawn + i.val) : R) / (RAND_MAX : R)) - 1 / 2) * (1 / 2) * l.data_spacing_

/-- The `while` loop of `LevelSet::probeNormalDirection`, entered with
`probed_value` and after `drawn` calls of `rand()`; `fuel` bounds the number of
times the loop condition is evaluated.  The result is the returned vector and
the number of calls of `rand()` made. -/
def probeNormalDirectionLoop {R : Type} [LinearOrderedField R] (norm : (Fin D → R) → R)
    (RAND_MAX : Nat) (l : LevelSet R D) (rand : Nat → Nat) (position : Fin D → R) :
    Nat → Nat → (Fin D → R) → Option ((Fin D → R) × Nat)
  | 0, _, _ => none
  | fuel + 1, drawn, probed_value =>
    if norm probed_value < 1 / 100 * l.data_spacing_ then
      probeNormalDirectionLoop norm RAND_MAX l rand position fuel (drawn + D)
        (l.probeLevelSetGradient (l.jittered RAND_MAX rand drawn position))
    else some (normalize norm probed_value, drawn)

/-- Embedding of `LevelSet::probeNormalDirection` (level_set.cpp 103-116). -/
def probeNormalDirection {R : Type} [LinearOrderedField R] (norm : (Fin D → R) → R)
    (RAND_MAX : Nat) (l : LevelSet R D) (rand : Nat → Nat) (fuel : Nat)
    (position : Fin D → R) : Option ((Fin D → R) × Nat) :=
  probeNormalDirectionLoop norm RAND_MAX l rand position fuel 0
    (l.probeLevelSetGradient position)

/-- The gradient values the loop of `probeNormalDirection` looks at, in order:
the one probed at the position, then those probed at the jittered positions. -/
def probedSample {R : Type} [Field R] (RAND_MAX : Nat) (l : LevelSet R D) (rand : Nat → Nat)
    (position : Fin D → R) : Nat → (Fin D → R)
  | 0 => l.probeLevelSetGradient position
  | t + 1 => l.probeLevelSetGradient (l.jittered RAND_MAX rand (t * D) position)

end LevelSet

/-- The exact geometry a level set is built from, `Shape` in the code; its
member functions are defined outside `level_set.cpp`. -/
structure Shape (D : Nat) where
  isValid : Bool
  findSignedDistance : Vecd D → Real
  findNormalDirection : Vecd D → Vecd D
  checkContain : Vecd D → Bool

/-- The members `BaseLevelSet` adds to its base class. -/
structure BaseLevelSet (D : Nat) where
  shape_ : Shape D

/-- Embedding of the constructor `BaseLevelSet::BaseLevelSet` (level_set.cpp
30-40): an invalid shape leads to the diagnostic and the bare `throw`. -/
def BaseLevelSet.construct {D : Nat} (shape : Shape D) : Except Fault (BaseLevelSet D) :=
  if !shape.isValid then .error .terminated
  else .ok { shape_ := shape }

/-- A `MultilevelLevelSet`: the vector `mesh_levels_` of levels, coarsest first,
and the count `total_levels_`.  The constructor of the base class fills
`mesh_levels_` with one level per index below `total_levels_`, which is the
field `levels_size`. -/
structure MultilevelLevelSet (D : Nat) where
  total_levels_ : Nat
  mesh_levels_ : List (LevelSet Real D)
  levels_size : mesh_levels_.length = total_levels_

variable {D : Nat}

/-- The loop of `MultilevelLevelSet::getMeshLevel`, with the loop variable
`level` as the last argument: at `level = 0` the loop is left and the fatal
branch runs; otherwise level `level - 1` is tested and, if the test fails, the
loop goes on with `level - 1`. -/
def getMeshLevelLoop (Eps : Real) (mesh_levels_ : List (LevelSet Real D)) (h_ratio : Real) :
    Nat → Except Fault Nat
  | 0 => .error .fatalExit
  | level + 1 =>
    match mesh_levels_[level]? with
    | none => .error .outOfBounds
    | some l =>
      if h_ratio - l.global_h_ratio_ > -Eps then .ok level
      else getMeshLevelLoop Eps mesh_levels_ h_ratio level

/-- Embedding of `MultilevelLevelSet::getMeshLevel` (level_set.cpp 302-312). -/
def MultilevelLevelSet.getMeshLevel (Eps : Real) (m : MultilevelLevelSet D) (h_ratio : Real) :
    Except Fault Nat :=
  getMeshLevelLoop Eps m.mesh_levels_ h_ratio m.total_levels_

/-- The loop of `MultilevelLevelSet::getProbeLevel`; leaving the loop returns 0. -/
def getProbeLevelLoop (mesh_levels_ : List (LevelSet Real D)) (position : Vecd D) :
    Nat → Except Fault Nat
  | 0 => .ok 0
  | level + 1 =>
    match mesh_levels_[level]? with
    | none => .error .outOfBounds
    | some l =>
      if l.isWithinCorePackage position then .ok level
      else getProbeLevelLoop mesh_levels_ position level

/-- Embedding of `MultilevelLevelSet::getProbeLevel` (level_set.cpp 334-340). -/
def MultilevelLevelSet.getProbeLevel (m : MultilevelLevelSet D) (position : Vecd D) :
    Except Fault Nat :=
  getProbeLevelLoop m.mesh_levels_ position m.total_levels_

/-- The weight `alpha` of the coarse level in the two blended probes. -/
def blendAlpha (coarse fine : LevelSet Real D) (h_ratio : Real) : Real :=
  (fine.global_h_ratio_ - h_ratio) / (fine.global_h_ratio_ - coarse.global_h_ratio_)

/-- Embedding of `MultilevelLevelSet::probeKernelIntegral` (level_set.cpp
342-351).  The single-level probes are called with their default `h_ratio`. -/
def MultilevelLevelSet.probeKernelIntegral (Eps : Real) (m : MultilevelLevelSet D)
    (position : Vecd D) (h_ratio : Real) : Except Fault Real :=
  match m.getMeshLevel Eps h_ratio with
  | .error e => .error e
  | .ok coarse_level =>
    match m.mesh_levels_[coarse_level]?, m.mesh_levels_[coarse_level + 1]? with
    | some coarse, some fine =>
      let alpha := blendAlpha coarse fine h_ratio
      let coarse_level_value := coarse.probeKernelIntegral position 1
      let fine_level_value := fine.probeKernelIntegral position 1
      .ok (alpha * coarse_level_value + (1 - alpha) * fine_level_value)
    | _, _ => .error .outOfBounds

/-- Embedding of `MultilevelLevelSet::probeKernelGradientIntegral`
(level_set.cpp 353-362). -/
def MultilevelLevelSet.probeKernelGradientIntegral (Eps : Real) (m : MultilevelLevelSet D)
    (position : Vecd D) (h_ratio : Real) : Except Fault (Vecd D) :=
  match m.getMeshLevel Eps h_ratio with
  | .error e => .error e
  | .ok coarse_level =>
    match m.mesh_levels_[coarse_level]?, m.mesh_levels_[coarse_level + 1]? with
    | some coarse, some fine =>
      let alpha := blendAlpha coarse fine h_ratio
      let coarse_level_value := coarse.probeKernelGradientIntegral position 1
      let fine_level_value := fine.probeKernelGradientIntegral position 1
      .ok (fun i => alpha * coarse_level_value i + (1 - alpha) * fine_level_value i)
    | _, _ => .error .outOfBounds

/-- The levels of `m` have strictly increasing resolution ratios. -/
def MultilevelLevelSet.StrictlyIncreasingRatios (m : MultilevelLevelSet D) : Prop :=
  (m.mesh_levels_.map LevelSet.global_h_ratio_).Pairwise (· < ·)

instance (m : MultilevelLevelSet D) : Decidable m.StrictlyIncreasingRatios := by
  unfold MultilevelLevelSet.StrictlyIncreasingRatios
  infer_instance

/-! The data packages and the background grid of one level -/

/-- One `LevelSetDataPackage`: the two flags, the index of the cell it was
created for, and the five registered variables (level_set.cpp 16-23), each an
array over the data points of the package. -/
structure LevelSetDataPackage (D : Nat) where
  is_core_pkg_ : Bool
  is_inner_pkg_ : Bool
  pkg_index_ : Vecu D
  phi_ : Vecu D → Real
  phi_gradient_ : Vecu D → Vecd D
  kernel_weight_ : Vecu D → Real
  kernel_gradient_ : Vecu D → Vecd D
  near_interface_id_ : Vecu D → Int

/-- The constructor `LevelSetDataPackage::LevelSetDataPackage` (level_set.cpp
13-14) on the storage `raw` handed out by the pool: `is_core_pkg_` is false, and
the base class leaves `is_inner_pkg_` false. -/
def LevelSetDataPackage.construct {D : Nat} (raw : LevelSetDataPackage D) :
    LevelSetDataPackage D :=
  { raw with is_core_pkg_ := false, is_inner_pkg_ := false }

/-- Modelled from the spec: `initializeSingularData`, whose body is in a header
outside `level_set.cpp`, makes a package a far-field sentinel by setting every
entry of `phi_` to the far-field distance. -/
def LevelSetDataPackage.initializeSingularData {D : Nat} (pkg : LevelSetDataPackage D)
    (far_field_level_set : Real) : LevelSetDataPackage D :=
  { pkg with phi_ := fun _ => far_field_level_set }

/-- The members of a `LevelSet` that construction and maintenance write.  A
package pointer is the position of the package in `data_pkg_pool_`, which only
grows; `data_pkg_addrs_` is the background grid, `none` at a cell whose pointer
has not been assigned. -/
structure LevelSetState (D : Nat) where
  data_pkg_pool_ : List (LevelSetDataPackage D)
  data_pkg_addrs_ : Vecu D → Option Nat
  singular_data_pkgs_addrs_ : List Nat
  core_data_pkgs_ : List Nat
  inner_data_pkgs_ : List Nat

/-- What the construction of a level reads: the shape, the mesh geometry set by
the base-class constructors, and the members defined in headers outside
`level_set.cpp`.  `all_cells` lists the cell indices that
`MeshIterator_parallel(Vecu(0), number_of_cells_, ...)` visits, `raw_pkg` is the
storage the pool hands out, `initializeBasicData` the data arrays of a package
created at a cell position, and `isInnerPackage` the test of that name. -/
structure LevelSetSetup (D : Nat) where
  shape_ : Shape D
  grid_spacing_ : Real
  data_spacing_ : Real
  buffer_width_ : Nat
  all_cells : List (Vecu D)
  CellPositionFromIndex : Vecu D → Vecd D
  raw_pkg : LevelSetDataPackage D
  initializeBasicData : Vecd D → LevelSetDataPackage D
  isInnerPackage : LevelSetState D → Vecu D → Bool

/-- The per-package computations, defined in headers outside `level_set.cpp`.
Each reads the level and yields the new content of the arrays it writes:
`computeGradient` writes `phi_gradient_` (level_set.cpp 27),
`computeKernelIntegrals` writes `kernel_weight_` and `kernel_gradient_`,
`stepReinitialization` and `redistanceInterfaceForAPackage` write `phi_`, and
`markNearInterface` writes `near_interface_id_`. -/
structure PackageOperations (D : Nat) where
  computeGradient : LevelSetState D → Nat → (Vecu D → Vecd D)
  computeKernelIntegrals : LevelSetState D → Nat → (Vecu D → Real) × (Vecu D → Vecd D)
  stepReinitialization : LevelSetState D → Nat → (Vecu D → Real)
  markNearInterface : LevelSetState D → Nat → Real → (Vecu D → Int)
  redistanceInterfaceForAPackage : LevelSetState D → Nat → (Vecu D → Real)

/-- Modelled from the spec: `getMaxAbsoluteElement`, defined outside
`level_set.cpp`, is the largest absolute value among the components. -/
def getMaxAbsoluteElement {D : Nat} (v : Vecd D) : Real :=
  (List.finRange D).foldl (fun m i => max |v i| m) 0

/-- Modelled from the spec: `MeshIterator_parallel` applies the functor to every
cell of its range once; the cells are taken one after the other, and a fault in
one application ends the pass. -/
def MeshIterator_parallel {D : Nat} {σ : Type}
    (functor : Vecu D → σ → Except Fault σ) : List (Vecu D) → σ → Except Fault σ
  | [], s => .ok s
  | cell_index :: rest, s =>
    match functor cell_index s with
    | .error e => .error e
    | .ok s1 => MeshIterator_parallel functor rest s1

/-- Modelled from the spec: `PackageIterator_parallel` applies the functor to
every package of the collection once, one after the other. -/
def PackageIterator_parallel {σ : Type} (pkgs : List Nat) (functor : Nat → σ → σ) (s : σ) : σ :=
  pkgs.foldl (fun s1 pkg => functor pkg s1) s

namespace LevelSetState

variable {D : Nat}

/-- The members as the base-class constructors leave them: an empty pool, empty
collections, and no cell assigned. -/
def initial : LevelSetState D where
  data_pkg_pool_ := []
  data_pkg_addrs_ := fun _ => none
  singular_data_pkgs_addrs_ := []
  core_data_pkgs_ := []
  inner_data_pkgs_ := []

/-- The member `assignDataPackageAddress` of the mesh: the cell points to the
package. -/
def assignDataPackageAddress (cell_index : Vecu D) (pkg : Nat) (s : LevelSetState D) :
    LevelSetState D :=
  { s with data_pkg_addrs_ := Function.update s.data_pkg_addrs_ cell_index (some pkg) }

/-- Modelled from the spec: `initializeASingularDataPackage` takes a package
from the pool, makes it a sentinel at the given far-field distance and appends
its pointer to `singular_data_pkgs_addrs_`. -/
def initializeASingularDataPackage (g : LevelSetSetup D) (far_field_level_set : Real)
    (s : LevelSetState D) : LevelSetState D :=
  let new_data_pkg :=
    (LevelSetDataPackage.construct g.raw_pkg).initializeSingularData far_field_level_set
  { s with
    data_pkg_pool_ := s.data_pkg_pool_ ++ [new_data_pkg]
    singular_data_pkgs_addrs_ := s.singular_data_pkgs_addrs_ ++ [s.data_pkg_pool_.length] }

/-- Embedding of the five-argument constructor `LevelSet::LevelSet`
(level_set.cpp 53-63), after the check made by the `BaseLevelSet` constructor. -/
def construct5 (g : LevelSetSetup D) : Except Fault (LevelSetState D) :=
  match BaseLevelSet.construct g.shape_ with
  | .error e => .error e
  | .ok _ =>
    let far_field_distance := g.grid_spacing_ * (g.buffer_width_ : Real)
    .ok (initializeASingularDataPackage g far_field_distance
      (initializeASingularDataPackage g (-far_field_distance) initial))

/-- Embedding of `LevelSet::createDataPackage` (level_set.cpp 210-222): the
new package is the next one of the pool, receives its data from the shape and
the index of the cell, and the cell is made to point to it.  The result is the
new state and the pointer to the package. -/
def createDataPackage (g : LevelSetSetup D) (cell_index : Vecu D) (cell_position : Vecd D)
    (s : LevelSetState D) : LevelSetState D × Nat :=
  let new_data_pkg : LevelSetDataPackage D :=
    { g.initializeBasicData cell_position with
      is_core_pkg_ := (LevelSetDataPackage.construct g.raw_pkg).is_core_pkg_
      is_inner_pkg_ := (LevelSetDataPackage.construct g.raw_pkg).is_inner_pkg_
      pkg_index_ := cell_index }
  let pkg := s.data_pkg_pool_.length
  (assignDataPackageAddress cell_index pkg
    { s with data_pkg_pool_ := s.data_pkg_pool_ ++ [new_data_pkg] }, pkg)

/-- The assignment `pkg->is_core_pkg_ = true`. -/
def setCore (pkg : Nat) (s : LevelSetState D) : LevelSetState D :=
  { s with data_pkg_pool_ := s.data_pkg_pool_.modify (fun p => { p with is_core_pkg_ := true }) pkg }

/-- The assignment `pkg->is_inner_pkg_ = true`. -/
def setInner (pkg : Nat) (s : LevelSetState D) : LevelSetState D :=
  { s with data_pkg_pool_ := s.data_pkg_pool_.modify (fun p => { p with is_inner_pkg_ := true }) pkg }

/-- The measure of a cell position: the largest absolute component of the
normal direction times the signed distance (level_set.cpp 227-229). -/
def measure (g : LevelSetSetup D) (cell_position : Vecd D) : Real :=
  let signed_distance := g.shape_.findSignedDistance cell_position
  let normal_direction := g.shape_.findNormalDirection cell_position
  getMaxAbsoluteElement (fun i => normal_direction i * signed_distance)

/-- Embedding of `LevelSet::initializeDataInACell` (level_set.cpp 224-242). -/
def initializeDataInACell (g : LevelSetSetup D) (cell_index : Vecu D) (s : LevelSetState D) :
    Except Fault (LevelSetState D) :=
  let cell_position := g.CellPositionFromIndex cell_index
  if measure g cell_position < g.grid_spacing_ then
    let created := createDataPackage g cell_index cell_position s
    let s1 := setCore created.2 created.1
    .ok { s1 with core_data_pkgs_ := s1.core_data_pkgs_ ++ [created.2] }
  else
    match (if g.shape_.checkContain cell_position then s.singular_data_pkgs_addrs_[0]?
      else s.singular_data_pkgs_addrs_[1]?) with
    | none => .error .outOfBounds
    | some singular_data_pkg => .ok (assignDataPackageAddress cell_index singular_data_pkg s)

/-- Embedding of `LevelSet::tagACellIsInnerPackage` (level_set.cpp 244-264). -/
def tagACellIsInnerPackage (g : LevelSetSetup D) (cell_index : Vecu D) (s : LevelSetState D) :
    Except Fault (LevelSetState D) :=
  if g.isInnerPackage s cell_index then
    match s.data_pkg_addrs_ cell_index with
    | none => .error .invalidAddress
    | some current_data_pkg =>
      match s.data_pkg_pool_[current_data_pkg]? with
      | none => .error .invalidAddress
      | some current =>
        if current.is_core_pkg_ then
          let s1 := setInner current_data_pkg s
          .ok { s1 with inner_data_pkgs_ := s1.inner_data_pkgs_ ++ [current_data_pkg] }
        else
          let cell_position := g.CellPositionFromIndex cell_index
          let created := createDataPackage g cell_index cell_position s
          let s1 := setInner created.2 created.1
          .ok { s1 with inner_data_pkgs_ := s1.inner_data_pkgs_ ++ [created.2] }
  else .ok s

/-- Embedding of `RefinedLevelSet::initializeDataInACellFromCoarse`
(level_set.cpp 275-294); `coarse_mesh_` is the coarser level. -/
def initializeDataInACellFromCoarse (g : LevelSetSetup D) (coarse_mesh_ : LevelSet Real D)
    (cell_index : Vecu D) (s : LevelSetState D) : Except Fault (LevelSetState D) :=
  let cell_position := g.CellPositionFromIndex cell_index
  match (if coarse_mesh_.probeSignedDistance cell_position < 0 then s.singular_data_pkgs_addrs_[0]?
    else s.singular_data_pkgs_addrs_[1]?) with
  | none => .error .outOfBounds
  | some singular_data_pkg =>
    let s0 := assignDataPackageAddress cell_index singular_data_pkg s
    if coarse_mesh_.isWithinCorePackage cell_position then
      if measure g cell_position < g.grid_spacing_ then
        let created := createDataPackage g cell_index cell_position s0
        let s1 := setCore created.2 created.1
        .ok { s1 with core_data_pkgs_ := s1.core_data_pkgs_ ++ [created.2] }
      else .ok s0
    else .ok s0

/-- Embedding of `LevelSet::initializeAddressesInACell` (level_set.cpp 84-87):
it stitches the address tables of the package of the cell, which are not among
the members kept in `LevelSetState`. -/
def initializeAddressesInACell (_cell_index : Vecu D) (s : LevelSetState D) :
    Except Fault (LevelSetState D) :=
  .ok s

/-- Embedding of `LevelSet::updateLevelSetGradientForAPackage` (level_set.cpp
142-146). -/
def updateLevelSetGradientForAPackage (k : PackageOperations D) (pkg : Nat)
    (s : LevelSetState D) : LevelSetState D :=
  { s with data_pkg_pool_ :=
      s.data_pkg_pool_.modify (fun p => { p with phi_gradient_ := k.computeGradient s pkg }) pkg }

/-- Embedding of `LevelSet::updateKernelIntegralsForAPackage` (level_set.cpp
148-152). -/
def updateKernelIntegralsForAPackage (k : PackageOperations D) (pkg : Nat)
    (s : LevelSetState D) : LevelSetState D :=
  { s with data_pkg_pool_ :=
      s.data_pkg_pool_.modify (fun p =>
        { p with
          kernel_weight_ := (k.computeKernelIntegrals s pkg).1
          kernel_gradient_ := (k.computeKernelIntegrals s pkg).2 }) pkg }

/-- Embedding of `LevelSet::stepReinitializationForAPackage` (level_set.cpp
154-158). -/
def stepReinitializationForAPackage (k : PackageOperations D) (pkg : Nat)
    (s : LevelSetState D) : LevelSetState D :=
  { s with data_pkg_pool_ :=
      s.data_pkg_pool_.modify (fun p => { p with phi_ := k.stepReinitialization s pkg }) pkg }

/-- Embedding of `LevelSet::markNearInterfaceForAPackage` (level_set.cpp
175-178). -/
def markNearInterfaceForAPackage (k : PackageOperations D) (small_shift_factor : Real)
    (pkg : Nat) (s : LevelSetState D) : LevelSetState D :=
  let marked := k.markNearInterface s pkg small_shift_factor
  { s with data_pkg_pool_ :=
      s.data_pkg_pool_.modify (fun p => { p with near_interface_id_ := marked }) pkg }

/-- The member `redistanceInterfaceForAPackage`, defined outside
`level_set.cpp`. -/
def redistanceInterfaceForAPackage (k : PackageOperations D) (pkg : Nat)
    (s : LevelSetState D) : LevelSetState D :=
  let redistanced := k.redistanceInterfaceForAPackage s pkg
  { s with data_pkg_pool_ := s.data_pkg_pool_.modify (fun p => { p with phi_ := redistanced }) pkg }

/-- Embedding of `LevelSet::updateLevelSetGradient` (level_set.cpp 89-94). -/
def updateLevelSetGradient (k : PackageOperations D) (s : LevelSetState D) : LevelSetState D :=
  PackageIterator_parallel s.inner_data_pkgs_ (updateLevelSetGradientForAPackage k) s

/-- Embedding of `LevelSet::updateKernelIntegrals` (level_set.cpp 96-101). -/
def updateKernelIntegrals (k : PackageOperations D) (s : LevelSetState D) : LevelSetState D :=
  PackageIterator_parallel s.inner_data_pkgs_ (updateKernelIntegralsForAPackage k) s

/-- The `for` loop of `LevelSet::reinitializeLevelSet`, with the number of
passes still to make, `50 - i`, as the argument. -/
def reinitializeLevelSetLoop (k : PackageOperations D) : Nat → LevelSetState D → LevelSetState D
  | 0, s => s
  | left + 1, s =>
    reinitializeLevelSetLoop k left
      (PackageIterator_parallel s.inner_data_pkgs_ (stepReinitializationForAPackage k) s)

/-- Embedding of `LevelSet::reinitializeLevelSet` (level_set.cpp 160-166). -/
def reinitializeLevelSet (k : PackageOperations D) (s : LevelSetState D) : LevelSetState D :=
  reinitializeLevelSetLoop k 50 s

/-- Embedding of `LevelSet::markNearInterface` (level_set.cpp 168-173). -/
def markNearInterface (k : PackageOperations D) (small_shift_factor : Real)
    (s : LevelSetState D) : LevelSetState D :=
  PackageIterator_parallel s.core_data_pkgs_ (markNearInterfaceForAPackage k small_shift_factor) s

/-- Embedding of `LevelSet::redistanceInterface` (level_set.cpp 180-185). -/
def redistanceInterface (k : PackageOperations D) (s : LevelSetState D) : LevelSetState D :=
  PackageIterator_parallel s.core_data_pkgs_ (redistanceInterfaceForAPackage k) s

/-- Embedding of `LevelSet::cleanInterface` (level_set.cpp 187-194). -/
def cleanInterface (k : PackageOperations D) (small_shift_factor : Real)
    (s : LevelSetState D) : LevelSetState D :=
  let s1 := markNearInterface k small_shift_factor s
  let s2 := redistanceInterface k s1
  let s3 := reinitializeLevelSet k s2
  let s4 := updateLevelSetGradient k s3
  updateKernelIntegrals k s4

/-- Embedding of `LevelSet::finishDataPackages` (level_set.cpp 74-82). -/
def finishDataPackages (g : LevelSetSetup D) (k : PackageOperations D) (s : LevelSetState D) :
    Except Fault (LevelSetState D) :=
  match MeshIterator_parallel (tagACellIsInnerPackage g) g.all_cells s with
  | .error e => .error e
  | .ok s1 =>
    match MeshIterator_parallel initializeAddressesInACell g.all_cells s1 with
    | .error e => .error e
    | .ok s2 => .ok (updateKernelIntegrals k (updateLevelSetGradient k s2))

/-- Embedding of the four-argument constructor `LevelSet::LevelSet`
(level_set.cpp 65-72), which delegates with a buffer width of 4. -/
def construct (g : LevelSetSetup D) (k : PackageOperations D) : Except Fault (LevelSetState D) :=
  match construct5 { g with buffer_width_ := 4 } with
  | .error e => .error e
  | .ok s0 =>
    match MeshIterator_parallel (initializeDataInACell g) g.all_cells s0 with
    | .error e => .error e
    | .ok s1 => finishDataPackages g k s1

/-- Embedding of the constructor `RefinedLevelSet::RefinedLevelSet`
(level_set.cpp 266-273); the base class `RefinedMesh` runs the five-argument
constructor of `LevelSet` with a buffer width of 4. -/
def constructRefined (g : LevelSetSetup D) (k : PackageOperations D) (coarse_level_set : LevelSet Real D) :
    Except Fault (LevelSetState D) :=
  match construct5 { g with buffer_width_ := 4 } with
  | .error e => .error e
  | .ok s0 =>
    match MeshIterator_parallel (initializeDataInACellFromCoarse g coarse_level_set)
        g.all_cells s0 with
    | .error e => .error e
    | .ok s1 => finishDataPackages g k s1

end LevelSetState

/-- Embedding of `MultilevelLevelSet::cleanInterface` (level_set.cpp 314-317) on
the states of the levels, coarsest first: `mesh_levels_.back()` is the last
level, and there is none to take when the vector is empty. -/
def MultilevelLevelSet.cleanInterface {D : Nat} (k : PackageOperations D)
    (small_shift_factor : Real) (mesh_levels_ : List (LevelSetState D)) :
    Except Fault (List (LevelSetState D)) :=
  match mesh_levels_.getLast? with
  | none => .error .outOfBounds
  | some back =>
    .ok (mesh_levels_.set (mesh_levels_.length - 1) (back.cleanInterface k small_shift_factor))

/-- What the passes of the construction of a level keep true of the state.
`far` is the far-field distance, `classified` the cells the classification pass
has visited and `tagged` the cells the tagging pass has visited.  Pointers 0 and
1 are the two singular packages; every other package of the pool is a real one. -/
structure LevelSetState.Consistent {D : Nat} (far : Real) (classified tagged : List (Vecu D))
    (s : LevelSetState D) : Prop where
  singular : s.singular_data_pkgs_addrs_ = [0, 1]
  inside : ∃ p, s.data_pkg_pool_[0]? = some p ∧ p.phi_ = (fun _ => -far) ∧
    p.is_core_pkg_ = false
  outside : ∃ p, s.data_pkg_pool_[1]? = some p ∧ p.phi_ = (fun _ => far) ∧
    p.is_core_pkg_ = false
  core_nodup : s.core_data_pkgs_.Nodup
  inner_nodup : s.inner_data_pkgs_.Nodup
  core_real : ∀ a, a ∈ s.core_data_pkgs_ → 2 ≤ a ∧ a < s.data_pkg_pool_.length
  inner_real : ∀ a, a ∈ s.inner_data_pkgs_ →
    2 ≤ a ∧ ∃ p, s.data_pkg_pool_[a]? = some p ∧ p.pkg_index_ ∈ tagged
  grid_of_pkg : ∀ (a : Nat) (p : LevelSetDataPackage D), 2 ≤ a → s.data_pkg_pool_[a]? = some p →
    s.data_pkg_addrs_ p.pkg_index_ = some a
  pkg_of_grid : ∀ (c : Vecu D) (a : Nat), s.data_pkg_addrs_ c = some a →
    a < 2 ∨ ∃ p, s.data_pkg_pool_[a]? = some p ∧ p.pkg_index_ = c
  assigned : ∀ c : Vecu D, (∃ a, s.data_pkg_addrs_ c = some a) ↔ c ∈ classified
  noncore_tagged : ∀ (a : Nat) (p : LevelSetDataPackage D), 2 ≤ a →
    s.data_pkg_pool_[a]? = some p → p.is_core_pkg_ = false → p.pkg_index_ ∈ tagged

/-- Every cell of `cells` points to one package, which is one of the two
singular packages or a real package that carries the index of the cell. -/
def LevelSetState.EveryCellHasOnePackage {D : Nat} (cells : List (Vecu D))
    (s : LevelSetState D) : Prop :=
  s.singular_data_pkgs_addrs_.length = 2 ∧
    ∀ c, c ∈ cells → ∃ a, s.data_pkg_addrs_ c = some a ∧
      (a ∈ s.singular_data_pkgs_addrs_ ∨
        (a ∉ s.singular_data_pkgs_addrs_ ∧
          ∃ p, s.data_pkg_pool_[a]? = some p ∧ p.pkg_index_ = c))

/-- The real packages of the pool: those that are not singular packages. -/
def LevelSetState.realPackages {D : Nat} (s : LevelSetState D) : List (LevelSetDataPackage D) :=
  s.data_pkg_pool_.drop s.singular_data_pkgs_addrs_.length

/-- Modelled from the spec: the interpolation stencil of `probeMesh`, whose body
is in a header outside `level_set.cpp`.  A position is surrounded by the `2 ^ D`
corners of a cube of data points; `cornerCell` is the cell whose package holds
the value of a corner, `cornerIndex` the place of the corner in the arrays of
that package, and `fraction` the coordinates of the position within the cube. -/
structure ProbeStencil (D : Nat) where
  cornerCell : Vecd D → (Fin D → Bool) → Vecu D
  cornerIndex : Vecd D → (Fin D → Bool) → Vecu D
  fraction : Vecd D → Fin D → Real

/-- The weight of a corner in multilinear interpolation at the coordinates `t`. -/
def multilinearWeight {D : Nat} (t : Fin D → Real) (corner : Fin D → Bool) : Real :=
  ∏ i, if corner i then t i else 1 - t i

/-- The value of `phi_` at a place of the arrays of the package a cell points
to, if the cell points to a package of the pool. -/
def LevelSetState.phiAt {D : Nat} (s : LevelSetState D) (cell_index data_index : Vecu D) :
    Option Real :=
  match s.data_pkg_addrs_ cell_index with
  | none => none
  | some pkg =>
    match s.data_pkg_pool_[pkg]? with
    | none => none
    | some p => some (p.phi_ data_index)

/-- Modelled from the spec: `LevelSet::probeSignedDistance` on the state of a
level locates the packages of the interpolation stencil and interpolates `phi_`
multilinearly between the corners. -/
def LevelSetState.probeSignedDistance {D : Nat} (stencil : ProbeStencil D) (s : LevelSetState D)
    (position : Vecd D) : Except Fault Real :=
  if ∀ corner : Fin D → Bool,
      (s.phiAt (stencil.cornerCell position corner)
        (stencil.cornerIndex position corner)).isSome = true then
    .ok (∑ corner : Fin D → Bool, multilinearWeight (stencil.fraction position) corner *
      (s.phiAt (stencil.cornerCell position corner)
        (stencil.cornerIndex position corner)).getD 0)
  else .error .invalidAddress

/-! What one application of a cell functor changes -/

/-- The state `s2` comes from `s` by changes that concern the cell `c` only:
the other cells point where they pointed, the packages of the pool keep their
core flag and their index and stay inner if they were, new packages carry the
index `c`, the collections only grow, and a package new in the inner collection
carries the index `c`. -/
structure LevelSetState.StepAt {D : Nat} (c : Vecu D) (s s2 : LevelSetState D) : Prop where
  addrs_frame : ∀ y, y ≠ c → s2.data_pkg_addrs_ y = s.data_pkg_addrs_ y
  pool_len : s.data_pkg_pool_.length ≤ s2.data_pkg_pool_.length
  pool_old : ∀ (a : Nat) (p : LevelSetDataPackage D), s.data_pkg_pool_[a]? = some p →
    ∃ q, s2.data_pkg_pool_[a]? = some q ∧ q.is_core_pkg_ = p.is_core_pkg_ ∧
      q.pkg_index_ = p.pkg_index_ ∧ (p.is_inner_pkg_ = true → q.is_inner_pkg_ = true)
  pool_new : ∀ (a : Nat) (q : LevelSetDataPackage D), s.data_pkg_pool_.length ≤ a →
    s2.data_pkg_pool_[a]? = some q → q.pkg_index_ = c
  core_sub : ∀ a, a ∈ s.core_data_pkgs_ → a ∈ s2.core_data_pkgs_
  inner_sub : ∀ a, a ∈ s.inner_data_pkgs_ → a ∈ s2.inner_data_pkgs_
  inner_new : ∀ a, a ∈ s2.inner_data_pkgs_ →
    a ∈ s.inner_data_pkgs_ ∨ ∃ q, s2.data_pkg_pool_[a]? = some q ∧ q.pkg_index_ = c

/-- The outcome of classifying the cell `c`: when `core_test` holds the cell
points to a real package that is flagged core, carries the index of the cell
and is in the core collection; otherwise the cell points to the package
`singular` and no real package carries its index. -/
def LevelSetState.ClassifiedBy {D : Nat} (core_test : Bool) (singular : Nat) (c : Vecu D)
    (s : LevelSetState D) : Prop :=
  if core_test = true then
    ∃ a p, s.data_pkg_addrs_ c = some a ∧ 2 ≤ a ∧ s.data_pkg_pool_[a]? = some p ∧
      p.is_core_pkg_ = true ∧ p.pkg_index_ = c ∧ a ∈ s.core_data_pkgs_
  else
    s.data_pkg_addrs_ c = some singular ∧
      ∀ (a : Nat) (p : LevelSetDataPackage D), 2 ≤ a → s.data_pkg_pool_[a]? = some p →
        p.pkg_index_ ≠ c

/-- The core flag of the package a cell points to, if it points to one. -/
def LevelSetState.coreFlagAt {D : Nat} (s : LevelSetState D) (cell_index : Vecu D) :
    Option Bool :=
  match s.data_pkg_addrs_ cell_index with
  | none => none
  | some pkg => (s.data_pkg_pool_[pkg]?).map LevelSetDataPackage.is_core_pkg_

/-- Modelled from the spec: `isInnerPackage`, whose body is in a header outside
`level_set.cpp`, tells whether a cell is a core cell or a neighbour of one, so
its answer depends on the level only through the core flags of the packages the
cells point to. -/
def LevelSetSetup.InnerFromCoreFlags {D : Nat} (g : LevelSetSetup D) : Prop :=
  ∀ (s s2 : LevelSetState D) (c : Vecu D),
    (∀ y, s.coreFlagAt y = s2.coreFlagAt y) → g.isInnerPackage s c = g.isInnerPackage s2 c

/-- The outcome of tagging the cell `c` in a pass started from the state `s1`:
an inner cell points to a package of the inner collection that is flagged inner
and carries the index of the cell, which is either the core package the cell
pointed to before the pass or, when the cell pointed to a singular package, a
package that was not in the pool before the pass and is not core; a cell that
is not inner points where it pointed, and no package of the inner collection
carries its index. -/
def LevelSetState.Tagged {D : Nat} (g : LevelSetSetup D) (s1 : LevelSetState D) (c : Vecu D)
    (s : LevelSetState D) : Prop :=
  if g.isInnerPackage s1 c = true then
    ∃ a q, s.data_pkg_addrs_ c = some a ∧ s.data_pkg_pool_[a]? = some q ∧
      a ∈ s.inner_data_pkgs_ ∧ q.is_inner_pkg_ = true ∧ q.pkg_index_ = c ∧
      ((s1.data_pkg_addrs_ c = some a ∧ q.is_core_pkg_ = true) ∨
        ((∃ a1, s1.data_pkg_addrs_ c = some a1 ∧ a1 < 2) ∧ s1.data_pkg_pool_.length ≤ a ∧
          q.is_core_pkg_ = false))
  else
    s.data_pkg_addrs_ c = s1.data_pkg_addrs_ c ∧
      ∀ (a : Nat) (q : LevelSetDataPackage D), a ∈ s.inner_data_pkgs_ →
        s.data_pkg_pool_[a]? = some q → q.pkg_index_ ≠ c

/-- What a tagging pass started from `s1` keeps true of the cells it has not
visited and of the packages that existed before it. -/
structure LevelSetState.TaggingFrame {D : Nat} (s1 : LevelSetState D) (visited : List (Vecu D))
    (s : LevelSetState D) : Prop where
  addrs_unvisited : ∀ y, y ∉ visited → s.data_pkg_addrs_ y = s1.data_pkg_addrs_ y
  pool_len : s1.data_pkg_pool_.length ≤ s.data_pkg_pool_.length
  pool_old : ∀ (a : Nat) (p : LevelSetDataPackage D), s1.data_pkg_pool_[a]? = some p →
    ∃ q, s.data_pkg_pool_[a]? = some q ∧ q.is_core_pkg_ = p.is_core_pkg_ ∧
      q.pkg_index_ = p.pkg_index_

/-! The statements of `createDataPackage` and the pool lock -/

/-- The statements of `LevelSet::createDataPackage` (level_set.cpp 212-220) that
act on the pool, its lock, the new package or the background grid. -/
inductive CreationStatement where
  /-- The call `mutex_my_pool.lock()`. -/
  | lock
  /-- The call `data_pkg_pool_.malloc()`. -/
  | malloc
  /-- The call `mutex_my_pool.unlock()`. -/
  | unlock
  /-- The call `new_data_pkg.registerAllVariables()`. -/
  | registerAllVariables
  /-- The call `new_data_pkg.initializePackageGeometry(...)`. -/
  | initializePackageGeometry
  /-- The call `new_data_pkg.initializeBasicData(shape_)`. -/
  | initializeBasicData
  /-- The assignment `new_data_pkg.pkg_index_ = cell_index`. -/
  | assignPkgIndex
  /-- The call `assignDataPackageAddress(cell_index, &new_data_pkg)`. -/
  | assignDataPackageAddress
  deriving DecidableEq, Repr

/-- The body of `LevelSet::createDataPackage` as the sequence of its statements,
in the order of the code. -/
def createDataPackageStatements : List CreationStatement :=
  [.lock, .malloc, .unlock, .registerAllVariables, .initializePackageGeometry,
    .initializeBasicData, .assignPkgIndex, .assignDataPackageAddress]

/-- A point in the execution of `createDataPackage` by one thread: the state of
the level, whether the thread holds `mutex_my_pool`, the package obtained from
the pool if any, and for each statement executed so far whether the lock was
held when it started. -/
structure CreationProgress (D : Nat) where
  state : LevelSetState D
  lock_held : Bool
  new_data_pkg : Option Nat
  held_at : List (CreationStatement × Bool)

/-- The effect of one statement of `createDataPackage` on the members kept in
`LevelSetState`.  The address tables that `registerAllVariables` fills and the
geometry that `initializePackageGeometry` sets are not among them. -/
def CreationStatement.effect {D : Nat} (g : LevelSetSetup D) (cell_index : Vecu D)
    (cell_position : Vecd D) (statement : CreationStatement) (m : CreationProgress D) :
    CreationProgress D :=
  let logged := m.held_at ++ [(statement, m.lock_held)]
  match statement, m.new_data_pkg with
  | .lock, _ => { m with lock_held := true, held_at := logged }
  | .unlock, _ => { m with lock_held := false, held_at := logged }
  | .malloc, _ =>
    { m with
      state := { m.state with
        data_pkg_pool_ := m.state.data_pkg_pool_ ++ [LevelSetDataPackage.construct g.raw_pkg] }
      new_data_pkg := some m.state.data_pkg_pool_.length
      held_at := logged }
  | .initializeBasicData, some pkg =>
    { m with
      state := { m.state with
        data_pkg_pool_ := m.state.data_pkg_pool_.modify (fun p =>
          { g.initializeBasicData cell_position with
            is_core_pkg_ := p.is_core_pkg_
            is_inner_pkg_ := p.is_inner_pkg_
            pkg_index_ := p.pkg_index_ }) pkg }
      held_at := logged }
  | .assignPkgIndex, some pkg =>
    { m with
      state := { m.state with
        data_pkg_pool_ := m.state.data_pkg_pool_.modify (fun p =>
          { p with pkg_index_ := cell_index }) pkg }
      held_at := logged }
  | .assignDataPackageAddress, some pkg =>
    { m with
      state := LevelSetState.assignDataPackageAddress cell_index pkg m.state
      held_at := logged }
  | _, _ => { m with held_at := logged }

/-- Running a sequence of statements of `createDataPackage`. -/
def runCreation {D : Nat} (g : LevelSetSetup D) (cell_index : Vecu D) (cell_position : Vecd D)
    (statements : List CreationStatement) (m : CreationProgress D) : CreationProgress D :=
  statements.foldl (fun m1 statement => statement.effect g cell_index cell_position m1) m

/-! What the update passes read -/

/-- A package with its `phi_gradient_` array blanked. -/
def LevelSetDataPackage.withoutGradient {D : Nat} (p : LevelSetDataPackage D) :
    LevelSetDataPackage D :=
  { p with phi_gradient_ := fun _ _ => 0 }

/-- A package with its `kernel_weight_` and `kernel_gradient_` arrays blanked. -/
def LevelSetDataPackage.withoutKernelIntegrals {D : Nat} (p : LevelSetDataPackage D) :
    LevelSetDataPackage D :=
  { p with kernel_weight_ := fun _ => 0, kernel_gradient_ := fun _ _ => 0 }

/-- The state with a function applied to every package of the pool. -/
def LevelSetState.mapPackages {D : Nat} (f : LevelSetDataPackage D → LevelSetDataPackage D)
    (s : LevelSetState D) : LevelSetState D :=
  { s with data_pkg_pool_ := s.data_pkg_pool_.map f }

/-- Modelled from the spec: `computeGradient` is a finite-difference stencil over
`phi_` that writes `phi_gradient_`, so it yields the same array on two levels
that differ in their `phi_gradient_` arrays only. -/
def PackageOperations.GradientFromPhi {D : Nat} (k : PackageOperations D) : Prop :=
  ∀ (s s2 : LevelSetState D) (pkg : Nat),
    s.mapPackages LevelSetDataPackage.withoutGradient =
      s2.mapPackages LevelSetDataPackage.withoutGradient →
    k.computeGradient s pkg = k.computeGradient s2 pkg

/-- Modelled from the spec: `computeKernelIntegrals` evaluates the kernel
integrals from the level-set field and writes `kernel_weight_` and
`kernel_gradient_`, so it yields the same arrays on two levels that differ in
these two arrays only. -/
def PackageOperations.KernelIntegralsFromLevelSet {D : Nat} (k : PackageOperations D) : Prop :=
  ∀ (s s2 : LevelSetState D) (pkg : Nat),
    s.mapPackages LevelSetDataPackage.withoutKernelIntegrals =
      s2.mapPackages LevelSetDataPackage.withoutKernelIntegrals →
    k.computeKernelIntegrals s pkg = k.computeKernelIntegrals s2 pkg

/-! Functions of real numbers: the smoothed step and the reaction update -/

/-- Embedding of `BaseLevelSet::computeHeaviside` (level_set.cpp 42-51).  The
number type `R`, the library function `sin` and the constant `Pi` are
parameters, so that the definition can be run on rationals and stated on the
real numbers with the real sine. -/
def BaseLevelSet.computeHeaviside {R : Type} [LinearOrderedField R] (sin : R → R) (Pi : R)
    (phi half_width : R) : R :=
  let heaviside : R := 0
  let normalized_phi := phi / half_width
  let heaviside :=
    if phi < half_width ∧ phi > -half_width then
      (1 / 2 + 1 / 2 * normalized_phi) + 1 / 2 * sin (Pi * normalized_phi) / Pi
    else heaviside
  let heaviside := if normalized_phi > 1 then 1 else heaviside
  heaviside

/-- Embedding of `UpdateAReactionSpecies::operator()`
(particle_dynamics_diffusion_reaction.h 220-226).  The number type `R`, the
library function `exp` and the constant `TinyReal` are parameters. -/
def UpdateAReactionSpecies {R : Type} [Field R] (exp : R → R) (TinyReal : R)
    (input production_rate loss_rate dt : R) : R :=
  input * exp (-loss_rate * dt) +
    production_rate * (1 - exp (-loss_rate * dt)) / (loss_rate + TinyReal)

/-! Concrete levels used to evaluate the definitions -/

/-- A level on a 10 x 10 background grid of unit cells with lower corner at the
origin: the cell index of a position is the floor of each coordinate, kept
within the grid.  The core band test and the probed kernel fields are constant. -/
def sampleLevel (ratio weight : Real) (within : Bool) : LevelSet Real 2 where
  global_h_ratio_ := ratio
  data_spacing_ := 1 / 4
  number_of_cells_ := fun _ => 10
  CellIndexFromPosition := fun position i => min (Int.toNat ⌊position i⌋) 9
  isWithinCorePackage := fun _ => within
  probeMesh_kernel_weight := fun _ => weight
  probeMesh_kernel_gradient := fun _ _ => weight
  probeMesh_phi := fun _ => weight
  probeMesh_phi_gradient := fun _ i => if i = 0 then 3 / 5 else 4 / 5

/-- The multilevel set holding exactly the given levels. -/
def sampleMultilevel (levels : List (LevelSet Real 2)) : MultilevelLevelSet 2 where
  total_levels_ := levels.length
  mesh_levels_ := levels
  levels_size := rfl

/-- The machine epsilon of a `double`, a value of `Eps` in use. -/
def sampleEps : Real := 1 / 2 ^ 52

/-- Two levels with resolution ratios 1 and 2, as built from spacings 0.1 and 0.05. -/
def scenarioB : MultilevelLevelSet 2 :=
  sampleMultilevel [sampleLevel 1 3 false, sampleLevel 2 5 true]

/-- Two levels with resolution ratios 1 and 3/2 whose probed kernel values are
0 and 1. -/
def halfStepLevels : MultilevelLevelSet 2 :=
  sampleMultilevel [sampleLevel 1 0 false, sampleLevel (3 / 2) 1 true]

/-- Two levels whose ratios 1/2 and 1/2 + 2^-53 are adjacent `double` values,
followed by a third level of ratio 3. -/
def closeLevels : MultilevelLevelSet 2 :=
  sampleMultilevel
    [sampleLevel (1 / 2) 3 false, sampleLevel (1 / 2 + 1 / 2 ^ 53) 5 false, sampleLevel 3 7 false]

/-- A position in cell (8, 5) of the 10 x 10 grid of `sampleLevel`. -/
def nearUpperEdge : Vecd 2 := fun i => if i = 0 then 17 / 2 else 11 / 2

/-- The origin of the plane. -/
def origin : Vecd 2 := fun _ => 0

/-- A length function on plane vectors that is the Euclidean length wherever
the squared length is the square of a rational number. -/
def sampleNorm (v : Vecd 2) : Real := Rat.sqrt (normSqr v)

/-- A level whose probed gradient is the unit vector (3/5, 4/5) everywhere. -/
def slopedLevel : LevelSet Real 2 := sampleLevel 1 0 true

/-- A level whose probed gradient vanishes everywhere. -/
def flatLevel : LevelSet Real 2 :=
  { sampleLevel 1 0 true with probeMesh_phi_gradient := fun _ _ => 0 }

/-- A level whose probed gradient vanishes at the origin and is (3/5, 4/5)
everywhere else. -/
def kinkLevel : LevelSet Real 2 :=
  { sampleLevel 1 0 true with
    probeMesh_phi_gradient := fun position i =>
      if position = origin then 0 else if i = 0 then 3 / 5 else 4 / 5 }

/-- The centre of cell (5, 5) of the 10 x 10 grid of `sampleLevel`. -/
def midGrid : Vecd 2 := fun _ => 11 / 2

/-- A source of `rand()` values that always returns `RAND_MAX = 32767`. -/
def sampleRand : Nat → Nat := fun _ => 32767

/-- A valid shape: the half plane of negative first coordinate. -/
def halfPlane : Shape 2 where
  isValid := true
  findSignedDistance := fun position => position 0
  findNormalDirection := fun _ i => if i = 0 then 1 else 0
  checkContain := fun position => decide (position 0 < 0)

/-- A level on the plane, over any ordered field, whose probed gradient is
(1, 1) everywhere; the length of that vector is not a rational number. -/
def diagonalLevel (R : Type) [LinearOrderedField R] : LevelSet R 2 where
  global_h_ratio_ := 1
  data_spacing_ := 1 / 4
  number_of_cells_ := fun _ => 10
  CellIndexFromPosition := fun _ _ => 5
  isWithinCorePackage := fun _ => true
  probeMesh_kernel_weight := fun _ => 0
  probeMesh_kernel_gradient := fun _ _ => 0
  probeMesh_phi := fun _ => 0
  probeMesh_phi_gradient := fun _ _ => 1

/-- The cell of index `(i, j)`. -/
def sampleCell (i j : Nat) : Vecu 2 := fun k => if k = 0 then i else j

/-- A package whose arrays are all zero. -/
def zeroPackage : LevelSetDataPackage 2 where
  is_core_pkg_ := false
  is_inner_pkg_ := false
  pkg_index_ := fun _ => 0
  phi_ := fun _ => 0
  phi_gradient_ := fun _ _ => 0
  kernel_weight_ := fun _ => 0
  kernel_gradient_ := fun _ _ => 0
  near_interface_id_ := fun _ => 0

/-- A row of five unit cells centred at the first coordinates -2, -1, 0, 1 and 2
around the boundary of `halfPlane`.  A cell counts as inner when it or a cell
next to it in the row points to a core package. -/
def sampleSetup : LevelSetSetup 2 where
  shape_ := halfPlane
  grid_spacing_ := 1
  data_spacing_ := 1 / 4
  buffer_width_ := 4
  all_cells := [sampleCell 0 0, sampleCell 1 0, sampleCell 2 0, sampleCell 3 0, sampleCell 4 0]
  CellPositionFromIndex := fun cell_index i => (cell_index i : Real) - 2
  raw_pkg := zeroPackage
  initializeBasicData := fun position =>
    { zeroPackage with phi_ := fun _ => halfPlane.findSignedDistance position }
  isInnerPackage := fun s cell_index =>
    [sampleCell (cell_index 0 - 1) 0, sampleCell (cell_index 0) 0,
      sampleCell (cell_index 0 + 1) 0].any (fun neighbour =>
        match s.data_pkg_addrs_ neighbour with
        | none => false
        | some pkg =>
          match s.data_pkg_pool_[pkg]? with
          | none => false
          | some p => p.is_core_pkg_)

/-- Per-package computations that write constant arrays. -/
def sampleOperations : PackageOperations 2 where
  computeGradient := fun _ _ _ i => if i = 0 then 1 else 0
  computeKernelIntegrals := fun _ _ => (fun _ => 0, fun _ _ => 0)
  stepReinitialization := fun _ _ _ => 0
  markNearInterface := fun _ _ _ _ => 0
  redistanceInterfaceForAPackage := fun _ _ _ => 0

/-- A stencil on the row of `sampleSetup` whose corners all lie in the cell
that holds the position. -/
def sampleStencil : ProbeStencil 2 where
  cornerCell := fun position _ => sampleCell (Int.toNat ⌊position 0 + 5 / 2⌋) 0
  cornerIndex := fun _ corner i => if corner i then 1 else 0
  fraction := fun position i => Int.fract (position i + 5 / 2)

/-- The setup of `sampleSetup` with a single cell, centred at the first
coordinate -2, two cells inside the boundary. -/
def farSetup : LevelSetSetup 2 := { sampleSetup with all_cells := [sampleCell 0 0] }

/-- The state in which the two singular packages exist and the cell `(0, 0)`
points to the first of them. -/
def farState : LevelSetState 2 :=
  LevelSetState.assignDataPackageAddress (sampleCell 0 0) 0
    (LevelSetState.initializeASingularDataPackage farSetup 4
      (LevelSetState.initializeASingularDataPackage farSetup (-4) LevelSetState.initial))

/-- The centre of the cell `(0, 0)` of `farSetup`. -/
def farInside : Vecd 2 := fun i => if i = 0 then -2 else 0

/-- A state with the two singular packages and one real package, which is core
and inner and belongs to the cell `(2, 0)`. -/
def sampleState : LevelSetState 2 where
  data_pkg_pool_ :=
    [zeroPackage, zeroPackage,
      { zeroPackage with is_core_pkg_ := true, is_inner_pkg_ := true, pkg_index_ := sampleCell 2 0 }]
  data_pkg_addrs_ := fun cell_index => if cell_index = sampleCell 2 0 then some 2 else some 0
  singular_data_pkgs_addrs_ := [0, 1]
  core_data_pkgs_ := [2]
  inner_data_pkgs_ := [2]

/-! The level search `getMeshLevel` -/

/-- A returned index is below the loop bound, passes the test, and no index
between it and the loop bound passes the test. -/
theorem getMeshLevelLoop_ok (Eps : Real) (levels : List (LevelSet Real D)) (h : Real) :
    ∀ (n k : Nat), getMeshLevelLoop Eps levels h n = .ok k →
      k < n ∧ (∃ l, levels[k]? = some l ∧ h - l.global_h_ratio_ > -Eps) ∧
        ∀ j l, k < j → j < n → levels[j]? = some l → ¬ (h - l.global_h_ratio_ > -Eps) := by
  intro n
  induction n with
  | zero => intro k hk; simp [getMeshLevelLoop] at hk
  | succ n ih =>
    intro k hk
    unfold getMeshLevelLoop at hk
    cases hl : levels[n]? with
    | none => simp [hl] at hk
    | some l =>
      simp only [hl] at hk
      by_cases hc : h - l.global_h_ratio_ > -Eps
      · rw [if_pos hc] at hk
        injection hk with hk
        subst hk
        refine ⟨Nat.lt_succ_self _, ⟨l, hl, hc⟩, ?_⟩
        intro j _ hj1 hj2
        omega
      · rw [if_neg hc] at hk
        obtain ⟨h1, h2, h3⟩ := ih k hk
        refine ⟨Nat.lt_succ_of_lt h1, h2, ?_⟩
        intro j l2 hkj hjn hj
        by_cases hjn2 : j = n
        · subst hjn2
          rw [hl] at hj
          injection hj with hj
          subst hj
          exact hc
        · exact h3 j l2 hkj (by omega) hj

/-- When some index below the loop bound passes the test, the loop returns an
index at least as high. -/
theorem getMeshLevelLoop_of_accept (Eps : Real) (levels : List (LevelSet Real D)) (h : Real) :
    ∀ (n j : Nat) (l : LevelSet Real D), n ≤ levels.length → j < n → levels[j]? = some l →
      h - l.global_h_ratio_ > -Eps →
      ∃ k, getMeshLevelLoop Eps levels h n = .ok k ∧ j ≤ k := by
  intro n
  induction n with
  | zero => intro j l _ hj; omega
  | succ n ih =>
    intro j l hn hj hl hacc
    have hlt : n < levels.length := hn
    unfold getMeshLevelLoop
    rw [List.getElem?_eq_getElem hlt]
    simp only
    by_cases hc : h - (levels[n]).global_h_ratio_ > -Eps
    · rw [if_pos hc]
      exact ⟨n, rfl, by omega⟩
    · rw [if_neg hc]
      have hjn : j ≠ n := by
        intro hjn
        subst hjn
        rw [List.getElem?_eq_getElem hlt] at hl
        injection hl with hl
        subst hl
        exact hc hacc
      exact ih j l (by omega) (by omega) hl hacc

/-- When no index below the loop bound passes the test, the loop ends in the
fatal branch. -/
theorem getMeshLevelLoop_of_no_accept (Eps : Real) (levels : List (LevelSet Real D)) (h : Real) :
    ∀ (n : Nat), n ≤ levels.length →
      (∀ j l, j < n → levels[j]? = some l → ¬ (h - l.global_h_ratio_ > -Eps)) →
      getMeshLevelLoop Eps levels h n = .error .fatalExit := by
  intro n
  induction n with
  | zero => intro _ _; rfl
  | succ n ih =>
    intro hn hno
    have hlt : n < levels.length := hn
    unfold getMeshLevelLoop
    rw [List.getElem?_eq_getElem hlt]
    simp only
    have hc : ¬ (h - (levels[n]).global_h_ratio_ > -Eps) :=
      hno n _ (Nat.lt_succ_self _) (List.getElem?_eq_getElem hlt)
    rw [if_neg hc]
    exact ih (by omega) (fun j l hj => hno j l (by omega))

/-- In a list with strictly increasing ratios, a level of higher index has a
higher ratio. -/
theorem ratio_lt_of_index_lt (levels : List (LevelSet Real D))
    (hinc : (levels.map LevelSet.global_h_ratio_).Pairwise (· < ·))
    (i j : Nat) (li lj : LevelSet Real D) (hij : i < j)
    (hi : levels[i]? = some li) (hj : levels[j]? = some lj) :
    li.global_h_ratio_ < lj.global_h_ratio_ := by
  obtain ⟨hil, hie⟩ := List.getElem?_eq_some.mp hi
  obtain ⟨hjl, hje⟩ := List.getElem?_eq_some.mp hj
  have key := List.pairwise_iff_getElem.mp hinc i j (by simpa using hil) (by simpa using hjl) hij
  simp only [List.getElem_map] at key
  rw [hie, hje] at key
  exact key

/-- With a positive `Eps`, strictly increasing ratios, and the level after `k`
(if there is one) at least `Eps` above level `k`, the search started at level
`k`'s own ratio returns `k`. -/
theorem getMeshLevelLoop_own_ratio (Eps : Real) (levels : List (LevelSet Real D)) (k : Nat)
    (l : LevelSet Real D) (hEps : 0 < Eps)
    (hinc : (levels.map LevelSet.global_h_ratio_).Pairwise (· < ·))
    (hl : levels[k]? = some l)
    (hgap : ∀ l2 : LevelSet Real D, levels[k + 1]? = some l2 →
      l.global_h_ratio_ + Eps ≤ l2.global_h_ratio_) :
    getMeshLevelLoop Eps levels l.global_h_ratio_ levels.length = .ok k := by
  obtain ⟨hkl, _⟩ := List.getElem?_eq_some.mp hl
  have hacc : l.global_h_ratio_ - l.global_h_ratio_ > -Eps := by linarith
  obtain ⟨k2, hk2, hle⟩ := getMeshLevelLoop_of_accept Eps levels l.global_h_ratio_
    levels.length k l le_rfl hkl hl hacc
  obtain ⟨hk2lt, ⟨l3, hl3, hacc3⟩, _⟩ :=
    getMeshLevelLoop_ok Eps levels l.global_h_ratio_ levels.length k2 hk2
  have hk2le : k2 ≤ k := by
    by_contra hgt
    have hgt : k < k2 := Nat.lt_of_not_le hgt
    have hnext : k + 1 < levels.length := by omega
    have hl2 : levels[k + 1]? = some levels[k + 1] := List.getElem?_eq_getElem hnext
    have hg := hgap _ hl2
    have hmono : (levels[k + 1]).global_h_ratio_ ≤ l3.global_h_ratio_ := by
      by_cases he : k + 1 = k2
      · subst he
        rw [hl2] at hl3
        injection hl3 with hl3
        rw [hl3]
      · exact le_of_lt (ratio_lt_of_index_lt levels hinc (k + 1) k2 _ l3 (by omega) hl2 hl3)
    linarith
  have hkk : k2 = k := le_antisymm hk2le hle
  rw [hk2, hkk]

/-- The loop of `getProbeLevel` always returns; its result either is the
highest index below the loop bound whose core band holds the position, or is 0
when no index below the loop bound does. -/
theorem getProbeLevelLoop_spec (levels : List (LevelSet Real D)) (position : Vecd D) :
    ∀ n : Nat, n ≤ levels.length →
      ∃ k, getProbeLevelLoop levels position n = .ok k ∧
        ((k < n ∧ (∃ l, levels[k]? = some l ∧ l.isWithinCorePackage position = true) ∧
            ∀ (j : Nat) (l : LevelSet Real D), k < j → j < n → levels[j]? = some l →
              l.isWithinCorePackage position = false) ∨
          (k = 0 ∧ ∀ (j : Nat) (l : LevelSet Real D), j < n → levels[j]? = some l →
              l.isWithinCorePackage position = false)) := by
  intro n
  induction n with
  | zero =>
    intro _
    exact ⟨0, rfl, Or.inr ⟨rfl, fun j l hj => absurd hj (Nat.not_lt_zero j)⟩⟩
  | succ n ih =>
    intro hn
    have hlt : n < levels.length := hn
    have hget : levels[n]? = some levels[n] := List.getElem?_eq_getElem hlt
    unfold getProbeLevelLoop
    rw [hget]
    simp only
    cases hc : (levels[n]).isWithinCorePackage position with
    | true =>
      refine ⟨n, by simp, Or.inl ⟨Nat.lt_succ_self n, ⟨_, hget, hc⟩, ?_⟩⟩
      intro j _ h1 h2
      omega
    | false =>
      obtain ⟨k, hk, hcase⟩ := ih (by omega)
      refine ⟨k, by simpa using hk, ?_⟩
      have hstep : ∀ (j : Nat) (l : LevelSet Real D), j < n + 1 → ¬ j < n → levels[j]? = some l →
          l.isWithinCorePackage position = false := by
        intro j l hj1 hj2 hj
        have hjn : j = n := by omega
        subst hjn
        rw [hget] at hj
        injection hj with hj
        rw [← hj]
        exact hc
      rcases hcase with ⟨h1, h2, h3⟩ | ⟨h1, h2⟩
      · refine Or.inl ⟨Nat.lt_succ_of_lt h1, h2, ?_⟩
        intro j l hkj hjn hj
        by_cases hjn2 : j < n
        · exact h3 j l hkj hjn2 hj
        · exact hstep j l hjn hjn2 hj
      · refine Or.inr ⟨h1, ?_⟩
        intro j l hjn hj
        by_cases hjn2 : j < n
        · exact h2 j l hjn2 hj
        · exact hstep j l hjn hjn2 hj

/-- C1. Whenever `getMeshLevel` returns an index `k`, that index is a level of
the set, level `k` passes the comparison `h_ratio - global_h_ratio_ > -Eps`, and
no level of higher index passes it: `k` is the highest level whose resolution
ratio is at most `h_ratio` under the `Eps` guard. -/
theorem getMeshLevel_is_highest_accepted (Eps : Real) (m : MultilevelLevelSet D)
    (h_ratio : Real) (k : Nat) (hk : m.getMeshLevel Eps h_ratio = .ok k) :
    k < m.total_levels_ ∧
      (∃ l, m.mesh_levels_[k]? = some l ∧ h_ratio - l.global_h_ratio_ > -Eps) ∧
      ∀ j l, k < j → m.mesh_levels_[j]? = some l → ¬ (h_ratio - l.global_h_ratio_ > -Eps) := by
  obtain ⟨h1, h2, h3⟩ := getMeshLevelLoop_ok Eps m.mesh_levels_ h_ratio m.total_levels_ k hk
  refine ⟨h1, h2, ?_⟩
  intro j l hkj hj
  have hjlt : j < m.mesh_levels_.length := by
    by_contra hge
    rw [List.getElem?_eq_none (Nat.le_of_not_lt hge)] at hj
    exact Option.noConfusion hj
  exact h3 j l hkj (m.levels_size ▸ hjlt) hj

/-- Witness for C1 on the two-level set with ratios 1 and 2 queried at 3/2. -/
theorem getMeshLevel_is_highest_accepted_witness :
    scenarioB.getMeshLevel sampleEps (3 / 2) = .ok 0 ∧
      (0 < scenarioB.total_levels_ ∧
        (∃ l, scenarioB.mesh_levels_[0]? = some l ∧ (3 / 2 : Real) - l.global_h_ratio_ > -sampleEps) ∧
        ∀ j l, 0 < j → scenarioB.mesh_levels_[j]? = some l →
          ¬ ((3 / 2 : Real) - l.global_h_ratio_ > -sampleEps)) :=
  have h : scenarioB.getMeshLevel sampleEps (3 / 2) = .ok 0 := by
    norm_num [MultilevelLevelSet.getMeshLevel, getMeshLevelLoop, scenarioB, sampleMultilevel,
      sampleLevel, sampleEps]
  ⟨h, getMeshLevel_is_highest_accepted sampleEps scenarioB (3 / 2) 0 h⟩

/-- C2. `getMeshLevel` ends in the fatal branch exactly when no level passes
the comparison `h_ratio - global_h_ratio_ > -Eps` (in particular when there is
no level at all); in every other case it returns an index below
`total_levels_`. -/
theorem getMeshLevel_fatal_iff_no_level_accepted (Eps : Real) (m : MultilevelLevelSet D)
    (h_ratio : Real) :
    (m.getMeshLevel Eps h_ratio = .error .fatalExit ↔
        ∀ (j : Nat) (l : LevelSet Real D), m.mesh_levels_[j]? = some l → ¬ (h_ratio - l.global_h_ratio_ > -Eps)) ∧
      (m.getMeshLevel Eps h_ratio = .error .fatalExit ∨
        ∃ k, m.getMeshLevel Eps h_ratio = .ok k ∧ k < m.total_levels_) := by
  have hlen : m.total_levels_ ≤ m.mesh_levels_.length := le_of_eq m.levels_size.symm
  have key : (∀ (j : Nat) (l : LevelSet Real D), m.mesh_levels_[j]? = some l → ¬ (h_ratio - l.global_h_ratio_ > -Eps)) ∨
      ∃ k, m.getMeshLevel Eps h_ratio = .ok k ∧ k < m.total_levels_ := by
    by_cases hall : ∀ (j : Nat) (l : LevelSet Real D), m.mesh_levels_[j]? = some l → ¬ (h_ratio - l.global_h_ratio_ > -Eps)
    · exact Or.inl hall
    · right
      push_neg at hall
      obtain ⟨j, l, hj, hacc⟩ := hall
      have hjlt : j < m.total_levels_ := by
        by_contra hge
        rw [List.getElem?_eq_none (by rw [m.levels_size]; exact Nat.le_of_not_lt hge)] at hj
        exact Option.noConfusion hj
      obtain ⟨k, hk, _⟩ :=
        getMeshLevelLoop_of_accept Eps m.mesh_levels_ h_ratio m.total_levels_ j l hlen hjlt hj hacc
      exact ⟨k, hk, (getMeshLevelLoop_ok Eps m.mesh_levels_ h_ratio _ k hk).1⟩
  have fatal_of : (∀ (j : Nat) (l : LevelSet Real D), m.mesh_levels_[j]? = some l → ¬ (h_ratio - l.global_h_ratio_ > -Eps)) →
      m.getMeshLevel Eps h_ratio = .error .fatalExit := fun hall =>
    getMeshLevelLoop_of_no_accept Eps m.mesh_levels_ h_ratio m.total_levels_ hlen
      (fun j l _ hj => hall j l hj)
  refine ⟨⟨?_, fatal_of⟩, ?_⟩
  · intro hf
    rcases key with hall | ⟨k, hk, _⟩
    · exact hall
    · rw [hf] at hk
      exact Except.noConfusion hk
  · rcases key with hall | hok
    · exact Or.inl (fatal_of hall)
    · exact Or.inr hok

/-- C3. `getMeshLevel` is non-decreasing in its ratio argument: when it returns
for `h1` and `h1 ≤ h2`, it returns for `h2` as well, with an index at least as
high. -/
theorem getMeshLevel_monotone (Eps : Real) (m : MultilevelLevelSet D) (h1 h2 : Real) (k1 : Nat)
    (hle : h1 ≤ h2) (hk1 : m.getMeshLevel Eps h1 = .ok k1) :
    ∃ k2, m.getMeshLevel Eps h2 = .ok k2 ∧ k1 ≤ k2 := by
  obtain ⟨hlt, ⟨l, hl, hacc⟩, _⟩ := getMeshLevelLoop_ok Eps m.mesh_levels_ h1 m.total_levels_ k1 hk1
  have hacc2 : h2 - l.global_h_ratio_ > -Eps := by linarith
  exact getMeshLevelLoop_of_accept Eps m.mesh_levels_ h2 m.total_levels_ k1 l
    (le_of_eq m.levels_size.symm) hlt hl hacc2

/-- Witness for C3 on the two-level set with ratios 1 and 2 at 3/2 and 5/2. -/
theorem getMeshLevel_monotone_witness :
    (3 / 2 : Real) ≤ 5 / 2 ∧ scenarioB.getMeshLevel sampleEps (3 / 2) = .ok 0 ∧
      ∃ k2, scenarioB.getMeshLevel sampleEps (5 / 2) = .ok k2 ∧ 0 ≤ k2 :=
  have hle : (3 / 2 : Real) ≤ 5 / 2 := by norm_num
  have h : scenarioB.getMeshLevel sampleEps (3 / 2) = .ok 0 := by
    norm_num [MultilevelLevelSet.getMeshLevel, getMeshLevelLoop, scenarioB, sampleMultilevel,
      sampleLevel, sampleEps]
  ⟨hle, h, getMeshLevel_monotone sampleEps scenarioB (3 / 2) (5 / 2) 0 hle h⟩

/-- C4 (as stated, refuted). The three ratios 1/2 < 1/2 + 2^-53 < 3 are strictly
increasing, yet with `Eps = 2^-52` the search at level 0's own ratio 1/2 returns
level 1, not level 0: level 1 is closer than `Eps` and passes the guard. -/
theorem getMeshLevel_own_ratio_counterexample :
    closeLevels.StrictlyIncreasingRatios ∧
      closeLevels.mesh_levels_[0]? = some (sampleLevel (1 / 2) 3 false) ∧
      closeLevels.getMeshLevel sampleEps (sampleLevel (1 / 2) 3 false).global_h_ratio_ = .ok 1 ∧
      closeLevels.getMeshLevel sampleEps (sampleLevel (1 / 2) 3 false).global_h_ratio_ ≠ .ok 0 := by
  have h : closeLevels.getMeshLevel sampleEps (sampleLevel (1 / 2) 3 false).global_h_ratio_
      = .ok 1 := by
    norm_num [MultilevelLevelSet.getMeshLevel, getMeshLevelLoop, closeLevels, sampleMultilevel,
      sampleLevel, sampleEps]
  refine ⟨?_, rfl, h, ?_⟩
  · norm_num [MultilevelLevelSet.StrictlyIncreasingRatios, closeLevels, sampleMultilevel,
      sampleLevel]
  · rw [h]
    intro hne
    injection hne with hne
    exact absurd hne (by decide)

/-- C4 (amended). For a positive `Eps`, strictly increasing ratios, and the
level after `k` (when `k` is not the finest) at least `Eps` above level `k`,
`getMeshLevel` queried with level `k`'s own `global_h_ratio_` returns exactly
`k`. -/
theorem getMeshLevel_own_ratio (Eps : Real) (m : MultilevelLevelSet D) (k : Nat)
    (l : LevelSet Real D) (hEps : 0 < Eps) (hinc : m.StrictlyIncreasingRatios)
    (hl : m.mesh_levels_[k]? = some l)
    (hgap : ∀ l2 : LevelSet Real D, m.mesh_levels_[k + 1]? = some l2 →
      l.global_h_ratio_ + Eps ≤ l2.global_h_ratio_) :
    m.getMeshLevel Eps l.global_h_ratio_ = .ok k := by
  unfold MultilevelLevelSet.getMeshLevel
  rw [← m.levels_size]
  exact getMeshLevelLoop_own_ratio Eps m.mesh_levels_ k l hEps hinc hl hgap

/-- Witness for the amended C4 on the two-level set with ratios 1 and 2, at
level 0. -/
theorem getMeshLevel_own_ratio_witness :
    (0 < sampleEps ∧ scenarioB.StrictlyIncreasingRatios ∧
        scenarioB.mesh_levels_[0]? = some (sampleLevel 1 3 false) ∧
        ∀ l2 : LevelSet Real 2, scenarioB.mesh_levels_[0 + 1]? = some l2 →
          (sampleLevel 1 3 false).global_h_ratio_ + sampleEps ≤ l2.global_h_ratio_) ∧
      scenarioB.getMeshLevel sampleEps (sampleLevel 1 3 false).global_h_ratio_ = .ok 0 :=
  have hEps : 0 < sampleEps := by norm_num [sampleEps]
  have hinc : scenarioB.StrictlyIncreasingRatios := by
    norm_num [MultilevelLevelSet.StrictlyIncreasingRatios, scenarioB, sampleMultilevel,
      sampleLevel]
  have hgap : ∀ l2 : LevelSet Real 2, scenarioB.mesh_levels_[0 + 1]? = some l2 →
      (sampleLevel 1 3 false).global_h_ratio_ + sampleEps ≤ l2.global_h_ratio_ := by
    intro l2 hl2
    have hl2 : sampleLevel 2 5 true = l2 := by
      simpa [scenarioB, sampleMultilevel] using hl2
    subst hl2
    norm_num [sampleLevel, sampleEps]
  ⟨⟨hEps, hinc, rfl, hgap⟩,
    getMeshLevel_own_ratio sampleEps scenarioB 0 (sampleLevel 1 3 false) hEps hinc rfl hgap⟩

/-- C5. For every position `getProbeLevel` returns; the result is the highest
level whose `isWithinCorePackage` holds at the position, or level 0 when no
level's core band holds it; and with at least one level the result is an index
below `total_levels_`. -/
theorem getProbeLevel_is_finest_core_level (m : MultilevelLevelSet D) (position : Vecd D) :
    ∃ k, m.getProbeLevel position = .ok k ∧
      (((∃ l, m.mesh_levels_[k]? = some l ∧ l.isWithinCorePackage position = true) ∧
          ∀ (j : Nat) (l : LevelSet Real D), k < j → m.mesh_levels_[j]? = some l →
            l.isWithinCorePackage position = false) ∨
        (k = 0 ∧ ∀ (j : Nat) (l : LevelSet Real D), m.mesh_levels_[j]? = some l →
            l.isWithinCorePackage position = false)) ∧
      (0 < m.total_levels_ → k < m.total_levels_) := by
  obtain ⟨k, hk, hcase⟩ := getProbeLevelLoop_spec m.mesh_levels_ position m.total_levels_
    (le_of_eq m.levels_size.symm)
  have hbound : ∀ (j : Nat) (l : LevelSet Real D), m.mesh_levels_[j]? = some l →
      j < m.total_levels_ := by
    intro j l hj
    obtain ⟨hjl, _⟩ := List.getElem?_eq_some.mp hj
    exact m.levels_size ▸ hjl
  refine ⟨k, hk, ?_, ?_⟩
  · rcases hcase with ⟨_, h2, h3⟩ | ⟨h1, h2⟩
    · exact Or.inl ⟨h2, fun j l hkj hj => h3 j l hkj (hbound j l hj) hj⟩
    · exact Or.inr ⟨h1, fun j l hj => h2 j l (hbound j l hj) hj⟩
  · intro hpos
    rcases hcase with ⟨h1, _, _⟩ | ⟨h1, _⟩
    · exact h1
    · rw [h1]
      exact hpos

/-- C6. When `getMeshLevel` returns `c` and `c + 1` is a level as well, both
blended probes are the linear interpolation in `h_ratio` between the values
probed on level `c` and on level `c + 1`, with weight
`alpha = (r_{c+1} - h_ratio) / (r_{c+1} - r_c)` on the coarse value and
`1 - alpha` on the fine one. -/
theorem probeKernelIntegral_is_linear_blend (Eps : Real) (m : MultilevelLevelSet D)
    (position : Vecd D) (h_ratio : Real) (c : Nat)
    (hc : m.getMeshLevel Eps h_ratio = .ok c) (hnext : c + 1 < m.total_levels_) :
    ∃ coarse fine : LevelSet Real D,
      m.mesh_levels_[c]? = some coarse ∧ m.mesh_levels_[c + 1]? = some fine ∧
      m.probeKernelIntegral Eps position h_ratio =
        .ok ((fine.global_h_ratio_ - h_ratio) / (fine.global_h_ratio_ - coarse.global_h_ratio_) *
              coarse.probeKernelIntegral position 1 +
            (1 - (fine.global_h_ratio_ - h_ratio) /
                (fine.global_h_ratio_ - coarse.global_h_ratio_)) *
              fine.probeKernelIntegral position 1) ∧
      m.probeKernelGradientIntegral Eps position h_ratio =
        .ok (fun i =>
          (fine.global_h_ratio_ - h_ratio) / (fine.global_h_ratio_ - coarse.global_h_ratio_) *
              coarse.probeKernelGradientIntegral position 1 i +
            (1 - (fine.global_h_ratio_ - h_ratio) /
                (fine.global_h_ratio_ - coarse.global_h_ratio_)) *
              fine.probeKernelGradientIntegral position 1 i) := by
  have h1 : c + 1 < m.mesh_levels_.length := by rw [m.levels_size]; exact hnext
  have h0 : c < m.mesh_levels_.length := by omega
  have hcoarse : m.mesh_levels_[c]? = some m.mesh_levels_[c] := List.getElem?_eq_getElem h0
  have hfine : m.mesh_levels_[c + 1]? = some m.mesh_levels_[c + 1] := List.getElem?_eq_getElem h1
  refine ⟨m.mesh_levels_[c], m.mesh_levels_[c + 1], hcoarse, hfine, ?_, ?_⟩
  · unfold MultilevelLevelSet.probeKernelIntegral
    rw [hc]
    simp only [hcoarse, hfine, blendAlpha]
  · unfold MultilevelLevelSet.probeKernelGradientIntegral
    rw [hc]
    simp only [hcoarse, hfine, blendAlpha]

/-- Witness for C6 on the two-level set with ratios 1 and 2 queried at 3/2. -/
theorem probeKernelIntegral_is_linear_blend_witness :
    (scenarioB.getMeshLevel sampleEps (3 / 2) = .ok 0 ∧ 0 + 1 < scenarioB.total_levels_) ∧
      ∃ coarse fine : LevelSet Real 2,
        scenarioB.mesh_levels_[0]? = some coarse ∧ scenarioB.mesh_levels_[0 + 1]? = some fine ∧
        scenarioB.probeKernelIntegral sampleEps origin (3 / 2) =
          .ok ((fine.global_h_ratio_ - 3 / 2) / (fine.global_h_ratio_ - coarse.global_h_ratio_) *
                coarse.probeKernelIntegral origin 1 +
              (1 - (fine.global_h_ratio_ - 3 / 2) /
                  (fine.global_h_ratio_ - coarse.global_h_ratio_)) *
                fine.probeKernelIntegral origin 1) ∧
        scenarioB.probeKernelGradientIntegral sampleEps origin (3 / 2) =
          .ok (fun i =>
            (fine.global_h_ratio_ - 3 / 2) / (fine.global_h_ratio_ - coarse.global_h_ratio_) *
                coarse.probeKernelGradientIntegral origin 1 i +
              (1 - (fine.global_h_ratio_ - 3 / 2) /
                  (fine.global_h_ratio_ - coarse.global_h_ratio_)) *
                fine.probeKernelGradientIntegral origin 1 i) :=
  have h : scenarioB.getMeshLevel sampleEps (3 / 2) = .ok 0 := by
    norm_num [MultilevelLevelSet.getMeshLevel, getMeshLevelLoop, scenarioB, sampleMultilevel,
      sampleLevel, sampleEps]
  have hn : 0 + 1 < scenarioB.total_levels_ := by decide
  ⟨⟨h, hn⟩, probeKernelIntegral_is_linear_blend sampleEps scenarioB origin (3 / 2) 0 h hn⟩

/-- C7 (as stated, refuted). On the strictly increasing ratios
1/2 < 1/2 + 2^-53 < 3 with `Eps = 2^-52`, the blended probe at level 0's exact
ratio 1/2 brackets with levels 1 and 2 and returns `7 - 2 * alpha` with
`alpha = 5 * 2^52 / (5 * 2^52 - 1)`, which is not level 0's own value 3.  On the
two-level set with ratios 1 and 2, the probe at the finest level's exact ratio 2
does not return that level's value either. -/
theorem probeKernelIntegral_own_ratio_counterexample :
    closeLevels.StrictlyIncreasingRatios ∧
      closeLevels.mesh_levels_[0]? = some (sampleLevel (1 / 2) 3 false) ∧
      (sampleLevel (1 / 2) 3 false).probeKernelIntegral origin 1 = 3 ∧
      closeLevels.probeKernelIntegral sampleEps origin
          (sampleLevel (1 / 2) 3 false).global_h_ratio_ =
        .ok (7 - 2 * (5 * 2 ^ 52 / (5 * 2 ^ 52 - 1))) ∧
      closeLevels.probeKernelIntegral sampleEps origin
          (sampleLevel (1 / 2) 3 false).global_h_ratio_ ≠
        .ok ((sampleLevel (1 / 2) 3 false).probeKernelIntegral origin 1) ∧
      scenarioB.mesh_levels_[1]? = some (sampleLevel 2 5 true) ∧
      scenarioB.probeKernelIntegral sampleEps origin (sampleLevel 2 5 true).global_h_ratio_ ≠
        .ok ((sampleLevel 2 5 true).probeKernelIntegral origin 1) := by
  have hlevel : closeLevels.getMeshLevel sampleEps (sampleLevel (1 / 2) 3 false).global_h_ratio_
      = .ok 1 := by
    norm_num [MultilevelLevelSet.getMeshLevel, getMeshLevelLoop, closeLevels, sampleMultilevel,
      sampleLevel, sampleEps]
  have h : closeLevels.probeKernelIntegral sampleEps origin
      (sampleLevel (1 / 2) 3 false).global_h_ratio_ =
        .ok (7 - 2 * (5 * 2 ^ 52 / (5 * 2 ^ 52 - 1))) := by
    unfold MultilevelLevelSet.probeKernelIntegral
    rw [hlevel]
    norm_num [closeLevels, sampleMultilevel, sampleLevel, blendAlpha,
      LevelSet.probeKernelIntegral]
  refine ⟨?_, rfl, rfl, h, ?_, rfl, ?_⟩
  · norm_num [MultilevelLevelSet.StrictlyIncreasingRatios, closeLevels, sampleMultilevel,
      sampleLevel]
  · rw [h]
    intro hne
    injection hne with hne
    norm_num [sampleLevel, LevelSet.probeKernelIntegral] at hne
  · have htop : scenarioB.getMeshLevel sampleEps (sampleLevel 2 5 true).global_h_ratio_
        = .ok 1 := by
      norm_num [MultilevelLevelSet.getMeshLevel, getMeshLevelLoop, scenarioB, sampleMultilevel,
        sampleLevel, sampleEps]
    unfold MultilevelLevelSet.probeKernelIntegral
    rw [htop]
    simp [scenarioB, sampleMultilevel]

/-- C7 (amended). For a positive `Eps`, strictly increasing ratios, and a level
`k` that is followed by a level `k + 1` whose ratio is at least `Eps` above
level `k`'s, the blended `probeKernelIntegral` at level `k`'s exact
`global_h_ratio_` equals level `k`'s own unblended `probeKernelIntegral`. -/
theorem probeKernelIntegral_own_ratio (Eps : Real) (m : MultilevelLevelSet D)
    (position : Vecd D) (k : Nat) (l l2 : LevelSet Real D) (hEps : 0 < Eps)
    (hinc : m.StrictlyIncreasingRatios)
    (hl : m.mesh_levels_[k]? = some l) (hl2 : m.mesh_levels_[k + 1]? = some l2)
    (hgap : l.global_h_ratio_ + Eps ≤ l2.global_h_ratio_) :
    m.probeKernelIntegral Eps position l.global_h_ratio_ =
      .ok (l.probeKernelIntegral position 1) := by
  have hlevel : m.getMeshLevel Eps l.global_h_ratio_ = .ok k := by
    unfold MultilevelLevelSet.getMeshLevel
    rw [← m.levels_size]
    refine getMeshLevelLoop_own_ratio Eps m.mesh_levels_ k l hEps hinc hl ?_
    intro l3 hl3
    rw [hl2] at hl3
    injection hl3 with hl3
    rw [← hl3]
    exact hgap
  have hne : l2.global_h_ratio_ - l.global_h_ratio_ ≠ 0 := by
    have : 0 < l2.global_h_ratio_ - l.global_h_ratio_ := by linarith
    exact ne_of_gt this
  unfold MultilevelLevelSet.probeKernelIntegral
  rw [hlevel]
  simp only [hl, hl2, blendAlpha]
  rw [div_self hne]
  simp

/-- Witness for the amended C7 on the two-level set with ratios 1 and 2, at
level 0. -/
theorem probeKernelIntegral_own_ratio_witness :
    (0 < sampleEps ∧ scenarioB.StrictlyIncreasingRatios ∧
        scenarioB.mesh_levels_[0]? = some (sampleLevel 1 3 false) ∧
        scenarioB.mesh_levels_[0 + 1]? = some (sampleLevel 2 5 true) ∧
        (sampleLevel 1 3 false).global_h_ratio_ + sampleEps ≤
          (sampleLevel 2 5 true).global_h_ratio_) ∧
      scenarioB.probeKernelIntegral sampleEps origin (sampleLevel 1 3 false).global_h_ratio_ =
        .ok ((sampleLevel 1 3 false).probeKernelIntegral origin 1) :=
  have hEps : 0 < sampleEps := by norm_num [sampleEps]
  have hinc : scenarioB.StrictlyIncreasingRatios := by
    norm_num [MultilevelLevelSet.StrictlyIncreasingRatios, scenarioB, sampleMultilevel,
      sampleLevel]
  have hgap : (sampleLevel 1 3 false).global_h_ratio_ + sampleEps ≤
      (sampleLevel 2 5 true).global_h_ratio_ := by
    norm_num [sampleLevel, sampleEps]
  ⟨⟨hEps, hinc, rfl, rfl, hgap⟩,
    probeKernelIntegral_own_ratio sampleEps scenarioB origin 0 (sampleLevel 1 3 false)
      (sampleLevel 2 5 true) hEps hinc rfl rfl hgap⟩

/-- C8. Scenario B: on a set of exactly two levels with resolution ratios 1 and
2, and for a tolerance `0 < Eps ≤ 1/2`, `probeKernelIntegral(p, 1.5)` is the
arithmetic mean of the two levels' own `probeKernelIntegral(p)` values. -/
theorem probeKernelIntegral_scenarioB_mean (Eps : Real) (m : MultilevelLevelSet D)
    (l0 l1 : LevelSet Real D) (position : Vecd D) (hEps : 0 < Eps) (hEps2 : Eps ≤ 1 / 2)
    (hm : m.mesh_levels_ = [l0, l1]) (h0 : l0.global_h_ratio_ = 1)
    (h1 : l1.global_h_ratio_ = 2) :
    m.probeKernelIntegral Eps position (3 / 2) =
      .ok ((l0.probeKernelIntegral position 1 + l1.probeKernelIntegral position 1) / 2) := by
  have htotal : m.total_levels_ = 2 := by rw [← m.levels_size, hm]; rfl
  have hfine : ¬ ((3 / 2 : Real) - 2 > -Eps) := by
    intro h
    linarith
  have hcoarse : (3 / 2 : Real) - 1 > -Eps := by linarith
  have hlevel : m.getMeshLevel Eps (3 / 2) = .ok 0 := by
    unfold MultilevelLevelSet.getMeshLevel
    rw [htotal, hm]
    simp [getMeshLevelLoop, h0, h1, hfine, hcoarse]
  unfold MultilevelLevelSet.probeKernelIntegral
  rw [hlevel, hm]
  simp only [List.getElem?_cons_zero, List.getElem?_cons_succ, blendAlpha, h0, h1]
  congr 1
  ring

/-- Witness for C8 on the two-level set `scenarioB`, whose levels probe to the
values 3 and 5. -/
theorem probeKernelIntegral_scenarioB_mean_witness :
    (0 < sampleEps ∧ sampleEps ≤ 1 / 2 ∧
        scenarioB.mesh_levels_ = [sampleLevel 1 3 false, sampleLevel 2 5 true] ∧
        (sampleLevel 1 3 false).global_h_ratio_ = 1 ∧
        (sampleLevel 2 5 true).global_h_ratio_ = 2) ∧
      scenarioB.probeKernelIntegral sampleEps origin (3 / 2) =
        .ok (((sampleLevel 1 3 false).probeKernelIntegral origin 1 +
          (sampleLevel 2 5 true).probeKernelIntegral origin 1) / 2) :=
  have hEps : 0 < sampleEps := by norm_num [sampleEps]
  have hEps2 : sampleEps ≤ 1 / 2 := by norm_num [sampleEps]
  ⟨⟨hEps, hEps2, rfl, rfl, rfl⟩,
    probeKernelIntegral_scenarioB_mean sampleEps scenarioB (sampleLevel 1 3 false)
      (sampleLevel 2 5 true) origin hEps hEps2 rfl rfl rfl⟩

/-- C9 (the code at the failing input). On the two-level set with ratios 1 and
2 and `Eps = 2^-52`, `getMeshLevel(2)` returns the finest level `c = 1`, so
`c + 1 = 2` is not below `total_levels_ = 2`, and both blended probes read
`mesh_levels_[2]`, which is beyond the last level. -/
theorem probeKernelIntegral_reads_past_finest_level :
    scenarioB.total_levels_ = 2 ∧
      scenarioB.getMeshLevel sampleEps 2 = .ok 1 ∧
      ¬ (1 + 1 < scenarioB.total_levels_) ∧
      scenarioB.mesh_levels_[1 + 1]? = none ∧
      scenarioB.probeKernelIntegral sampleEps origin 2 = .error .outOfBounds ∧
      scenarioB.probeKernelGradientIntegral sampleEps origin 2 = .error .outOfBounds := by
  have hlevel : scenarioB.getMeshLevel sampleEps 2 = .ok 1 := by
    norm_num [MultilevelLevelSet.getMeshLevel, getMeshLevelLoop, scenarioB, sampleMultilevel,
      sampleLevel, sampleEps]
  refine ⟨rfl, hlevel, by decide, rfl, ?_, ?_⟩
  · unfold MultilevelLevelSet.probeKernelIntegral
    rw [hlevel]
    simp [scenarioB, sampleMultilevel]
  · unfold MultilevelLevelSet.probeKernelGradientIntegral
    rw [hlevel]
    simp [scenarioB, sampleMultilevel]

/-- C10 (the code at the failing input). On a level with 10 x 10 cells the
position (8.5, 5.5) lies in cell (8, 5); index 8 is one of the last two cells of
dimension 0 (8 ≥ 10 - 2), yet `probeIsWithinMeshBound` returns true, because the
upper test is `cell_pos[i] > number_of_cells_[i] - 2`. -/
theorem probeIsWithinMeshBound_true_in_second_last_cell :
    (sampleLevel 1 0 false).number_of_cells_ 0 = 10 ∧
      (sampleLevel 1 0 false).CellIndexFromPosition nearUpperEdge 0 = 8 ∧
      (sampleLevel 1 0 false).CellIndexFromPosition nearUpperEdge 1 = 5 ∧
      (sampleLevel 1 0 false).CellIndexFromPosition nearUpperEdge 0 ≥
        (sampleLevel 1 0 false).number_of_cells_ 0 - 2 ∧
      (sampleLevel 1 0 false).probeIsWithinMeshBound nearUpperEdge = true := by
  have hfloor0 : ⌊(17 / 2 : ℚ)⌋ = 8 := by
    rw [Int.floor_eq_iff]; norm_num
  have hfloor1 : ⌊(11 / 2 : ℚ)⌋ = 5 := by
    rw [Int.floor_eq_iff]; norm_num
  have hc0 : (sampleLevel 1 0 false).CellIndexFromPosition nearUpperEdge 0 = 8 := by
    simp [sampleLevel, nearUpperEdge, hfloor0]
  have hc1 : (sampleLevel 1 0 false).CellIndexFromPosition nearUpperEdge 1 = 5 := by
    simp [sampleLevel, nearUpperEdge, hfloor1]
  refine ⟨rfl, hc0, hc1, ?_, ?_⟩
  · rw [hc0]
    decide
  · unfold LevelSet.probeIsWithinMeshBound
    have hrange : List.finRange 2 = [0, 1] := by decide
    simp only [hrange, List.foldl_cons, List.foldl_nil, LevelSet.probeIsWithinMeshBoundStep,
      hc0, hc1]
    simp [sampleLevel, SIZE_T_RANGE]

/-! The normal direction probe `probeNormalDirection` -/

/-- Whatever the loop of `probeNormalDirection` returns is the normalisation of
a gradient value that is not below the threshold, and that value is either the
one the loop was entered with or one probed at some position. -/
theorem probeNormalDirectionLoop_some {R : Type} [LinearOrderedField R]
    (norm : (Fin D → R) → R) (RAND_MAX : Nat) (l : LevelSet R D)
    (rand : Nat → Nat) (position : Fin D → R) :
    ∀ (fuel drawn : Nat) (probed : Fin D → R) (r : (Fin D → R) × Nat),
      l.probeNormalDirectionLoop norm RAND_MAX rand position fuel drawn probed = some r →
      ∃ g, r.1 = normalize norm g ∧ ¬ (norm g < 1 / 100 * l.data_spacing_) ∧
        (g = probed ∨ ∃ q, g = l.probeLevelSetGradient q) := by
  intro fuel
  induction fuel with
  | zero => intro drawn probed r h; simp [LevelSet.probeNormalDirectionLoop] at h
  | succ fuel ih =>
    intro drawn probed r h
    unfold LevelSet.probeNormalDirectionLoop at h
    by_cases hc : norm probed < 1 / 100 * l.data_spacing_
    · rw [if_pos hc] at h
      obtain ⟨g, hg1, hg2, hg3⟩ := ih _ _ r h
      refine ⟨g, hg1, hg2, Or.inr ?_⟩
      rcases hg3 with hg3 | hg3
      · exact ⟨_, hg3⟩
      · exact hg3
    · rw [if_neg hc] at h
      injection h with h
      exact ⟨probed, by rw [← h], hc, Or.inl rfl⟩

/-- Entered at the `t`-th sample, the loop returns the normalisation of the
first later sample that is not below the threshold, provided the fuel covers
the passes up to it. -/
theorem probeNormalDirectionLoop_first (norm : Vecd D → Real) (RAND_MAX : Nat) (l : LevelSet Real D)
    (rand : Nat → Nat) (position : Vecd D) :
    ∀ (n t fuel : Nat), n < fuel →
      ¬ (norm (l.probedSample RAND_MAX rand position (t + n)) < 1 / 100 * l.data_spacing_) →
      (∀ i, i < n →
        norm (l.probedSample RAND_MAX rand position (t + i)) < 1 / 100 * l.data_spacing_) →
      l.probeNormalDirectionLoop norm RAND_MAX rand position fuel (t * D)
          (l.probedSample RAND_MAX rand position t) =
        some (normalize norm (l.probedSample RAND_MAX rand position (t + n)), (t + n) * D) := by
  intro n
  induction n with
  | zero =>
    intro t fuel hfuel hn _
    obtain ⟨f, rfl⟩ : ∃ f, fuel = f + 1 := ⟨fuel - 1, by omega⟩
    rw [Nat.add_zero] at hn
    unfold LevelSet.probeNormalDirectionLoop
    rw [if_neg hn, Nat.add_zero]
  | succ n ih =>
    intro t fuel hfuel hn hfirst
    obtain ⟨f, rfl⟩ : ∃ f, fuel = f + 1 := ⟨fuel - 1, by omega⟩
    unfold LevelSet.probeNormalDirectionLoop
    have h0 := hfirst 0 (Nat.succ_pos n)
    rw [Nat.add_zero] at h0
    rw [if_pos h0]
    have hstep : t * D + D = (t + 1) * D := by ring
    have key := ih (t + 1) f (by omega) (by rw [show t + 1 + n = t + (n + 1) by omega]; exact hn)
      (fun i hi => by
        rw [show t + 1 + i = t + (i + 1) by omega]
        exact hfirst (i + 1) (by omega))
    rw [show t + 1 + n = t + (n + 1) by omega] at key
    rw [hstep]
    exact key

/-- The length function `sampleNorm` takes the value 1 at (3/5, 4/5). -/
theorem sampleNorm_unit : sampleNorm (fun i => if i = 0 then 3 / 5 else 4 / 5) = 1 := by
  have h : normSqr (fun i : Fin 2 => if i = 0 then (3 / 5 : Real) else 4 / 5) = 1 * 1 := by
    simp only [normSqr, Fin.sum_univ_two]
    norm_num
  unfold sampleNorm
  rw [h, Rat.sqrt_eq]
  norm_num

/-- The length function `sampleNorm` takes the value 0 at the zero vector. -/
theorem sampleNorm_zero : sampleNorm (fun _ => 0) = 0 := by
  have h : normSqr (fun _ : Fin 2 => (0 : Real)) = 0 * 0 := by
    simp [normSqr]
  unfold sampleNorm
  rw [h, Rat.sqrt_eq]
  norm_num

/-- C11. Over the real numbers, with `norm` the Euclidean length, on a level
with `data_spacing_ > 0` every vector `v` that `probeNormalDirection` returns
has Euclidean length 1: `v` is the normalisation of a probed gradient `g` whose
length is at least `1e-2 * data_spacing_`, hence `g ≠ 0`. -/
theorem probeNormalDirection_unit_normal (RAND_MAX : Nat) (l : LevelSet ℝ D)
    (rand : Nat → Nat) (fuel : Nat) (position v : Fin D → ℝ) (n : Nat)
    (hspacing : 0 < l.data_spacing_)
    (hret : l.probeNormalDirection (fun u => Real.sqrt (normSqr u)) RAND_MAX rand fuel position =
      some (v, n)) :
    Real.sqrt (normSqr v) = 1 ∧
      ∃ g, v = normalize (fun u => Real.sqrt (normSqr u)) g ∧
        1 / 100 * l.data_spacing_ ≤ Real.sqrt (normSqr g) ∧ g ≠ 0 ∧
        ∃ q, g = l.probeLevelSetGradient q := by
  obtain ⟨g, hv, hthr, hsrc⟩ := probeNormalDirectionLoop_some
    (fun u => Real.sqrt (normSqr u)) RAND_MAX l rand position fuel 0 _ (v, n) hret
  have hv : v = normalize (fun u => Real.sqrt (normSqr u)) g := hv
  have hge : 1 / 100 * l.data_spacing_ ≤ Real.sqrt (normSqr g) := not_lt.mp hthr
  have hpos : 0 < Real.sqrt (normSqr g) := by
    have : 0 < 1 / 100 * l.data_spacing_ := by positivity
    linarith
  have hne : Real.sqrt (normSqr g) ≠ 0 := ne_of_gt hpos
  have hsqpos : 0 < normSqr g := Real.sqrt_pos.mp hpos
  have hsq : normSqr v = 1 := by
    rw [hv]
    unfold normalize
    have hterm : ∀ i, g i / Real.sqrt (normSqr g) * (g i / Real.sqrt (normSqr g)) =
        g i * g i / normSqr g := by
      intro i
      rw [div_mul_div_comm, Real.mul_self_sqrt hsqpos.le]
    have hsum : normSqr (fun i => g i / Real.sqrt (normSqr g)) = normSqr g / normSqr g := by
      show ∑ i, g i / Real.sqrt (normSqr g) * (g i / Real.sqrt (normSqr g)) = _
      simp only [hterm]
      rw [← Finset.sum_div]
      rfl
    rw [hsum]
    exact div_self (ne_of_gt hsqpos)
  refine ⟨by rw [hsq, Real.sqrt_one], g, hv, hge, ?_, ?_⟩
  · intro hzero
    have : normSqr g = 0 := by
      rw [hzero]
      simp [normSqr]
    rw [this] at hsqpos
    exact lt_irrefl 0 hsqpos
  · rcases hsrc with h | h
    · exact ⟨position, h⟩
    · exact h

/-- Witness for C11 on the level whose probed gradient is (1, 1), of length
the square root of 2. -/
theorem probeNormalDirection_unit_normal_witness :
    (0 < (diagonalLevel ℝ).data_spacing_ ∧
        (diagonalLevel ℝ).probeNormalDirection (fun u => Real.sqrt (normSqr u)) 32767 sampleRand 1
            (fun _ => 0) =
          some (normalize (fun u => Real.sqrt (normSqr u)) (fun _ => 1), 0)) ∧
      (Real.sqrt (normSqr (normalize (fun u => Real.sqrt (normSqr u)) (fun _ : Fin 2 => (1 : ℝ)))) = 1 ∧
        ∃ g, normalize (fun u => Real.sqrt (normSqr u)) (fun _ : Fin 2 => (1 : ℝ)) =
            normalize (fun u => Real.sqrt (normSqr u)) g ∧
          1 / 100 * (diagonalLevel ℝ).data_spacing_ ≤ Real.sqrt (normSqr g) ∧ g ≠ 0 ∧
          ∃ q, g = (diagonalLevel ℝ).probeLevelSetGradient q) :=
  have hspacing : 0 < (diagonalLevel ℝ).data_spacing_ := by
    norm_num [diagonalLevel]
  have hlen : (1 : ℝ) ≤ Real.sqrt (normSqr (fun _ : Fin 2 => (1 : ℝ))) := by
    have h2 : normSqr (fun _ : Fin 2 => (1 : ℝ)) = 2 := by
      simp only [normSqr, Fin.sum_univ_two]
      norm_num
    rw [h2]
    exact Real.le_sqrt_of_sq_le (by norm_num)
  have hret : (diagonalLevel ℝ).probeNormalDirection (fun u => Real.sqrt (normSqr u)) 32767
      sampleRand 1 (fun _ => 0) =
      some (normalize (fun u => Real.sqrt (normSqr u)) (fun _ => 1), 0) := by
    have hg : (diagonalLevel ℝ).probeLevelSetGradient (fun _ => 0) = fun _ => 1 := rfl
    unfold LevelSet.probeNormalDirection LevelSet.probeNormalDirectionLoop
    rw [hg, if_neg]
    have hthr : (1 : ℝ) / 100 * (diagonalLevel ℝ).data_spacing_ ≤ 1 := by
      norm_num [diagonalLevel]
    exact not_lt.mpr (le_trans hthr hlen)
  ⟨⟨hspacing, hret⟩,
    probeNormalDirection_unit_normal 32767 (diagonalLevel ℝ) sampleRand 1 (fun _ => 0) _ 0
      hspacing hret⟩

/-- On the level whose probed gradient vanishes everywhere the loop of
`probeNormalDirection` never returns, whatever the fuel and the random values. -/
theorem flatLevel_loop_none (rand : Nat → Nat) (position : Vecd 2) :
    ∀ (fuel drawn : Nat),
      flatLevel.probeNormalDirectionLoop sampleNorm 32767 rand position fuel drawn (fun _ => 0)
        = none := by
  intro fuel
  induction fuel with
  | zero => intro drawn; rfl
  | succ fuel ih =>
    intro drawn
    unfold LevelSet.probeNormalDirectionLoop
    have hthr : sampleNorm (fun _ => 0) < 1 / 100 * flatLevel.data_spacing_ := by
      rw [sampleNorm_zero]
      norm_num [flatLevel, sampleLevel]
    rw [if_pos hthr]
    exact ih (drawn + 2)

/-- C12 (as stated, refuted). On a level with positive `data_spacing_` whose
probed gradient vanishes everywhere, `probeNormalDirection` at the centre of
the mesh, a position within the mesh bound, returns no vector, for every
sequence of `rand()` values and every bound on the number of passes: each
probed value is below the threshold and the loop goes on. -/
theorem probeNormalDirection_terminates_counterexample :
    0 < flatLevel.data_spacing_ ∧
      flatLevel.probeIsWithinMeshBound midGrid = true ∧
      (∀ q, flatLevel.probeLevelSetGradient q = fun _ => 0) ∧
      ∀ (rand : Nat → Nat) (fuel : Nat),
        flatLevel.probeNormalDirection sampleNorm 32767 rand fuel midGrid = none := by
  refine ⟨by norm_num [flatLevel, sampleLevel], ?_, fun q => rfl, ?_⟩
  · have hfloor : ⌊(11 / 2 : ℚ)⌋ = 5 := by
      rw [Int.floor_eq_iff]; norm_num
    have hc : ∀ i, flatLevel.CellIndexFromPosition midGrid i = 5 := by
      intro i
      simp [flatLevel, sampleLevel, midGrid, hfloor]
    unfold LevelSet.probeIsWithinMeshBound
    have hrange : List.finRange 2 = [0, 1] := by decide
    simp only [hrange, List.foldl_cons, List.foldl_nil, LevelSet.probeIsWithinMeshBoundStep, hc]
    simp [flatLevel, sampleLevel, SIZE_T_RANGE]
  · intro rand fuel
    exact flatLevel_loop_none rand midGrid fuel 0

/-- C12 (amended). When the gradient probed at the position or at one of the
jittered positions is not below the threshold `1e-2 * data_spacing_`, the loop
of `probeNormalDirection` terminates: there is a first such sample, of index
`n`, and with room for more than `n` passes the call returns the normalisation
of that sample after `n * D` calls of `rand()`; no degeneracy is reported. -/
theorem probeNormalDirection_returns_first_resolved_sample (norm : Vecd D → Real)
    (RAND_MAX : Nat) (l : LevelSet Real D) (rand : Nat → Nat) (position : Vecd D)
    (hsome : ∃ n, 1 / 100 * l.data_spacing_ ≤ norm (l.probedSample RAND_MAX rand position n)) :
    ∃ n, 1 / 100 * l.data_spacing_ ≤ norm (l.probedSample RAND_MAX rand position n) ∧
      (∀ t, t < n →
        norm (l.probedSample RAND_MAX rand position t) < 1 / 100 * l.data_spacing_) ∧
      ∀ fuel, n < fuel →
        l.probeNormalDirection norm RAND_MAX rand fuel position =
          some (normalize norm (l.probedSample RAND_MAX rand position n), n * D) := by
  classical
  have hmin : ∀ t, t < Nat.find hsome →
      norm (l.probedSample RAND_MAX rand position t) < 1 / 100 * l.data_spacing_ :=
    fun t ht => not_le.mp (Nat.find_min hsome ht)
  refine ⟨Nat.find hsome, Nat.find_spec hsome, hmin, ?_⟩
  intro fuel hfuel
  have key := probeNormalDirectionLoop_first norm RAND_MAX l rand position (Nat.find hsome) 0 fuel
    hfuel (by rw [Nat.zero_add]; exact not_lt.mpr (Nat.find_spec hsome))
    (fun i hi => by rw [Nat.zero_add]; exact hmin i hi)
  simp only [Nat.zero_add, Nat.zero_mul] at key
  exact key

/-- The first jittered position drawn from `sampleRand` at the origin of
`kinkLevel` is not the origin. -/
theorem kinkLevel_jittered_ne_origin :
    kinkLevel.jittered 32767 sampleRand (0 * 2) origin ≠ origin := by
  intro h
  have h0 := congrFun h 0
  norm_num [LevelSet.jittered, kinkLevel, sampleLevel, sampleRand, origin] at h0

/-- Witness for the amended C12 on the level whose gradient vanishes at the
origin only: the first jittered sample is resolved. -/
theorem probeNormalDirection_returns_first_resolved_sample_witness :
    (∃ n, 1 / 100 * kinkLevel.data_spacing_ ≤
        sampleNorm (kinkLevel.probedSample 32767 sampleRand origin n)) ∧
      ∃ n, 1 / 100 * kinkLevel.data_spacing_ ≤
          sampleNorm (kinkLevel.probedSample 32767 sampleRand origin n) ∧
        (∀ t, t < n →
          sampleNorm (kinkLevel.probedSample 32767 sampleRand origin t) <
            1 / 100 * kinkLevel.data_spacing_) ∧
        ∀ fuel, n < fuel →
          kinkLevel.probeNormalDirection sampleNorm 32767 sampleRand fuel origin =
            some (normalize sampleNorm (kinkLevel.probedSample 32767 sampleRand origin n), n * 2) :=
  have hsome : ∃ n, 1 / 100 * kinkLevel.data_spacing_ ≤
      sampleNorm (kinkLevel.probedSample 32767 sampleRand origin n) := by
    refine ⟨1, ?_⟩
    have hg : kinkLevel.probedSample 32767 sampleRand origin 1 =
        fun i => if i = 0 then 3 / 5 else 4 / 5 := by
      funext i
      show (if kinkLevel.jittered 32767 sampleRand (0 * 2) origin = origin then (0 : Real)
        else if i = 0 then 3 / 5 else 4 / 5) = _
      rw [if_neg kinkLevel_jittered_ne_origin]
    rw [hg, sampleNorm_unit]
    norm_num [kinkLevel, sampleLevel]
  ⟨hsome,
    probeNormalDirection_returns_first_resolved_sample sampleNorm 32767 kinkLevel sampleRand
      origin hsome⟩

/-- C13. At a position whose probed gradient has `norm` at least
`1e-2 * data_spacing_`, `probeNormalDirection` makes no call of `rand()` and
returns exactly `normalize(probeLevelSetGradient(position))`; so two calls at
that position return the same vector whatever the random values would be. -/
theorem probeNormalDirection_no_jitter_when_resolved (norm : Vecd D → Real) (RAND_MAX : Nat)
    (l : LevelSet Real D) (position : Vecd D) (rand rand2 : Nat → Nat) (fuel fuel2 : Nat)
    (hge : 1 / 100 * l.data_spacing_ ≤ norm (l.probeLevelSetGradient position)) :
    l.probeNormalDirection norm RAND_MAX rand (fuel + 1) position =
        some (normalize norm (l.probeLevelSetGradient position), 0) ∧
      l.probeNormalDirection norm RAND_MAX rand (fuel + 1) position =
        l.probeNormalDirection norm RAND_MAX rand2 (fuel2 + 1) position := by
  have h : ∀ (r : Nat → Nat) (f : Nat),
      l.probeNormalDirection norm RAND_MAX r (f + 1) position =
        some (normalize norm (l.probeLevelSetGradient position), 0) := by
    intro r f
    unfold LevelSet.probeNormalDirection LevelSet.probeNormalDirectionLoop
    rw [if_neg (not_lt.mpr hge)]
  exact ⟨h rand fuel, by rw [h rand fuel, h rand2 fuel2]⟩

/-- Witness for C13 on the level whose probed gradient is (3/5, 4/5), with two
different sources of random values. -/
theorem probeNormalDirection_no_jitter_when_resolved_witness :
    1 / 100 * slopedLevel.data_spacing_ ≤ sampleNorm (slopedLevel.probeLevelSetGradient origin) ∧
      (slopedLevel.probeNormalDirection sampleNorm 32767 sampleRand (0 + 1) origin =
          some (normalize sampleNorm (slopedLevel.probeLevelSetGradient origin), 0) ∧
        slopedLevel.probeNormalDirection sampleNorm 32767 sampleRand (0 + 1) origin =
          slopedLevel.probeNormalDirection sampleNorm 32767 (fun _ => 0) (5 + 1) origin) :=
  have hge : 1 / 100 * slopedLevel.data_spacing_ ≤
      sampleNorm (slopedLevel.probeLevelSetGradient origin) := by
    have hg : slopedLevel.probeLevelSetGradient origin =
        fun i => if i = 0 then 3 / 5 else 4 / 5 := rfl
    rw [hg, sampleNorm_unit]
    norm_num [slopedLevel, sampleLevel]
  ⟨hge,
    probeNormalDirection_no_jitter_when_resolved sampleNorm 32767 slopedLevel origin sampleRand
      (fun _ => 0) 0 5 hge⟩

/-! The constructor of `BaseLevelSet` -/

/-- C19. Constructing a `BaseLevelSet` fails, by the diagnostic and the bare
`throw`, exactly when the shape's `isValid()` is false; with a valid shape the
constructor completes and holds the shape. -/
theorem BaseLevelSet_construct_fails_iff_invalid (shape : Shape D) :
    (BaseLevelSet.construct shape = .error .terminated ↔ shape.isValid = false) ∧
      ((∃ e, BaseLevelSet.construct shape = .error e) ↔ shape.isValid = false) ∧
      (BaseLevelSet.construct shape = .ok { shape_ := shape } ↔ shape.isValid = true) := by
  unfold BaseLevelSet.construct
  cases h : shape.isValid <;> simp

/-! The construction of a level -/

/-- Looking up a list with one more entry. -/
theorem getElem?_append_singleton_eq_some {α : Type} {l : List α} {x p : α} {a : Nat} :
    (l ++ [x])[a]? = some p ↔ l[a]? = some p ∨ (a = l.length ∧ x = p) := by
  by_cases h1 : a < l.length
  · rw [List.getElem?_append_left h1]
    constructor
    · intro h; exact Or.inl h
    · rintro (h | ⟨h, _⟩)
      · exact h
      · omega
  · by_cases h2 : a = l.length
    · subst h2
      rw [List.getElem?_concat_length, List.getElem?_eq_none (le_refl _)]
      simp
    · have h3 : (l ++ [x])[a]? = none :=
        List.getElem?_eq_none (by rw [List.length_append, List.length_singleton]; omega)
      have h4 : l[a]? = none := List.getElem?_eq_none (by omega)
      rw [h3, h4]
      simp [h2]

/-- Looking up a list after one entry was modified. -/
theorem getElem?_modify_eq_some {α : Type} {l : List α} {f : α → α} {a0 a : Nat} {q : α} :
    (l.modify f a0)[a]? = some q ↔ ∃ p, l[a]? = some p ∧ q = if a0 = a then f p else p := by
  rw [List.getElem?_modify]
  cases l[a]? with
  | none => simp
  | some p => simp [eq_comm]

/-- Modifying the entry just appended. -/
theorem modify_append_singleton {α : Type} (f : α → α) (l : List α) (x : α) :
    (l ++ [x]).modify f l.length = l ++ [f x] := by
  induction l with
  | nil => rfl
  | cons y l ih => simp [ih]

/-- A pass whose functor changes nothing returns the state it started from. -/
theorem MeshIterator_parallel_initializeAddresses (cells : List (Vecu D)) (s : LevelSetState D) :
    MeshIterator_parallel LevelSetState.initializeAddressesInACell cells s = .ok s := by
  induction cells with
  | nil => rfl
  | cons c cells ih =>
    unfold MeshIterator_parallel
    simp only [LevelSetState.initializeAddressesInACell]
    exact ih

/-- A pass over cells that are pairwise different and not yet visited returns,
and establishes its invariant for the visited cells, when every application of
the functor to a cell of the pass not yet visited does. -/
theorem MeshIterator_parallel_invariant {σ : Type} (functor : Vecu D → σ → Except Fault σ)
    (Inv : List (Vecu D) → σ → Prop) (allowed : Vecu D → Prop)
    (hstep : ∀ (visited : List (Vecu D)) (c : Vecu D) (s : σ), Inv visited s → allowed c →
      c ∉ visited → ∃ s1, functor c s = .ok s1 ∧ Inv (c :: visited) s1) :
    ∀ (cells visited : List (Vecu D)) (s : σ), cells.Nodup → (∀ c, c ∈ cells → allowed c) →
      (∀ c, c ∈ cells → c ∉ visited) → Inv visited s →
      ∃ s1, MeshIterator_parallel functor cells s = .ok s1 ∧ Inv (cells.reverse ++ visited) s1 := by
  intro cells
  induction cells with
  | nil =>
    intro visited s _ _ _ hinv
    exact ⟨s, rfl, by simpa using hinv⟩
  | cons c cells ih =>
    intro visited s hnodup hallowed hfresh hinv
    obtain ⟨s1, hs1, hinv1⟩ := hstep visited c s hinv (hallowed c (List.mem_cons_self _ _))
      (hfresh c (List.mem_cons_self _ _))
    have hnodup2 := List.nodup_cons.mp hnodup
    obtain ⟨s2, hs2, hinv2⟩ := ih (c :: visited) s1 hnodup2.2
      (fun c2 hc2 => hallowed c2 (List.mem_cons_of_mem _ hc2))
      (by
        intro c2 hc2 hmem
        rcases List.mem_cons.mp hmem with h | h
        · exact hnodup2.1 (h ▸ hc2)
        · exact hfresh c2 (List.mem_cons_of_mem _ hc2) h)
      hinv1
    refine ⟨s2, ?_, ?_⟩
    · unfold MeshIterator_parallel
      rw [hs1]
      exact hs2
    · simpa [List.reverse_cons, List.append_assoc] using hinv2

/-- The five-argument constructor with a valid shape returns a consistent state
whose pool holds the two singular packages and nothing else. -/
theorem LevelSetState.construct5_consistent (g : LevelSetSetup D)
    (hvalid : g.shape_.isValid = true) :
    ∃ s0, LevelSetState.construct5 g = .ok s0 ∧
      s0.Consistent (g.grid_spacing_ * (g.buffer_width_ : Real)) [] [] ∧
      s0.data_pkg_pool_.length = 2 ∧ s0.core_data_pkgs_ = [] ∧ s0.inner_data_pkgs_ = [] := by
  refine ⟨LevelSetState.initializeASingularDataPackage g
      (g.grid_spacing_ * (g.buffer_width_ : Real))
      (LevelSetState.initializeASingularDataPackage g
        (-(g.grid_spacing_ * (g.buffer_width_ : Real))) LevelSetState.initial),
    ?_, ?_, rfl, rfl, rfl⟩
  · unfold LevelSetState.construct5 BaseLevelSet.construct
    simp only [hvalid]
    rfl
  · exact
      { singular := rfl
        inside := ⟨_, rfl, rfl, rfl⟩
        outside := ⟨_, rfl, rfl, rfl⟩
        core_nodup := List.nodup_nil
        inner_nodup := List.nodup_nil
        core_real := fun a ha => absurd ha (List.not_mem_nil a)
        inner_real := fun a ha => absurd ha (List.not_mem_nil a)
        grid_of_pkg := by
          intro a p ha hp
          have hlt : a < 2 := by
            obtain ⟨h, _⟩ := List.getElem?_eq_some.mp hp
            exact h
          omega
        pkg_of_grid := by
          intro c a hc
          exact Option.noConfusion hc
        assigned := by
          intro c
          constructor
          · rintro ⟨a, ha⟩
            exact Option.noConfusion ha
          · intro hc
            exact absurd hc (List.not_mem_nil c)
        noncore_tagged := by
          intro a p ha hp
          have hlt : a < 2 := by
            obtain ⟨h, _⟩ := List.getElem?_eq_some.mp hp
            exact h
          omega }

/-- A consistent pool holds at least the two singular packages. -/
theorem LevelSetState.Consistent.two_le {far : Real} {cls tagged : List (Vecu D)}
    {s : LevelSetState D} (h : s.Consistent far cls tagged) : 2 ≤ s.data_pkg_pool_.length := by
  obtain ⟨p, hp, _⟩ := h.outside
  obtain ⟨hlt, _⟩ := List.getElem?_eq_some.mp hp
  omega

/-- No real package carries the index of a cell that is not assigned or points
to a singular package. -/
theorem LevelSetState.Consistent.free_of_singular {far : Real} {cls tagged : List (Vecu D)}
    {s : LevelSetState D} (h : s.Consistent far cls tagged) (c : Vecu D)
    (hc : ∀ a, s.data_pkg_addrs_ c = some a → a < 2) :
    ∀ (a : Nat) (p : LevelSetDataPackage D), 2 ≤ a → s.data_pkg_pool_[a]? = some p →
      p.pkg_index_ ≠ c := by
  intro a p ha hp hidx
  have h1 := h.grid_of_pkg a p ha hp
  rw [hidx] at h1
  have := hc a h1
  omega

/-- Pointing a cell that is not yet classified to a singular package keeps the
state consistent. -/
theorem LevelSetState.Consistent.assign_singular {far : Real} {cls tagged : List (Vecu D)}
    {s : LevelSetState D} (h : s.Consistent far cls tagged) (c : Vecu D) (a0 : Nat)
    (ha0 : a0 < 2) (hc : c ∉ cls) :
    (LevelSetState.assignDataPackageAddress c a0 s).Consistent far (c :: cls) tagged := by
  have hnone : ∀ a, s.data_pkg_addrs_ c = some a → a < 2 := by
    intro a ha
    exact absurd ((h.assigned c).mp ⟨a, ha⟩) hc
  have hfree := h.free_of_singular c hnone
  exact
    { singular := h.singular
      inside := h.inside
      outside := h.outside
      core_nodup := h.core_nodup
      inner_nodup := h.inner_nodup
      core_real := h.core_real
      inner_real := h.inner_real
      grid_of_pkg := by
        intro a p ha hp
        show Function.update s.data_pkg_addrs_ c (some a0) p.pkg_index_ = some a
        rw [Function.update_noteq (hfree a p ha hp)]
        exact h.grid_of_pkg a p ha hp
      pkg_of_grid := by
        intro c2 a hc2
        have hc2 : Function.update s.data_pkg_addrs_ c (some a0) c2 = some a := hc2
        by_cases hcc : c2 = c
        · subst hcc
          rw [Function.update_same] at hc2
          injection hc2 with hc2
          exact Or.inl (hc2 ▸ ha0)
        · rw [Function.update_noteq hcc] at hc2
          exact h.pkg_of_grid c2 a hc2
      assigned := by
        intro c2
        show (∃ a, Function.update s.data_pkg_addrs_ c (some a0) c2 = some a) ↔ c2 ∈ c :: cls
        by_cases hcc : c2 = c
        · subst hcc
          rw [Function.update_same]
          exact ⟨fun _ => List.mem_cons_self _ _, fun _ => ⟨a0, rfl⟩⟩
        · rw [Function.update_noteq hcc, h.assigned c2, List.mem_cons]
          exact ⟨fun hm => Or.inr hm, fun hm => hm.resolve_left hcc⟩
      noncore_tagged := h.noncore_tagged }

/-- Appending a package for a cell that no real package is indexed by, pointing
the cell to it, and pushing it to the core collection (when it is flagged core)
or to the inner collection (when it is not, and the cell counts as tagged)
keeps the state consistent. -/
theorem LevelSetState.Consistent.add_package {far : Real}
    {cls tagged cls2 tagged2 : List (Vecu D)} {s s2 : LevelSetState D}
    (h : s.Consistent far cls tagged) (c : Vecu D) (x : LevelSetDataPackage D)
    (hx : x.pkg_index_ = c)
    (hfree : ∀ (a : Nat) (p : LevelSetDataPackage D), 2 ≤ a → s.data_pkg_pool_[a]? = some p →
      p.pkg_index_ ≠ c)
    (hcls : ∀ y, y ∈ cls2 ↔ y = c ∨ y ∈ cls)
    (htag : ∀ y, y ∈ tagged → y ∈ tagged2)
    (hpool : s2.data_pkg_pool_ = s.data_pkg_pool_ ++ [x])
    (haddr : s2.data_pkg_addrs_ =
      Function.update s.data_pkg_addrs_ c (some s.data_pkg_pool_.length))
    (hsing : s2.singular_data_pkgs_addrs_ = s.singular_data_pkgs_addrs_)
    (hlists : (x.is_core_pkg_ = true ∧
        s2.core_data_pkgs_ = s.core_data_pkgs_ ++ [s.data_pkg_pool_.length] ∧
        s2.inner_data_pkgs_ = s.inner_data_pkgs_) ∨
      (c ∈ tagged2 ∧ s2.core_data_pkgs_ = s.core_data_pkgs_ ∧
        s2.inner_data_pkgs_ = s.inner_data_pkgs_ ++ [s.data_pkg_pool_.length])) :
    s2.Consistent far cls2 tagged2 := by
  have hlen := h.two_le
  have hold : ∀ (a : Nat) (p : LevelSetDataPackage D), s.data_pkg_pool_[a]? = some p →
      s2.data_pkg_pool_[a]? = some p := by
    intro a p hp
    rw [hpool]
    exact getElem?_append_singleton_eq_some.mpr (Or.inl hp)
  have hnew : ∀ (a : Nat) (p : LevelSetDataPackage D), s2.data_pkg_pool_[a]? = some p →
      s.data_pkg_pool_[a]? = some p ∨ (a = s.data_pkg_pool_.length ∧ x = p) := by
    intro a p hp
    rw [hpool] at hp
    exact getElem?_append_singleton_eq_some.mp hp
  have hlen2 : s2.data_pkg_pool_.length = s.data_pkg_pool_.length + 1 := by
    rw [hpool, List.length_append, List.length_singleton]
  have hfresh_core : s.data_pkg_pool_.length ∉ s.core_data_pkgs_ := by
    intro hm
    have := (h.core_real _ hm).2
    omega
  have hfresh_inner : s.data_pkg_pool_.length ∉ s.inner_data_pkgs_ := by
    intro hm
    obtain ⟨_, p, hp, _⟩ := h.inner_real _ hm
    obtain ⟨hlt, _⟩ := List.getElem?_eq_some.mp hp
    omega
  have hnodup_concat : ∀ (l : List Nat), l.Nodup → s.data_pkg_pool_.length ∉ l →
      (l ++ [s.data_pkg_pool_.length]).Nodup := by
    intro l hl hn
    rw [List.nodup_append]
    refine ⟨hl, List.nodup_singleton _, ?_⟩
    intro a ha hb
    rw [List.mem_singleton] at hb
    exact hn (hb ▸ ha)
  exact
    { singular := by rw [hsing]; exact h.singular
      inside := by
        obtain ⟨p, hp, hrest⟩ := h.inside
        exact ⟨p, hold 0 p hp, hrest⟩
      outside := by
        obtain ⟨p, hp, hrest⟩ := h.outside
        exact ⟨p, hold 1 p hp, hrest⟩
      core_nodup := by
        rcases hlists with ⟨_, hcore, _⟩ | ⟨_, hcore, _⟩
        · rw [hcore]
          exact hnodup_concat _ h.core_nodup hfresh_core
        · rw [hcore]
          exact h.core_nodup
      inner_nodup := by
        rcases hlists with ⟨_, _, hinner⟩ | ⟨_, _, hinner⟩
        · rw [hinner]
          exact h.inner_nodup
        · rw [hinner]
          exact hnodup_concat _ h.inner_nodup hfresh_inner
      core_real := by
        intro a ha
        rw [hlen2]
        rcases hlists with ⟨_, hcore, _⟩ | ⟨_, hcore, _⟩
        · rw [hcore, List.mem_append, List.mem_singleton] at ha
          rcases ha with ha | ha
          · have := h.core_real a ha
            omega
          · omega
        · rw [hcore] at ha
          have := h.core_real a ha
          omega
      inner_real := by
        intro a ha
        have hfrom : a ∈ s.inner_data_pkgs_ →
            2 ≤ a ∧ ∃ p, s2.data_pkg_pool_[a]? = some p ∧ p.pkg_index_ ∈ tagged2 := by
          intro hm
          obtain ⟨h2, p, hp, hidx⟩ := h.inner_real a hm
          exact ⟨h2, p, hold a p hp, htag _ hidx⟩
        rcases hlists with ⟨_, _, hinner⟩ | ⟨hct, _, hinner⟩
        · rw [hinner] at ha
          exact hfrom ha
        · rw [hinner, List.mem_append, List.mem_singleton] at ha
          rcases ha with ha | ha
          · exact hfrom ha
          · refine ⟨by omega, x, ?_, by rw [hx]; exact hct⟩
            rw [hpool, ha]
            exact List.getElem?_concat_length _ _
      grid_of_pkg := by
        intro a p ha hp
        rw [haddr]
        rcases hnew a p hp with hp | ⟨ha2, hxp⟩
        · rw [Function.update_noteq (hfree a p ha hp)]
          exact h.grid_of_pkg a p ha hp
        · rw [← hxp, hx, Function.update_same, ha2]
      pkg_of_grid := by
        intro c2 a hc2
        rw [haddr] at hc2
        by_cases hcc : c2 = c
        · subst hcc
          rw [Function.update_same] at hc2
          injection hc2 with hc2
          refine Or.inr ⟨x, ?_, hx⟩
          rw [hpool, ← hc2]
          exact List.getElem?_concat_length _ _
        · rw [Function.update_noteq hcc] at hc2
          rcases h.pkg_of_grid c2 a hc2 with hlt | ⟨p, hp, hidx⟩
          · exact Or.inl hlt
          · exact Or.inr ⟨p, hold a p hp, hidx⟩
      assigned := by
        intro c2
        rw [haddr, hcls]
        by_cases hcc : c2 = c
        · subst hcc
          rw [Function.update_same]
          exact ⟨fun _ => Or.inl rfl, fun _ => ⟨_, rfl⟩⟩
        · rw [Function.update_noteq hcc, h.assigned c2]
          exact ⟨fun hm => Or.inr hm, fun hm => hm.resolve_left hcc⟩
      noncore_tagged := by
        intro a p ha hp hnc
        rcases hnew a p hp with hp | ⟨_, hxp⟩
        · exact htag _ (h.noncore_tagged a p ha hp hnc)
        · rcases hlists with ⟨hxc, _, _⟩ | ⟨hct, _, _⟩
          · rw [← hxp, hxc] at hnc
            exact Bool.noConfusion hnc
          · rw [← hxp, hx]
            exact hct }

/-- Rewriting one real package in a way that keeps its core flag and its index,
possibly pushing it to the inner collection when it is not yet in it and its
cell counts as tagged, keeps the state consistent. -/
theorem LevelSetState.Consistent.modify_package {far : Real}
    {cls tagged tagged2 : List (Vecu D)} {s s2 : LevelSetState D}
    (h : s.Consistent far cls tagged) (a0 : Nat) (f : LevelSetDataPackage D → LevelSetDataPackage D)
    (ha0 : 2 ≤ a0)
    (hf : ∀ p, (f p).is_core_pkg_ = p.is_core_pkg_ ∧ (f p).pkg_index_ = p.pkg_index_)
    (htag : ∀ y, y ∈ tagged → y ∈ tagged2)
    (hpool : s2.data_pkg_pool_ = s.data_pkg_pool_.modify f a0)
    (haddr : s2.data_pkg_addrs_ = s.data_pkg_addrs_)
    (hsing : s2.singular_data_pkgs_addrs_ = s.singular_data_pkgs_addrs_)
    (hcore : s2.core_data_pkgs_ = s.core_data_pkgs_)
    (hinner : s2.inner_data_pkgs_ = s.inner_data_pkgs_ ∨
      (s2.inner_data_pkgs_ = s.inner_data_pkgs_ ++ [a0] ∧ a0 ∉ s.inner_data_pkgs_ ∧
        ∃ p, s.data_pkg_pool_[a0]? = some p ∧ p.pkg_index_ ∈ tagged2)) :
    s2.Consistent far cls tagged2 := by
  have hold : ∀ (a : Nat) (p : LevelSetDataPackage D), s.data_pkg_pool_[a]? = some p →
      ∃ q, s2.data_pkg_pool_[a]? = some q ∧ q.is_core_pkg_ = p.is_core_pkg_ ∧
        q.pkg_index_ = p.pkg_index_ ∧ (a < 2 → q = p) := by
    intro a p hp
    refine ⟨if a0 = a then f p else p, ?_, ?_, ?_, ?_⟩
    · rw [hpool]
      exact getElem?_modify_eq_some.mpr ⟨p, hp, rfl⟩
    · by_cases hc : a0 = a
      · rw [if_pos hc]; exact (hf p).1
      · rw [if_neg hc]
    · by_cases hc : a0 = a
      · rw [if_pos hc]; exact (hf p).2
      · rw [if_neg hc]
    · intro hlt
      rw [if_neg (by omega)]
  have hnew : ∀ (a : Nat) (q : LevelSetDataPackage D), s2.data_pkg_pool_[a]? = some q →
      ∃ p, s.data_pkg_pool_[a]? = some p ∧ q.is_core_pkg_ = p.is_core_pkg_ ∧
        q.pkg_index_ = p.pkg_index_ := by
    intro a q hq
    rw [hpool] at hq
    obtain ⟨p, hp, hqp⟩ := getElem?_modify_eq_some.mp hq
    refine ⟨p, hp, ?_, ?_⟩
    · by_cases hc : a0 = a
      · rw [hqp, if_pos hc]; exact (hf p).1
      · rw [hqp, if_neg hc]
    · by_cases hc : a0 = a
      · rw [hqp, if_pos hc]; exact (hf p).2
      · rw [hqp, if_neg hc]
  have hlen2 : s2.data_pkg_pool_.length = s.data_pkg_pool_.length := by
    rw [hpool, List.length_modify]
  exact
    { singular := by rw [hsing]; exact h.singular
      inside := by
        obtain ⟨p, hp, hrest⟩ := h.inside
        obtain ⟨q, hq, _, _, hqp⟩ := hold 0 p hp
        rw [hqp (by omega)] at hq
        exact ⟨p, hq, hrest⟩
      outside := by
        obtain ⟨p, hp, hrest⟩ := h.outside
        obtain ⟨q, hq, _, _, hqp⟩ := hold 1 p hp
        rw [hqp (by omega)] at hq
        exact ⟨p, hq, hrest⟩
      core_nodup := by rw [hcore]; exact h.core_nodup
      inner_nodup := by
        rcases hinner with hinner | ⟨hinner, hnot, _⟩
        · rw [hinner]; exact h.inner_nodup
        · rw [hinner, List.nodup_append]
          refine ⟨h.inner_nodup, List.nodup_singleton _, ?_⟩
          intro a ha hb
          rw [List.mem_singleton] at hb
          exact hnot (hb ▸ ha)
      core_real := by
        intro a ha
        rw [hcore] at ha
        rw [hlen2]
        exact h.core_real a ha
      inner_real := by
        intro a ha
        have hfrom : a ∈ s.inner_data_pkgs_ →
            2 ≤ a ∧ ∃ p, s2.data_pkg_pool_[a]? = some p ∧ p.pkg_index_ ∈ tagged2 := by
          intro hm
          obtain ⟨h2, p, hp, hidx⟩ := h.inner_real a hm
          obtain ⟨q, hq, _, hqi, _⟩ := hold a p hp
          exact ⟨h2, q, hq, by rw [hqi]; exact htag _ hidx⟩
        rcases hinner with hinner | ⟨hinner, _, p, hp, hidx⟩
        · rw [hinner] at ha
          exact hfrom ha
        · rw [hinner, List.mem_append, List.mem_singleton] at ha
          rcases ha with ha | ha
          · exact hfrom ha
          · obtain ⟨q, hq, _, hqi, _⟩ := hold a0 p hp
            exact ⟨by omega, q, by rw [ha]; exact hq, by rw [hqi]; exact hidx⟩
      grid_of_pkg := by
        intro a q ha hq
        obtain ⟨p, hp, _, hqi⟩ := hnew a q hq
        rw [haddr, hqi]
        exact h.grid_of_pkg a p ha hp
      pkg_of_grid := by
        intro c a hc
        rw [haddr] at hc
        rcases h.pkg_of_grid c a hc with hlt | ⟨p, hp, hidx⟩
        · exact Or.inl hlt
        · obtain ⟨q, hq, _, hqi, _⟩ := hold a p hp
          exact Or.inr ⟨q, hq, by rw [hqi]; exact hidx⟩
      assigned := by
        intro c
        rw [haddr]
        exact h.assigned c
      noncore_tagged := by
        intro a q ha hq hnc
        obtain ⟨p, hp, hqc, hqi⟩ := hnew a q hq
        rw [hqi]
        exact htag _ (h.noncore_tagged a p ha hp (by rw [← hqc]; exact hnc)) }

/-- A consistent state stays consistent when more cells count as tagged. -/
theorem LevelSetState.Consistent.mono_tagged {far : Real} {cls tagged tagged2 : List (Vecu D)}
    {s : LevelSetState D} (h : s.Consistent far cls tagged)
    (htag : ∀ y, y ∈ tagged → y ∈ tagged2) : s.Consistent far cls tagged2 :=
  { singular := h.singular
    inside := h.inside
    outside := h.outside
    core_nodup := h.core_nodup
    inner_nodup := h.inner_nodup
    core_real := h.core_real
    inner_real := by
      intro a ha
      obtain ⟨h2, p, hp, hidx⟩ := h.inner_real a ha
      exact ⟨h2, p, hp, htag _ hidx⟩
    grid_of_pkg := h.grid_of_pkg
    pkg_of_grid := h.pkg_of_grid
    assigned := h.assigned
    noncore_tagged := fun a p ha hp hnc => htag _ (h.noncore_tagged a p ha hp hnc) }

/-- Creating a package for a cell that no real package is indexed by, flagging
it core and pushing it to the core collection keeps the state consistent. -/
theorem LevelSetState.Consistent.create_core {far : Real} {cls tagged cls2 : List (Vecu D)}
    {s : LevelSetState D} (h : s.Consistent far cls tagged) (g : LevelSetSetup D) (c : Vecu D)
    (position : Vecd D)
    (hfree : ∀ (a : Nat) (p : LevelSetDataPackage D), 2 ≤ a → s.data_pkg_pool_[a]? = some p →
      p.pkg_index_ ≠ c)
    (hcls : ∀ y, y ∈ cls2 ↔ y = c ∨ y ∈ cls) :
    LevelSetState.Consistent far cls2 tagged
      { LevelSetState.setCore (LevelSetState.createDataPackage g c position s).2
          (LevelSetState.createDataPackage g c position s).1 with
        core_data_pkgs_ :=
          (LevelSetState.setCore (LevelSetState.createDataPackage g c position s).2
            (LevelSetState.createDataPackage g c position s).1).core_data_pkgs_ ++
            [(LevelSetState.createDataPackage g c position s).2] } := by
  refine h.add_package c
    { g.initializeBasicData position with
      is_core_pkg_ := true
      is_inner_pkg_ := (LevelSetDataPackage.construct g.raw_pkg).is_inner_pkg_
      pkg_index_ := c } rfl hfree hcls (fun y hy => hy) ?_ rfl rfl (Or.inl ⟨rfl, rfl, rfl⟩)
  exact modify_append_singleton _ _ _

/-- Creating a package for a cell that no real package is indexed by, flagging
it inner and pushing it to the inner collection keeps the state consistent, the
cell now counting as tagged. -/
theorem LevelSetState.Consistent.create_inner {far : Real} {cls tagged : List (Vecu D)}
    {s : LevelSetState D} (h : s.Consistent far cls tagged) (g : LevelSetSetup D) (c : Vecu D)
    (position : Vecd D) (hc : c ∈ cls)
    (hfree : ∀ (a : Nat) (p : LevelSetDataPackage D), 2 ≤ a → s.data_pkg_pool_[a]? = some p →
      p.pkg_index_ ≠ c) :
    LevelSetState.Consistent far cls (c :: tagged)
      { LevelSetState.setInner (LevelSetState.createDataPackage g c position s).2
          (LevelSetState.createDataPackage g c position s).1 with
        inner_data_pkgs_ :=
          (LevelSetState.setInner (LevelSetState.createDataPackage g c position s).2
            (LevelSetState.createDataPackage g c position s).1).inner_data_pkgs_ ++
            [(LevelSetState.createDataPackage g c position s).2] } := by
  refine h.add_package c
    { g.initializeBasicData position with
      is_core_pkg_ := (LevelSetDataPackage.construct g.raw_pkg).is_core_pkg_
      is_inner_pkg_ := true
      pkg_index_ := c } rfl hfree
    (fun y => ⟨fun hy => Or.inr hy, fun hy => hy.elim (fun e => e ▸ hc) id⟩)
    (fun y hy => List.mem_cons_of_mem _ hy) ?_ rfl rfl
    (Or.inr ⟨List.mem_cons_self _ _, rfl, rfl⟩)
  exact modify_append_singleton _ _ _

/-- One application of `initializeDataInACell` to a cell not yet classified
returns and keeps the state consistent. -/
theorem LevelSetState.initializeDataInACell_step (g : LevelSetSetup D) (far : Real)
    (tagged cls : List (Vecu D)) (c : Vecu D) (s : LevelSetState D)
    (h : s.Consistent far cls tagged) (hc : c ∉ cls) :
    ∃ s1, LevelSetState.initializeDataInACell g c s = .ok s1 ∧
      s1.Consistent far (c :: cls) tagged := by
  have hnone : ∀ a, s.data_pkg_addrs_ c = some a → a < 2 := by
    intro a ha
    exact absurd ((h.assigned c).mp ⟨a, ha⟩) hc
  unfold LevelSetState.initializeDataInACell
  simp only []
  by_cases hm : LevelSetState.measure g (g.CellPositionFromIndex c) < g.grid_spacing_
  · rw [if_pos hm]
    exact ⟨_, rfl, h.create_core g c _ (h.free_of_singular c hnone) (fun y => List.mem_cons)⟩
  · rw [if_neg hm, h.singular]
    cases g.shape_.checkContain (g.CellPositionFromIndex c) with
    | true => exact ⟨_, rfl, h.assign_singular c 0 (by omega) hc⟩
    | false => exact ⟨_, rfl, h.assign_singular c 1 (by omega) hc⟩

/-- One application of `initializeDataInACellFromCoarse` to a cell not yet
classified returns and keeps the state consistent. -/
theorem LevelSetState.initializeDataInACellFromCoarse_step (g : LevelSetSetup D)
    (coarse : LevelSet Real D) (far : Real) (tagged cls : List (Vecu D)) (c : Vecu D)
    (s : LevelSetState D) (h : s.Consistent far cls tagged) (hc : c ∉ cls) :
    ∃ s1, LevelSetState.initializeDataInACellFromCoarse g coarse c s = .ok s1 ∧
      s1.Consistent far (c :: cls) tagged := by
  have key : ∀ a0 : Nat, a0 < 2 →
      ∃ s1, (let s0 := LevelSetState.assignDataPackageAddress c a0 s
        if coarse.isWithinCorePackage (g.CellPositionFromIndex c) then
          if LevelSetState.measure g (g.CellPositionFromIndex c) < g.grid_spacing_ then
            let created := LevelSetState.createDataPackage g c (g.CellPositionFromIndex c) s0
            let s1 := LevelSetState.setCore created.2 created.1
            (.ok { s1 with core_data_pkgs_ := s1.core_data_pkgs_ ++ [created.2] } :
              Except Fault (LevelSetState D))
          else .ok s0
        else .ok s0) = .ok s1 ∧ s1.Consistent far (c :: cls) tagged := by
    intro a0 ha0
    have h0 := h.assign_singular c a0 ha0 hc
    have hsing : ∀ a, (LevelSetState.assignDataPackageAddress c a0 s).data_pkg_addrs_ c = some a →
        a < 2 := by
      intro a ha
      have ha : Function.update s.data_pkg_addrs_ c (some a0) c = some a := ha
      rw [Function.update_same] at ha
      injection ha with ha
      omega
    simp only []
    by_cases hw : coarse.isWithinCorePackage (g.CellPositionFromIndex c) = true
    · rw [if_pos hw]
      by_cases hm : LevelSetState.measure g (g.CellPositionFromIndex c) < g.grid_spacing_
      · rw [if_pos hm]
        refine ⟨_, rfl, h0.create_core g c _ (h0.free_of_singular c hsing) ?_⟩
        intro y
        simp only [List.mem_cons]
        tauto
      · rw [if_neg hm]
        exact ⟨_, rfl, h0⟩
    · rw [if_neg hw]
      exact ⟨_, rfl, h0⟩
  unfold LevelSetState.initializeDataInACellFromCoarse
  simp only []
  rw [h.singular]
  by_cases hneg : coarse.probeSignedDistance (g.CellPositionFromIndex c) < 0
  · rw [if_pos hneg]
    exact key 0 (by omega)
  · rw [if_neg hneg]
    exact key 1 (by omega)

/-- One application of `tagACellIsInnerPackage` to a classified cell not yet
tagged returns and keeps the state consistent. -/
theorem LevelSetState.tagACellIsInnerPackage_step (g : LevelSetSetup D) (far : Real)
    (cls tagged : List (Vecu D)) (c : Vecu D) (s : LevelSetState D)
    (h : s.Consistent far cls tagged) (hc : c ∈ cls) (hnt : c ∉ tagged) :
    ∃ s1, LevelSetState.tagACellIsInnerPackage g c s = .ok s1 ∧
      s1.Consistent far cls (c :: tagged) := by
  have hmono : ∀ y, y ∈ tagged → y ∈ c :: tagged := fun y hy => List.mem_cons_of_mem _ hy
  unfold LevelSetState.tagACellIsInnerPackage
  by_cases hin : g.isInnerPackage s c = true
  · rw [if_pos hin]
    obtain ⟨a, ha⟩ := (h.assigned c).mpr hc
    have hpkg : ∃ p, s.data_pkg_pool_[a]? = some p ∧
        ((a < 2 ∧ p.is_core_pkg_ = false) ∨ (2 ≤ a ∧ p.pkg_index_ = c)) := by
      by_cases hlt : a < 2
      · have hcases : a = 0 ∨ a = 1 := by omega
        rcases hcases with h0 | h1
        · obtain ⟨p, hp, _, hnc⟩ := h.inside
          exact ⟨p, h0 ▸ hp, Or.inl ⟨hlt, hnc⟩⟩
        · obtain ⟨p, hp, _, hnc⟩ := h.outside
          exact ⟨p, h1 ▸ hp, Or.inl ⟨hlt, hnc⟩⟩
      · rcases h.pkg_of_grid c a ha with hlt2 | ⟨p, hp, hidx⟩
        · exact absurd hlt2 hlt
        · exact ⟨p, hp, Or.inr ⟨by omega, hidx⟩⟩
    obtain ⟨p, hp, hkind⟩ := hpkg
    simp only [ha, hp]
    by_cases hcore : p.is_core_pkg_ = true
    · rw [if_pos hcore]
      have hreal : 2 ≤ a ∧ p.pkg_index_ = c := by
        rcases hkind with ⟨_, hnc⟩ | hr
        · rw [hnc] at hcore
          exact Bool.noConfusion hcore
        · exact hr
      refine ⟨_, rfl, h.modify_package a (fun q => { q with is_inner_pkg_ := true }) hreal.1
        (fun q => ⟨rfl, rfl⟩) hmono rfl rfl rfl rfl (Or.inr ⟨rfl, ?_, p, hp, ?_⟩)⟩
      · intro hmem
        obtain ⟨_, q, hq, hidx⟩ := h.inner_real a hmem
        rw [hp] at hq
        injection hq with hq
        rw [← hq, hreal.2] at hidx
        exact hnt hidx
      · rw [hreal.2]
        exact List.mem_cons_self _ _
    · rw [if_neg hcore]
      have hsing : ∀ a2, s.data_pkg_addrs_ c = some a2 → a2 < 2 := by
        intro a2 ha2
        rw [ha] at ha2
        injection ha2 with ha2
        rcases hkind with ⟨hlt, _⟩ | ⟨hge, hidx⟩
        · omega
        · have hnc : p.is_core_pkg_ = false := by
            cases hv : p.is_core_pkg_ with
            | true => exact absurd hv hcore
            | false => rfl
          have := h.noncore_tagged a p hge hp hnc
          rw [hidx] at this
          exact absurd this hnt
      exact ⟨_, rfl, h.create_inner g c _ hc (h.free_of_singular c hsing)⟩
  · rw [if_neg hin]
    exact ⟨s, rfl, h.mono_tagged hmono⟩

/-- A pass of `PackageIterator_parallel` over real packages keeps the state
consistent when each application of the functor to a real package does. -/
theorem PackageIterator_parallel_consistent {far : Real} {cls tagged : List (Vecu D)}
    (functor : Nat → LevelSetState D → LevelSetState D)
    (hfun : ∀ (a : Nat) (s : LevelSetState D), 2 ≤ a → s.Consistent far cls tagged →
      (functor a s).Consistent far cls tagged) :
    ∀ (pkgs : List Nat) (s : LevelSetState D), (∀ a, a ∈ pkgs → 2 ≤ a) →
      s.Consistent far cls tagged →
      (PackageIterator_parallel pkgs functor s).Consistent far cls tagged := by
  intro pkgs
  induction pkgs with
  | nil => intro s _ h; exact h
  | cons a pkgs ih =>
    intro s hreal h
    unfold PackageIterator_parallel
    rw [List.foldl_cons]
    exact ih (functor a s) (fun b hb => hreal b (List.mem_cons_of_mem _ hb))
      (hfun a s (hreal a (List.mem_cons_self _ _)) h)

/-- The gradient pass keeps the state consistent. -/
theorem LevelSetState.Consistent.updateLevelSetGradient {far : Real}
    {cls tagged : List (Vecu D)} {s : LevelSetState D} (h : s.Consistent far cls tagged)
    (k : PackageOperations D) : (s.updateLevelSetGradient k).Consistent far cls tagged := by
  unfold LevelSetState.updateLevelSetGradient
  refine PackageIterator_parallel_consistent _ ?_ _ s (fun a ha => (h.inner_real a ha).1) h
  intro a s2 ha h2
  exact h2.modify_package a (fun q => { q with phi_gradient_ := k.computeGradient s2 a }) ha
    (fun q => ⟨rfl, rfl⟩) (fun y hy => hy) rfl rfl rfl rfl (Or.inl rfl)

/-- The kernel integral pass keeps the state consistent. -/
theorem LevelSetState.Consistent.updateKernelIntegrals {far : Real}
    {cls tagged : List (Vecu D)} {s : LevelSetState D} (h : s.Consistent far cls tagged)
    (k : PackageOperations D) : (s.updateKernelIntegrals k).Consistent far cls tagged := by
  unfold LevelSetState.updateKernelIntegrals
  refine PackageIterator_parallel_consistent _ ?_ _ s (fun a ha => (h.inner_real a ha).1) h
  intro a s2 ha h2
  exact h2.modify_package a
    (fun q =>
      { q with
        kernel_weight_ := (k.computeKernelIntegrals s2 a).1
        kernel_gradient_ := (k.computeKernelIntegrals s2 a).2 }) ha
    (fun q => ⟨rfl, rfl⟩) (fun y hy => hy) rfl rfl rfl rfl (Or.inl rfl)

/-- The classification pass of a `LevelSet` over pairwise different cells
returns and leaves a consistent state in which the cells are classified. -/
theorem LevelSetState.classification_pass (g : LevelSetSetup D) (far : Real)
    (s0 : LevelSetState D) (h0 : s0.Consistent far [] []) (hnodup : g.all_cells.Nodup) :
    ∃ s1, MeshIterator_parallel (LevelSetState.initializeDataInACell g) g.all_cells s0 = .ok s1 ∧
      s1.Consistent far (g.all_cells.reverse ++ []) [] :=
  MeshIterator_parallel_invariant (LevelSetState.initializeDataInACell g)
    (fun visited s => s.Consistent far visited []) (fun _ => True)
    (fun visited c s h _ hc => LevelSetState.initializeDataInACell_step g far [] visited c s h hc)
    g.all_cells [] s0 hnodup (fun _ _ => trivial) (fun c _ => List.not_mem_nil c) h0

/-- The classification pass of a `RefinedLevelSet` over pairwise different
cells returns and leaves a consistent state in which the cells are classified. -/
theorem LevelSetState.classification_pass_from_coarse (g : LevelSetSetup D) (coarse : LevelSet Real D)
    (far : Real) (s0 : LevelSetState D) (h0 : s0.Consistent far [] [])
    (hnodup : g.all_cells.Nodup) :
    ∃ s1, MeshIterator_parallel (LevelSetState.initializeDataInACellFromCoarse g coarse)
        g.all_cells s0 = .ok s1 ∧
      s1.Consistent far (g.all_cells.reverse ++ []) [] :=
  MeshIterator_parallel_invariant (LevelSetState.initializeDataInACellFromCoarse g coarse)
    (fun visited s => s.Consistent far visited []) (fun _ => True)
    (fun visited c s h _ hc =>
      LevelSetState.initializeDataInACellFromCoarse_step g coarse far [] visited c s h hc)
    g.all_cells [] s0 hnodup (fun _ _ => trivial) (fun c _ => List.not_mem_nil c) h0

/-- The tagging pass over pairwise different classified cells returns and
leaves a consistent state in which the cells are tagged. -/
theorem LevelSetState.tagging_pass (g : LevelSetSetup D) (far : Real) (cls : List (Vecu D))
    (s1 : LevelSetState D) (h1 : s1.Consistent far cls []) (hnodup : g.all_cells.Nodup)
    (hcls : ∀ c, c ∈ g.all_cells → c ∈ cls) :
    ∃ s2, MeshIterator_parallel (LevelSetState.tagACellIsInnerPackage g) g.all_cells s1 = .ok s2 ∧
      s2.Consistent far cls (g.all_cells.reverse ++ []) :=
  MeshIterator_parallel_invariant (LevelSetState.tagACellIsInnerPackage g)
    (fun visited s => s.Consistent far cls visited) (fun c => c ∈ cls)
    (fun visited c s h hc hnt =>
      LevelSetState.tagACellIsInnerPackage_step g far cls visited c s h hc hnt)
    g.all_cells [] s1 hnodup hcls (fun c _ => List.not_mem_nil c) h1

/-- From a consistent state in which the cells are classified,
`finishDataPackages` returns a consistent state. -/
theorem LevelSetState.finishDataPackages_consistent (g : LevelSetSetup D)
    (k : PackageOperations D) (far : Real) (cls : List (Vecu D)) (s1 : LevelSetState D)
    (h1 : s1.Consistent far cls []) (hnodup : g.all_cells.Nodup)
    (hcls : ∀ c, c ∈ g.all_cells → c ∈ cls) :
    ∃ s, LevelSetState.finishDataPackages g k s1 = .ok s ∧
      s.Consistent far cls (g.all_cells.reverse ++ []) := by
  obtain ⟨s2, hs2, h2⟩ := LevelSetState.tagging_pass g far cls s1 h1 hnodup hcls
  refine ⟨_, ?_, (h2.updateLevelSetGradient k).updateKernelIntegrals k⟩
  unfold LevelSetState.finishDataPackages
  rw [hs2]
  simp only [MeshIterator_parallel_initializeAddresses]

/-- With a valid shape and pairwise different cells the four-argument
constructor returns a consistent state in which every cell is classified, for
the far-field distance of a buffer width of 4. -/
theorem LevelSetState.construct_consistent (g : LevelSetSetup D) (k : PackageOperations D)
    (hvalid : g.shape_.isValid = true) (hnodup : g.all_cells.Nodup) :
    ∃ s, LevelSetState.construct g k = .ok s ∧
      s.Consistent (g.grid_spacing_ * ((4 : Nat) : Real)) (g.all_cells.reverse ++ [])
        (g.all_cells.reverse ++ []) := by
  obtain ⟨s0, hs0, h0, _⟩ :=
    LevelSetState.construct5_consistent { g with buffer_width_ := 4 } hvalid
  obtain ⟨s1, hs1, h1⟩ := LevelSetState.classification_pass g _ s0 h0 hnodup
  obtain ⟨s, hs, h⟩ := LevelSetState.finishDataPackages_consistent g k _ _ s1 h1 hnodup
    (fun c hc => by simpa using hc)
  refine ⟨s, ?_, h⟩
  unfold LevelSetState.construct
  rw [hs0]
  simp only [hs1]
  exact hs

/-- With a valid shape and pairwise different cells the constructor of a
refined level returns a consistent state in which every cell is classified. -/
theorem LevelSetState.constructRefined_consistent (g : LevelSetSetup D)
    (k : PackageOperations D) (coarse : LevelSet Real D)
    (hvalid : g.shape_.isValid = true) (hnodup : g.all_cells.Nodup) :
    ∃ s, LevelSetState.constructRefined g k coarse = .ok s ∧
      s.Consistent (g.grid_spacing_ * ((4 : Nat) : Real)) (g.all_cells.reverse ++ [])
        (g.all_cells.reverse ++ []) := by
  obtain ⟨s0, hs0, h0, _⟩ :=
    LevelSetState.construct5_consistent { g with buffer_width_ := 4 } hvalid
  obtain ⟨s1, hs1, h1⟩ := LevelSetState.classification_pass_from_coarse g coarse _ s0 h0 hnodup
  obtain ⟨s, hs, h⟩ := LevelSetState.finishDataPackages_consistent g k _ _ s1 h1 hnodup
    (fun c hc => by simpa using hc)
  refine ⟨s, ?_, h⟩
  unfold LevelSetState.constructRefined
  rw [hs0]
  simp only [hs1]
  exact hs

/-- In a consistent state every classified cell points to one package: a
singular package, or a real package that carries the index of the cell. -/
theorem LevelSetState.Consistent.everyCell {far : Real} {cls tagged : List (Vecu D)}
    {s : LevelSetState D} (h : s.Consistent far cls tagged) (cells : List (Vecu D))
    (hcls : ∀ c, c ∈ cells → c ∈ cls) : s.EveryCellHasOnePackage cells := by
  refine ⟨by rw [h.singular]; rfl, ?_⟩
  intro c hc
  obtain ⟨a, ha⟩ := (h.assigned c).mpr (hcls c hc)
  refine ⟨a, ha, ?_⟩
  rw [h.singular]
  by_cases hlt : a < 2
  · left
    have hcases : a = 0 ∨ a = 1 := by omega
    rcases hcases with h0 | h1
    · rw [h0]; simp
    · rw [h1]; simp
  · right
    refine ⟨?_, ?_⟩
    · intro hm
      simp only [List.mem_cons, List.mem_singleton, List.not_mem_nil, or_false] at hm
      omega
    · rcases h.pkg_of_grid c a ha with hlt2 | hp
      · exact absurd hlt2 hlt
      · exact hp

/-- In a consistent state two real packages with the same index are the same
package. -/
theorem LevelSetState.Consistent.index_injective {far : Real} {cls tagged : List (Vecu D)}
    {s : LevelSetState D} (h : s.Consistent far cls tagged) (a b : Nat)
    (p q : LevelSetDataPackage D) (ha : 2 ≤ a) (hb : 2 ≤ b)
    (hp : s.data_pkg_pool_[a]? = some p) (hq : s.data_pkg_pool_[b]? = some q)
    (hidx : p.pkg_index_ = q.pkg_index_) : a = b := by
  have h1 := h.grid_of_pkg a p ha hp
  have h2 := h.grid_of_pkg b q hb hq
  rw [hidx, h2] at h1
  injection h1 with h1
  exact h1.symm

/-- The weights of multilinear interpolation add up to 1. -/
theorem multilinearWeight_sum (t : Fin D → Real) :
    ∑ corner : Fin D → Bool, multilinearWeight t corner = 1 := by
  have h := Finset.prod_univ_sum (fun _ : Fin D => (Finset.univ : Finset Bool))
    (fun i b => if b then t i else 1 - t i)
  rw [Fintype.piFinset_univ] at h
  unfold multilinearWeight
  rw [← h]
  simp

/-- When every corner of the stencil lies in a cell that points to a package
whose `phi_` is constant, the probe returns that constant. -/
theorem LevelSetState.probeSignedDistance_constant (stencil : ProbeStencil D)
    (s : LevelSetState D) (position : Vecd D) (a : Nat) (p : LevelSetDataPackage D) (value : Real)
    (hp : s.data_pkg_pool_[a]? = some p) (hphi : p.phi_ = fun _ => value)
    (hcells : ∀ corner, s.data_pkg_addrs_ (stencil.cornerCell position corner) = some a) :
    s.probeSignedDistance stencil position = .ok value := by
  have hval : ∀ corner, s.phiAt (stencil.cornerCell position corner)
      (stencil.cornerIndex position corner) = some value := by
    intro corner
    unfold LevelSetState.phiAt
    rw [hcells corner]
    simp only [hp, hphi]
  unfold LevelSetState.probeSignedDistance
  rw [if_pos (fun corner => by rw [hval corner]; rfl)]
  simp only [hval, Option.getD_some]
  rw [← Finset.sum_mul, multilinearWeight_sum, one_mul]

/-- C14. `MultilevelLevelSet::cleanInterface(shift)` on a non-empty vector of
levels returns the same vector with `LevelSet::cleanInterface(shift)` applied
to the last (finest) level: every coarser level is left as it was. -/
theorem MultilevelLevelSet_cleanInterface_finest_only (k : PackageOperations D) (shift : Real)
    (mesh_levels_ : List (LevelSetState D)) (hne : mesh_levels_ ≠ []) :
    ∃ (coarser : List (LevelSetState D)) (finest : LevelSetState D),
      mesh_levels_ = coarser ++ [finest] ∧
      MultilevelLevelSet.cleanInterface k shift mesh_levels_ =
        .ok (coarser ++ [finest.cleanInterface k shift]) ∧
      ∀ (updated : List (LevelSetState D)) (j : Nat),
        MultilevelLevelSet.cleanInterface k shift mesh_levels_ = .ok updated →
        j + 1 < mesh_levels_.length → updated[j]? = mesh_levels_[j]? := by
  obtain ⟨finest, hlast⟩ : ∃ finest, mesh_levels_.getLast? = some finest := by
    cases hl : mesh_levels_.getLast? with
    | none => exact absurd (List.getLast?_eq_none_iff.mp hl) hne
    | some finest => exact ⟨finest, rfl⟩
  obtain ⟨coarser, hsplit⟩ := List.getLast?_eq_some_iff.mp hlast
  have hclean : MultilevelLevelSet.cleanInterface k shift mesh_levels_ =
      .ok (coarser ++ [finest.cleanInterface k shift]) := by
    unfold MultilevelLevelSet.cleanInterface
    rw [hlast]
    simp only [hsplit]
    congr 1
    simp
  refine ⟨coarser, finest, hsplit, hclean, ?_⟩
  intro updated j hupd hj
  rw [hclean] at hupd
  injection hupd with hupd
  rw [← hupd, hsplit]
  rw [hsplit, List.length_append, List.length_singleton] at hj
  rw [List.getElem?_append_left (by omega), List.getElem?_append_left (by omega)]

/-- Witness for C14 on a vector of two levels in their initial state. -/
theorem MultilevelLevelSet_cleanInterface_finest_only_witness :
    ([LevelSetState.initial, LevelSetState.initial] : List (LevelSetState 2)) ≠ [] ∧
      ∃ (coarser : List (LevelSetState 2)) (finest : LevelSetState 2),
        [LevelSetState.initial, LevelSetState.initial] = coarser ++ [finest] ∧
        MultilevelLevelSet.cleanInterface sampleOperations 0
            [LevelSetState.initial, LevelSetState.initial] =
          .ok (coarser ++ [finest.cleanInterface sampleOperations 0]) ∧
        ∀ (updated : List (LevelSetState 2)) (j : Nat),
          MultilevelLevelSet.cleanInterface sampleOperations 0
              [LevelSetState.initial, LevelSetState.initial] = .ok updated →
          j + 1 < [LevelSetState.initial, (LevelSetState.initial : LevelSetState 2)].length →
          updated[j]? = [LevelSetState.initial, (LevelSetState.initial : LevelSetState 2)][j]? :=
  have hne : ([LevelSetState.initial, LevelSetState.initial] : List (LevelSetState 2)) ≠ [] :=
    List.cons_ne_nil _ _
  ⟨hne, MultilevelLevelSet_cleanInterface_finest_only sampleOperations 0 _ hne⟩

/-- The loop of `reinitializeLevelSet` with `n` passes left applies the sweep
over the inner collection `n` times. -/
theorem LevelSetState.reinitializeLevelSetLoop_eq_iterate (k : PackageOperations D) :
    ∀ (n : Nat) (s : LevelSetState D),
      LevelSetState.reinitializeLevelSetLoop k n s =
        (fun s1 : LevelSetState D =>
          s1.inner_data_pkgs_.foldl
            (fun s2 pkg => LevelSetState.stepReinitializationForAPackage k pkg s2) s1)^[n] s := by
  intro n
  induction n with
  | zero => intro s; rfl
  | succ n ih =>
    intro s
    rw [Function.iterate_succ_apply]
    unfold LevelSetState.reinitializeLevelSetLoop
    exact ih _

/-- A sweep of `stepReinitializationForAPackage` over packages that are
pairwise different leaves every member but the pool as it is, leaves the
packages that are not swept as they are, and replaces `phi_` of each swept
package, and nothing else of it, by what `stepReinitialization` yields on the
state in which the packages before it have been stepped. -/
theorem LevelSetState.sweep_stepReinitialization (k : PackageOperations D) :
    ∀ (pkgs : List Nat) (s : LevelSetState D), pkgs.Nodup →
      (PackageIterator_parallel pkgs (LevelSetState.stepReinitializationForAPackage k)
          s).data_pkg_addrs_ = s.data_pkg_addrs_ ∧
        (PackageIterator_parallel pkgs (LevelSetState.stepReinitializationForAPackage k)
          s).singular_data_pkgs_addrs_ = s.singular_data_pkgs_addrs_ ∧
        (PackageIterator_parallel pkgs (LevelSetState.stepReinitializationForAPackage k)
          s).core_data_pkgs_ = s.core_data_pkgs_ ∧
        (PackageIterator_parallel pkgs (LevelSetState.stepReinitializationForAPackage k)
          s).inner_data_pkgs_ = s.inner_data_pkgs_ ∧
        (∀ a, a ∉ pkgs →
          (PackageIterator_parallel pkgs (LevelSetState.stepReinitializationForAPackage k)
            s).data_pkg_pool_[a]? = s.data_pkg_pool_[a]?) ∧
        ∀ (i a : Nat) (p : LevelSetDataPackage D), pkgs[i]? = some a →
          s.data_pkg_pool_[a]? = some p →
          ∃ q, (PackageIterator_parallel pkgs (LevelSetState.stepReinitializationForAPackage k)
              s).data_pkg_pool_[a]? = some q ∧
            q = { p with phi_ := q.phi_ } ∧
            q.phi_ = k.stepReinitialization
              (PackageIterator_parallel (pkgs.take i)
                (LevelSetState.stepReinitializationForAPackage k) s) a := by
  intro pkgs
  induction pkgs with
  | nil =>
    intro s _
    refine ⟨rfl, rfl, rfl, rfl, fun a _ => rfl, ?_⟩
    intro i a p hi
    simp at hi
  | cons b rest ih =>
    intro s hnodup
    obtain ⟨hb, hrest⟩ := List.nodup_cons.mp hnodup
    obtain ⟨k1, k2, k3, k3b, k4, k5⟩ :=
      ih (LevelSetState.stepReinitializationForAPackage k b s) hrest
    have hother : ∀ a, a ≠ b →
        (LevelSetState.stepReinitializationForAPackage k b s).data_pkg_pool_[a]? =
          s.data_pkg_pool_[a]? := by
      intro a hab
      show (s.data_pkg_pool_.modify _ b)[a]? = _
      rw [List.getElem?_modify]
      cases s.data_pkg_pool_[a]? with
      | none => rfl
      | some p =>
        have hba : ¬ b = a := fun e => hab e.symm
        simp [hba]
    have hcons : ∀ t : LevelSetState D,
        PackageIterator_parallel (b :: rest) (LevelSetState.stepReinitializationForAPackage k) t =
          PackageIterator_parallel rest (LevelSetState.stepReinitializationForAPackage k)
            (LevelSetState.stepReinitializationForAPackage k b t) := fun _ => rfl
    rw [hcons]
    refine ⟨k1, k2, k3, k3b, ?_, ?_⟩
    · intro a ha
      rw [k4 a (fun h => ha (List.mem_cons_of_mem _ h)),
        hother a (fun e => ha (e ▸ List.mem_cons_self _ _))]
    · intro i a p hi hp
      cases i with
      | zero =>
        simp only [List.getElem?_cons_zero, Option.some.injEq] at hi
        subst hi
        refine ⟨{ p with phi_ := k.stepReinitialization s b }, ?_, rfl, rfl⟩
        rw [k4 b hb]
        show (s.data_pkg_pool_.modify _ b)[b]? = _
        rw [List.getElem?_modify, hp]
        simp
      | succ j =>
        simp only [List.getElem?_cons_succ] at hi
        have hab : a ≠ b := by
          intro e
          exact hb (e ▸ List.getElem?_mem hi)
        obtain ⟨q, hq, hq2, hq3⟩ := k5 j a p hi (by rw [hother a hab]; exact hp)
        exact ⟨q, hq, hq2, hq3⟩

/-- A pass whose functor leaves the inner collection as it is leaves it as it
is. -/
theorem PackageIterator_parallel_inner_data_pkgs
    (functor : Nat → LevelSetState D → LevelSetState D)
    (h : ∀ a s, (functor a s).inner_data_pkgs_ = s.inner_data_pkgs_) :
    ∀ (pkgs : List Nat) (s : LevelSetState D),
      (PackageIterator_parallel pkgs functor s).inner_data_pkgs_ = s.inner_data_pkgs_ := by
  intro pkgs
  induction pkgs with
  | nil => intro s; rfl
  | cons a pkgs ih =>
    intro s
    unfold PackageIterator_parallel at ih ⊢
    rw [List.foldl_cons, ih, h]

/-- The cells of `sampleSetup` are pairwise different. -/
theorem sampleSetup_cells_nodup : sampleSetup.all_cells.Nodup := by
  decide

/-- C15. `LevelSet::cleanInterface(shift)` is the composition, in this order, of
`markNearInterface(shift)`, `redistanceInterface`, `reinitializeLevelSet`,
`updateLevelSetGradient` and `updateKernelIntegrals`, and `reinitializeLevelSet`
is 50 sweeps.  The level the constructor builds (valid shape, each cell visited
once) holds no package twice in its inner collection; and on every state whose
inner collection holds no package twice, marking and redistancing keep the
collection, and a sweep keeps the collection, leaves every package outside it
as it is, and replaces `phi_` of each package of the collection, and nothing
else of the package, by what `stepReinitialization` yields on the state in
which the packages before it in the collection have been stepped: every inner
package is stepped exactly once in every sweep. -/
theorem LevelSet_cleanInterface_composition (g : LevelSetSetup D) (k : PackageOperations D)
    (shift : Real) (hvalid : g.shape_.isValid = true) (hcells : g.all_cells.Nodup) :
    (∀ s : LevelSetState D, s.cleanInterface k shift =
        ((((s.markNearInterface k shift).redistanceInterface k).reinitializeLevelSet
          k).updateLevelSetGradient k).updateKernelIntegrals k) ∧
      (∀ s : LevelSetState D, s.reinitializeLevelSet k =
        (fun s2 : LevelSetState D =>
          PackageIterator_parallel s2.inner_data_pkgs_
            (LevelSetState.stepReinitializationForAPackage k) s2)^[50] s) ∧
      (∃ s, LevelSetState.construct g k = .ok s ∧ s.inner_data_pkgs_.Nodup) ∧
      ∀ s : LevelSetState D, s.inner_data_pkgs_.Nodup →
        ((s.markNearInterface k shift).redistanceInterface k).inner_data_pkgs_ =
          s.inner_data_pkgs_ ∧
        (PackageIterator_parallel s.inner_data_pkgs_
          (LevelSetState.stepReinitializationForAPackage k) s).inner_data_pkgs_ =
            s.inner_data_pkgs_ ∧
        (∀ a, a ∉ s.inner_data_pkgs_ →
          (PackageIterator_parallel s.inner_data_pkgs_
            (LevelSetState.stepReinitializationForAPackage k) s).data_pkg_pool_[a]? =
              s.data_pkg_pool_[a]?) ∧
        ∀ (i a : Nat) (p : LevelSetDataPackage D), s.inner_data_pkgs_[i]? = some a →
          s.data_pkg_pool_[a]? = some p →
          ∃ q, (PackageIterator_parallel s.inner_data_pkgs_
              (LevelSetState.stepReinitializationForAPackage k) s).data_pkg_pool_[a]? =
                some q ∧
            q = { p with phi_ := q.phi_ } ∧
            q.phi_ = k.stepReinitialization
              (PackageIterator_parallel (s.inner_data_pkgs_.take i)
                (LevelSetState.stepReinitializationForAPackage k) s) a := by
  refine ⟨fun _ => rfl, fun s => LevelSetState.reinitializeLevelSetLoop_eq_iterate k 50 s,
    ?_, ?_⟩
  · obtain ⟨s, hs, hcons⟩ := LevelSetState.construct_consistent g k hvalid hcells
    exact ⟨s, hs, hcons.inner_nodup⟩
  · intro s hnodup
    obtain ⟨_, _, _, h4, h5, h6⟩ :=
      LevelSetState.sweep_stepReinitialization k s.inner_data_pkgs_ s hnodup
    refine ⟨?_, h4, h5, h6⟩
    exact (PackageIterator_parallel_inner_data_pkgs
      (LevelSetState.redistanceInterfaceForAPackage k) (fun _ _ => rfl) _ _).trans
      (PackageIterator_parallel_inner_data_pkgs
        (LevelSetState.markNearInterfaceForAPackage k shift) (fun _ _ => rfl) _ _)

/-- Witness for C15 on the row of five cells of `sampleSetup`. -/
theorem LevelSet_cleanInterface_composition_witness :
    (sampleSetup.shape_.isValid = true ∧ sampleSetup.all_cells.Nodup) ∧
      ((∀ s : LevelSetState 2, s.cleanInterface sampleOperations 0 =
            ((((s.markNearInterface sampleOperations 0).redistanceInterface sampleOperations).reinitializeLevelSet
              sampleOperations).updateLevelSetGradient sampleOperations).updateKernelIntegrals sampleOperations) ∧
          (∀ s : LevelSetState 2, s.reinitializeLevelSet sampleOperations =
            (fun s2 : LevelSetState 2 =>
              PackageIterator_parallel s2.inner_data_pkgs_
                (LevelSetState.stepReinitializationForAPackage sampleOperations) s2)^[50] s) ∧
          (∃ s, LevelSetState.construct sampleSetup sampleOperations = .ok s ∧ s.inner_data_pkgs_.Nodup) ∧
          ∀ s : LevelSetState 2, s.inner_data_pkgs_.Nodup →
            ((s.markNearInterface sampleOperations 0).redistanceInterface sampleOperations).inner_data_pkgs_ =
              s.inner_data_pkgs_ ∧
            (PackageIterator_parallel s.inner_data_pkgs_
              (LevelSetState.stepReinitializationForAPackage sampleOperations) s).inner_data_pkgs_ =
                s.inner_data_pkgs_ ∧
            (∀ a, a ∉ s.inner_data_pkgs_ →
              (PackageIterator_parallel s.inner_data_pkgs_
                (LevelSetState.stepReinitializationForAPackage sampleOperations) s).data_pkg_pool_[a]? =
                  s.data_pkg_pool_[a]?) ∧
            ∀ (i a : Nat) (p : LevelSetDataPackage 2), s.inner_data_pkgs_[i]? = some a →
              s.data_pkg_pool_[a]? = some p →
              ∃ q, (PackageIterator_parallel s.inner_data_pkgs_
                  (LevelSetState.stepReinitializationForAPackage sampleOperations) s).data_pkg_pool_[a]? =
                    some q ∧
                q = { p with phi_ := q.phi_ } ∧
                q.phi_ = sampleOperations.stepReinitialization
                  (PackageIterator_parallel (s.inner_data_pkgs_.take i)
                    (LevelSetState.stepReinitializationForAPackage sampleOperations) s) a) :=
  ⟨⟨rfl, sampleSetup_cells_nodup⟩,
    LevelSet_cleanInterface_composition sampleSetup sampleOperations 0 rfl
      sampleSetup_cells_nodup⟩

/-- C16. With a valid shape, the five-argument constructor leaves exactly two
packages in the pool, both singular: the first with `phi_` equal to
`-(grid_spacing_ * buffer_width_)` everywhere and the second with `phi_` equal
to `+(grid_spacing_ * buffer_width_)`.  The four-argument constructor (buffer
width 4, cells visited once each) keeps these two as its singular packages. -/
theorem LevelSet_constructor_two_singular_packages (g : LevelSetSetup D)
    (k : PackageOperations D) (hvalid : g.shape_.isValid = true) (hnodup : g.all_cells.Nodup) :
    (∃ s0, LevelSetState.construct5 g = .ok s0 ∧
        s0.singular_data_pkgs_addrs_ = [0, 1] ∧ s0.data_pkg_pool_.length = 2 ∧
        ∃ p0 p1, s0.data_pkg_pool_[0]? = some p0 ∧ s0.data_pkg_pool_[1]? = some p1 ∧
          p0.phi_ = (fun _ => -(g.grid_spacing_ * (g.buffer_width_ : Real))) ∧
          p1.phi_ = (fun _ => g.grid_spacing_ * (g.buffer_width_ : Real))) ∧
      ∃ s, LevelSetState.construct g k = .ok s ∧
        s.singular_data_pkgs_addrs_ = [0, 1] ∧
        ∃ p0 p1, s.data_pkg_pool_[0]? = some p0 ∧ s.data_pkg_pool_[1]? = some p1 ∧
          p0.phi_ = (fun _ => -(g.grid_spacing_ * 4)) ∧
          p1.phi_ = (fun _ => g.grid_spacing_ * 4) := by
  constructor
  · obtain ⟨s0, hs0, h0, hlen, _⟩ := LevelSetState.construct5_consistent g hvalid
    obtain ⟨p0, hp0, hphi0, _⟩ := h0.inside
    obtain ⟨p1, hp1, hphi1, _⟩ := h0.outside
    exact ⟨s0, hs0, h0.singular, hlen, p0, p1, hp0, hp1, hphi0, hphi1⟩
  · obtain ⟨s, hs, h⟩ := LevelSetState.construct_consistent g k hvalid hnodup
    obtain ⟨p0, hp0, hphi0, _⟩ := h.inside
    obtain ⟨p1, hp1, hphi1, _⟩ := h.outside
    refine ⟨s, hs, h.singular, p0, p1, hp0, hp1, ?_, ?_⟩
    · rw [hphi0]; norm_num
    · rw [hphi1]; norm_num

/-- Witness for C16 on the row of five cells of `sampleSetup`. -/
theorem LevelSet_constructor_two_singular_packages_witness :
    (sampleSetup.shape_.isValid = true ∧ sampleSetup.all_cells.Nodup) ∧
      ((∃ s0, LevelSetState.construct5 sampleSetup = .ok s0 ∧
          s0.singular_data_pkgs_addrs_ = [0, 1] ∧ s0.data_pkg_pool_.length = 2 ∧
          ∃ p0 p1, s0.data_pkg_pool_[0]? = some p0 ∧ s0.data_pkg_pool_[1]? = some p1 ∧
            p0.phi_ = (fun _ => -(sampleSetup.grid_spacing_ * (sampleSetup.buffer_width_ : Real))) ∧
            p1.phi_ = (fun _ => sampleSetup.grid_spacing_ * (sampleSetup.buffer_width_ : Real))) ∧
        ∃ s, LevelSetState.construct sampleSetup sampleOperations = .ok s ∧
          s.singular_data_pkgs_addrs_ = [0, 1] ∧
          ∃ p0 p1, s.data_pkg_pool_[0]? = some p0 ∧ s.data_pkg_pool_[1]? = some p1 ∧
            p0.phi_ = (fun _ => -(sampleSetup.grid_spacing_ * 4)) ∧
            p1.phi_ = (fun _ => sampleSetup.grid_spacing_ * 4)) :=
  ⟨⟨rfl, sampleSetup_cells_nodup⟩,
    LevelSet_constructor_two_singular_packages sampleSetup sampleOperations rfl
      sampleSetup_cells_nodup⟩

/-- C17. With a valid shape and each cell visited once, the classification pass
of a `LevelSet` and that of a `RefinedLevelSet` return, and so does the tagging
pass after either; after each of these passes every cell points to one package,
which is one of the two singular packages or a real package that carries the
index of the cell. -/
theorem background_grid_one_package_per_cell (g : LevelSetSetup D) (coarse : LevelSet Real D)
    (hvalid : g.shape_.isValid = true) (hnodup : g.all_cells.Nodup) :
    ∃ s0, LevelSetState.construct5 { g with buffer_width_ := 4 } = .ok s0 ∧
      (∃ s1 s2,
        MeshIterator_parallel (LevelSetState.initializeDataInACell g) g.all_cells s0 = .ok s1 ∧
        s1.EveryCellHasOnePackage g.all_cells ∧
        MeshIterator_parallel (LevelSetState.tagACellIsInnerPackage g) g.all_cells s1 = .ok s2 ∧
        s2.EveryCellHasOnePackage g.all_cells) ∧
      (∃ r1 r2,
        MeshIterator_parallel (LevelSetState.initializeDataInACellFromCoarse g coarse)
          g.all_cells s0 = .ok r1 ∧
        r1.EveryCellHasOnePackage g.all_cells ∧
        MeshIterator_parallel (LevelSetState.tagACellIsInnerPackage g) g.all_cells r1 = .ok r2 ∧
        r2.EveryCellHasOnePackage g.all_cells) := by
  obtain ⟨s0, hs0, h0, _⟩ :=
    LevelSetState.construct5_consistent { g with buffer_width_ := 4 } hvalid
  have hcls : ∀ c, c ∈ g.all_cells → c ∈ g.all_cells.reverse ++ [] := fun c hc => by
    simpa using hc
  obtain ⟨s1, hs1, h1⟩ := LevelSetState.classification_pass g _ s0 h0 hnodup
  obtain ⟨s2, hs2, h2⟩ := LevelSetState.tagging_pass g _ _ s1 h1 hnodup hcls
  obtain ⟨r1, hr1, k1⟩ := LevelSetState.classification_pass_from_coarse g coarse _ s0 h0 hnodup
  obtain ⟨r2, hr2, k2⟩ := LevelSetState.tagging_pass g _ _ r1 k1 hnodup hcls
  exact ⟨s0, hs0,
    ⟨s1, s2, hs1, h1.everyCell _ hcls, hs2, h2.everyCell _ hcls⟩,
    ⟨r1, r2, hr1, k1.everyCell _ hcls, hr2, k2.everyCell _ hcls⟩⟩

/-- Witness for C17 on the row of five cells of `sampleSetup`, refined from
`sampleLevel`. -/
theorem background_grid_one_package_per_cell_witness :
    (sampleSetup.shape_.isValid = true ∧ sampleSetup.all_cells.Nodup) ∧
      ∃ s0, LevelSetState.construct5 { sampleSetup with buffer_width_ := 4 } = .ok s0 ∧
        (∃ s1 s2,
          MeshIterator_parallel (LevelSetState.initializeDataInACell sampleSetup)
            sampleSetup.all_cells s0 = .ok s1 ∧
          s1.EveryCellHasOnePackage sampleSetup.all_cells ∧
          MeshIterator_parallel (LevelSetState.tagACellIsInnerPackage sampleSetup)
            sampleSetup.all_cells s1 = .ok s2 ∧
          s2.EveryCellHasOnePackage sampleSetup.all_cells) ∧
        (∃ r1 r2,
          MeshIterator_parallel
            (LevelSetState.initializeDataInACellFromCoarse sampleSetup (sampleLevel 1 0 true))
            sampleSetup.all_cells s0 = .ok r1 ∧
          r1.EveryCellHasOnePackage sampleSetup.all_cells ∧
          MeshIterator_parallel (LevelSetState.tagACellIsInnerPackage sampleSetup)
            sampleSetup.all_cells r1 = .ok r2 ∧
          r2.EveryCellHasOnePackage sampleSetup.all_cells) :=
  ⟨⟨rfl, sampleSetup_cells_nodup⟩,
    background_grid_one_package_per_cell sampleSetup (sampleLevel 1 0 true) rfl
      sampleSetup_cells_nodup⟩

/-- In a consistent state the real packages carry pairwise different indices. -/
theorem LevelSetState.Consistent.realPackages_nodup {far : Real} {cls tagged : List (Vecu D)}
    {s : LevelSetState D} (h : s.Consistent far cls tagged) :
    (s.realPackages.map LevelSetDataPackage.pkg_index_).Nodup := by
  rw [List.nodup_iff_getElem?_ne_getElem?]
  intro i j hij hj
  unfold LevelSetState.realPackages at hj ⊢
  rw [h.singular] at hj ⊢
  simp only [List.length_cons, List.length_nil, List.length_map, List.length_drop] at hj
  simp only [List.length_cons, List.length_nil, List.getElem?_map, List.getElem?_drop]
  have hjlt : 0 + 1 + 1 + j < s.data_pkg_pool_.length := by omega
  have hilt : 0 + 1 + 1 + i < s.data_pkg_pool_.length := by omega
  rw [List.getElem?_eq_getElem hjlt, List.getElem?_eq_getElem hilt]
  intro heq
  simp only [Option.map_some', Option.some.injEq] at heq
  have := h.index_injective (0 + 1 + 1 + i) (0 + 1 + 1 + j) _ _ (by omega) (by omega)
    (List.getElem?_eq_getElem hilt) (List.getElem?_eq_getElem hjlt) heq
  omega

/-- C18. With a valid shape and each cell visited once, the construction of a
level (classification pass, then `finishDataPackages`) returns a state in which
the real packages of the pool, one for each call of `createDataPackage`, carry
pairwise different `pkg_index_`, and in which neither `core_data_pkgs_` nor
`inner_data_pkgs_` holds a package twice; the same is true of a refined level. -/
theorem packages_created_once (g : LevelSetSetup D) (k : PackageOperations D)
    (coarse : LevelSet Real D) (hvalid : g.shape_.isValid = true) (hnodup : g.all_cells.Nodup) :
    (∃ s, LevelSetState.construct g k = .ok s ∧
        (s.realPackages.map LevelSetDataPackage.pkg_index_).Nodup ∧
        s.core_data_pkgs_.Nodup ∧ s.inner_data_pkgs_.Nodup) ∧
      ∃ r, LevelSetState.constructRefined g k coarse = .ok r ∧
        (r.realPackages.map LevelSetDataPackage.pkg_index_).Nodup ∧
        r.core_data_pkgs_.Nodup ∧ r.inner_data_pkgs_.Nodup := by
  obtain ⟨s, hs, h⟩ := LevelSetState.construct_consistent g k hvalid hnodup
  obtain ⟨r, hr, h2⟩ := LevelSetState.constructRefined_consistent g k coarse hvalid hnodup
  exact ⟨⟨s, hs, h.realPackages_nodup, h.core_nodup, h.inner_nodup⟩,
    ⟨r, hr, h2.realPackages_nodup, h2.core_nodup, h2.inner_nodup⟩⟩

/-- Witness for C18 on the row of five cells of `sampleSetup`. -/
theorem packages_created_once_witness :
    (sampleSetup.shape_.isValid = true ∧ sampleSetup.all_cells.Nodup) ∧
      ((∃ s, LevelSetState.construct sampleSetup sampleOperations = .ok s ∧
          (s.realPackages.map LevelSetDataPackage.pkg_index_).Nodup ∧
          s.core_data_pkgs_.Nodup ∧ s.inner_data_pkgs_.Nodup) ∧
        ∃ r, LevelSetState.constructRefined sampleSetup sampleOperations (sampleLevel 1 0 true)
            = .ok r ∧
          (r.realPackages.map LevelSetDataPackage.pkg_index_).Nodup ∧
          r.core_data_pkgs_.Nodup ∧ r.inner_data_pkgs_.Nodup) :=
  ⟨⟨rfl, sampleSetup_cells_nodup⟩,
    packages_created_once sampleSetup sampleOperations (sampleLevel 1 0 true) rfl
      sampleSetup_cells_nodup⟩

/-- C20. With a valid shape and each cell visited once, the four-argument
constructor (buffer width 4) returns a level on which `probeSignedDistance`
returns exactly `-(grid_spacing_ * 4)` at every position whose interpolation
stencil lies in cells that point to the first singular package, and exactly
`+(grid_spacing_ * 4)` at every position whose stencil lies in cells that point
to the second. -/
theorem probeSignedDistance_far_field_exact (g : LevelSetSetup D) (k : PackageOperations D)
    (stencil : ProbeStencil D) (hvalid : g.shape_.isValid = true)
    (hnodup : g.all_cells.Nodup) :
    ∃ s, LevelSetState.construct g k = .ok s ∧
      ∀ position : Vecd D,
        ((∀ corner, s.data_pkg_addrs_ (stencil.cornerCell position corner) =
              s.singular_data_pkgs_addrs_[0]?) →
            s.probeSignedDistance stencil position = .ok (-(g.grid_spacing_ * 4))) ∧
          ((∀ corner, s.data_pkg_addrs_ (stencil.cornerCell position corner) =
              s.singular_data_pkgs_addrs_[1]?) →
            s.probeSignedDistance stencil position = .ok (g.grid_spacing_ * 4)) := by
  obtain ⟨s, hs, h⟩ := LevelSetState.construct_consistent g k hvalid hnodup
  refine ⟨s, hs, ?_⟩
  intro position
  obtain ⟨p0, hp0, hphi0, _⟩ := h.inside
  obtain ⟨p1, hp1, hphi1, _⟩ := h.outside
  constructor
  · intro hcells
    have := LevelSetState.probeSignedDistance_constant stencil s position 0 p0 _ hp0 hphi0
      (fun corner => by rw [hcells corner, h.singular]; rfl)
    rw [this]
    norm_num
  · intro hcells
    have := LevelSetState.probeSignedDistance_constant stencil s position 1 p1 _ hp1 hphi1
      (fun corner => by rw [hcells corner, h.singular]; rfl)
    rw [this]
    norm_num

/-- The measure of the only cell of `farSetup` is 2. -/
theorem farSetup_measure :
    LevelSetState.measure farSetup (farSetup.CellPositionFromIndex (sampleCell 0 0)) = 2 := by
  have h : List.finRange 2 = [0, 1] := by decide
  simp [LevelSetState.measure, getMaxAbsoluteElement, h, farSetup, sampleSetup, halfPlane,
    sampleCell]

/-- The four-argument constructor on `farSetup` returns `farState`: the cell is
two cells inside, so it is pointed to the first singular package, and it is not
an inner cell. -/
theorem farSetup_construct :
    LevelSetState.construct farSetup sampleOperations = .ok farState := by
  have h5 : LevelSetState.construct5 { farSetup with buffer_width_ := 4 } =
      .ok (LevelSetState.initializeASingularDataPackage farSetup 4
        (LevelSetState.initializeASingularDataPackage farSetup (-4) LevelSetState.initial)) := by
    simp [LevelSetState.construct5, BaseLevelSet.construct, farSetup, sampleSetup, halfPlane,
      LevelSetState.initializeASingularDataPackage]
  have hcls : LevelSetState.initializeDataInACell farSetup (sampleCell 0 0)
      (LevelSetState.initializeASingularDataPackage farSetup 4
        (LevelSetState.initializeASingularDataPackage farSetup (-4) LevelSetState.initial)) =
      .ok farState := by
    unfold LevelSetState.initializeDataInACell
    simp only [farSetup_measure]
    norm_num [farSetup, sampleSetup, halfPlane, sampleCell, farState,
      LevelSetState.initializeASingularDataPackage, LevelSetState.initial]
  have hne : sampleCell 1 0 ≠ sampleCell 0 0 := by
    intro he
    have := congrFun he 0
    simp [sampleCell] at this
  have hinner : farSetup.isInnerPackage farState (sampleCell 0 0) = false := by
    simp [farSetup, sampleSetup, farState, LevelSetState.assignDataPackageAddress,
      LevelSetState.initializeASingularDataPackage, LevelSetState.initial, sampleCell,
      LevelSetDataPackage.initializeSingularData, LevelSetDataPackage.construct,
      Function.update_apply]
    rw [if_neg hne]
  unfold LevelSetState.construct
  rw [h5]
  have hcells : farSetup.all_cells = [sampleCell 0 0] := rfl
  simp only [hcells, MeshIterator_parallel, hcls, LevelSetState.finishDataPackages,
    LevelSetState.tagACellIsInnerPackage, hinner, LevelSetState.initializeAddressesInACell]
  rfl

/-- Every corner of the stencil of `farInside` lies in the cell `(0, 0)`, which
points to the first singular package in `farState`. -/
theorem farState_stencil (corner : Fin 2 → Bool) :
    farState.data_pkg_addrs_ (sampleStencil.cornerCell farInside corner) =
      farState.singular_data_pkgs_addrs_[0]? := by
  have hfloor : ⌊(-2 + 5 / 2 : ℚ)⌋ = 0 := by
    rw [Int.floor_eq_iff]; norm_num
  simp [sampleStencil, farInside, hfloor, farState, LevelSetState.assignDataPackageAddress,
    LevelSetState.initializeASingularDataPackage, LevelSetState.initial]

/-- Witness for C20 on the single far-inside cell of `farSetup`: the
constructed level is `farState`, and the probe at the centre of the cell
returns -4, the grid spacing 1 times the buffer width 4. -/
theorem probeSignedDistance_far_field_exact_witness :
    (farSetup.shape_.isValid = true ∧ farSetup.all_cells.Nodup) ∧
      (∃ s, LevelSetState.construct farSetup sampleOperations = .ok s ∧
        ∀ position : Vecd 2,
          ((∀ corner, s.data_pkg_addrs_ (sampleStencil.cornerCell position corner) =
                s.singular_data_pkgs_addrs_[0]?) →
              s.probeSignedDistance sampleStencil position =
                .ok (-(farSetup.grid_spacing_ * 4))) ∧
            ((∀ corner, s.data_pkg_addrs_ (sampleStencil.cornerCell position corner) =
                s.singular_data_pkgs_addrs_[1]?) →
              s.probeSignedDistance sampleStencil position =
                .ok (farSetup.grid_spacing_ * 4))) ∧
      farState.probeSignedDistance sampleStencil farInside = .ok (-4) :=
  have hnodup : farSetup.all_cells.Nodup := List.nodup_singleton _
  have hthm := probeSignedDistance_far_field_exact farSetup sampleOperations sampleStencil rfl
    hnodup
  ⟨⟨rfl, hnodup⟩, hthm, by
    obtain ⟨s, hs, hall⟩ := hthm
    rw [farSetup_construct] at hs
    injection hs with hs
    subst hs
    have h := (hall farInside).1 farState_stencil
    rw [h]
    norm_num [farSetup, sampleSetup]⟩

/-! The smoothed step `computeHeaviside` and the reaction update -/

/-- The sine changes by no more than its argument does. -/
theorem abs_sin_sub_sin_le_abs_sub (x y : ℝ) : |Real.sin x - Real.sin y| ≤ |x - y| := by
  rw [Real.sin_sub_sin, abs_mul, abs_mul]
  have h1 : |Real.sin ((x - y) / 2)| ≤ |(x - y) / 2| := Real.abs_sin_le_abs
  have h2 : |Real.cos ((x + y) / 2)| ≤ 1 := Real.abs_cos_le_one _
  have h3 : |(x - y) / 2| = |x - y| / 2 := by
    rw [abs_div]
    norm_num
  have h0 : 0 ≤ |Real.sin ((x - y) / 2)| := abs_nonneg _
  have h4 : (0 : ℝ) ≤ |(2 : ℝ)| := abs_nonneg _
  have h5 : |(2 : ℝ)| = 2 := by norm_num
  rw [h5]
  have h6 : 0 ≤ |Real.cos ((x + y) / 2)| := abs_nonneg _
  nlinarith

/-- Inside the band, with a constant `Pi` that is positive and at most `π`, the
smoothed step is below 0 or above 1 by at most `(π - Pi) / (2 * Pi)`. -/
theorem heaviside_band_bounds_of_le_pi (Pi n : ℝ) (hPi : 0 < Pi) (hle : Pi ≤ Real.pi)
    (h1 : -1 < n) (h2 : n < 1) :
    -((Real.pi - Pi) / (2 * Pi)) ≤ (1 / 2 + 1 / 2 * n) + 1 / 2 * Real.sin (Pi * n) / Pi ∧
      (1 / 2 + 1 / 2 * n) + 1 / 2 * Real.sin (Pi * n) / Pi ≤ 1 + (Real.pi - Pi) / (2 * Pi) := by
  have hsinPi : Real.sin Pi ≤ Real.pi - Pi := by
    rw [← Real.sin_pi_sub]
    exact Real.sin_le (by linarith)
  have hlow : -(Pi * (1 + n)) - Real.sin Pi ≤ Real.sin (Pi * n) := by
    have h := abs_sin_sub_sin_le_abs_sub (Pi * n) (-Pi)
    rw [Real.sin_neg] at h
    have habs : |Pi * n - -Pi| = Pi * (1 + n) := by
      rw [abs_of_nonneg (by nlinarith)]
      ring
    rw [habs] at h
    have := (abs_le.mp h).1
    linarith
  have hup : Real.sin (Pi * n) ≤ Pi * (1 - n) + Real.sin Pi := by
    have h := abs_sin_sub_sin_le_abs_sub (Pi * n) Pi
    have habs : |Pi * n - Pi| = Pi * (1 - n) := by
      rw [abs_of_nonpos (by nlinarith)]
      ring
    rw [habs] at h
    have := (abs_le.mp h).2
    linarith
  have e1 : (1 / 2 + 1 / 2 * n) + 1 / 2 * Real.sin (Pi * n) / Pi =
      (Pi * (1 + n) + Real.sin (Pi * n)) / (2 * Pi) := by
    field_simp
    ring
  have h2Pi : 0 < 2 * Pi := by linarith
  rw [e1]
  constructor
  · rw [← neg_div, div_le_div_iff_of_pos_right h2Pi]
    linarith
  · rw [show 1 + (Real.pi - Pi) / (2 * Pi) = (2 * Pi + (Real.pi - Pi)) / (2 * Pi) by
      field_simp]
    rw [div_le_div_iff_of_pos_right h2Pi]
    linarith

/-- The value of the constant `Pi` of the code, the double closest to `π`, is
below `π` by more than `10 ^ (-16)` and by less than `2 ^ (-50)`. -/
theorem double_pi_bounds :
    (884279719003555 / 2 ^ 48 : ℝ) + 1 / 10 ^ 16 < Real.pi ∧
      Real.pi < 884279719003555 / 2 ^ 48 + 1 / 2 ^ 50 := by
  have h1 := Real.pi_gt_d20
  have h2 := Real.pi_lt_d20
  constructor
  · refine lt_trans ?_ h1
    norm_num
  · refine lt_trans h2 ?_
    norm_num

/-- C27 (the code at the failing input). With `half_width = 1`, the smoothed
step is 1/2 at `phi = 0` but 0 at `phi = 1 = half_width`: there neither the
band test `phi < half_width` nor the test `normalized_phi > 1.0` holds, and the
initial value 0 is returned.  So `0 ≤ 1` and yet the value at 0 is not at most
the value at 1. -/
theorem computeHeaviside_drops_at_half_width :
    BaseLevelSet.computeHeaviside Real.sin Real.pi (0 : ℝ) 1 = 1 / 2 ∧
      BaseLevelSet.computeHeaviside Real.sin Real.pi (1 : ℝ) 1 = 0 ∧
      (0 : ℝ) ≤ 1 ∧
      ¬ (BaseLevelSet.computeHeaviside Real.sin Real.pi (0 : ℝ) 1 ≤
        BaseLevelSet.computeHeaviside Real.sin Real.pi (1 : ℝ) 1) := by
  have h0 : BaseLevelSet.computeHeaviside Real.sin Real.pi (0 : ℝ) 1 = 1 / 2 := by
    simp [BaseLevelSet.computeHeaviside]
  have h1 : BaseLevelSet.computeHeaviside Real.sin Real.pi (1 : ℝ) 1 = 0 := by
    simp [BaseLevelSet.computeHeaviside]
  refine ⟨h0, h1, by norm_num, ?_⟩
  rw [h0, h1]
  norm_num

/-- C28 (as stated, refuted). With the constant `Pi` of the code, the double
`884279719003555 / 2 ^ 48` closest to `π` and below it, and with the real sine,
the smoothed step at `phi = -(1 - 2 ^ (-52))`, `half_width = 1` is inside the
band and negative: there `sin (Pi * n)` is below `-Pi * (1 + n)`, because
`Pi * (1 + n)` falls short of `π * (1 + n)`. -/
theorem computeHeaviside_negative_counterexample :
    (0 : ℝ) < 1 ∧ (884279719003555 / 2 ^ 48 : ℝ) < Real.pi ∧
      BaseLevelSet.computeHeaviside Real.sin (884279719003555 / 2 ^ 48)
        (-(1 - 1 / 2 ^ 52) : ℝ) 1 < 0 ∧
      ¬ (0 ≤ BaseLevelSet.computeHeaviside Real.sin (884279719003555 / 2 ^ 48)
        (-(1 - 1 / 2 ^ 52) : ℝ) 1) := by
  obtain ⟨hlo, hhi⟩ := double_pi_bounds
  have hneg : BaseLevelSet.computeHeaviside Real.sin (884279719003555 / 2 ^ 48)
      (-(1 - 1 / 2 ^ 52) : ℝ) 1 < 0 := by
    unfold BaseLevelSet.computeHeaviside
    simp only [div_one]
    rw [if_neg (by norm_num), if_pos (by constructor <;> norm_num)]
    have hx0 : 0 < Real.pi - 884279719003555 / 2 ^ 48 * (1 - 1 / 2 ^ 52) := by
      have : (884279719003555 / 2 ^ 48 : ℝ) * (1 - 1 / 2 ^ 52) < 884279719003555 / 2 ^ 48 := by
        norm_num
      linarith
    have hx1 : Real.pi - 884279719003555 / 2 ^ 48 * (1 - 1 / 2 ^ 52) ≤ 2 / 10 ^ 15 := by
      have : (884279719003555 / 2 ^ 48 : ℝ) + 1 / 2 ^ 50 -
          884279719003555 / 2 ^ 48 * (1 - 1 / 2 ^ 52) ≤ 2 / 10 ^ 15 := by norm_num
      linarith
    have hsin := Real.sin_gt_sub_cube hx0 (le_trans hx1 (by norm_num))
    rw [Real.sin_pi_sub] at hsin
    have hcube : (Real.pi - 884279719003555 / 2 ^ 48 * (1 - 1 / 2 ^ 52)) ^ 3 ≤
        (2 / 10 ^ 15) ^ 3 := pow_le_pow_left₀ hx0.le hx1 3
    have hs : (884279719003555 / 2 ^ 48 : ℝ) * (1 / 2 ^ 52) <
        Real.sin (884279719003555 / 2 ^ 48 * (1 - 1 / 2 ^ 52)) := by
      have : (884279719003555 / 2 ^ 48 : ℝ) * (1 / 2 ^ 52) + 1 / 10 ^ 16 - (2 / 10 ^ 15) ^ 3 / 4 ≤
          Real.pi - 884279719003555 / 2 ^ 48 * (1 - 1 / 2 ^ 52) -
            (Real.pi - 884279719003555 / 2 ^ 48 * (1 - 1 / 2 ^ 52)) ^ 3 / 4 := by
        have e : (884279719003555 / 2 ^ 48 : ℝ) * (1 / 2 ^ 52) + 1 / 10 ^ 16 =
            884279719003555 / 2 ^ 48 + 1 / 10 ^ 16 -
              884279719003555 / 2 ^ 48 * (1 - 1 / 2 ^ 52) := by ring
        linarith
      have hpos : (0 : ℝ) < 1 / 10 ^ 16 - (2 / 10 ^ 15) ^ 3 / 4 := by norm_num
      linarith
    have harg : (884279719003555 / 2 ^ 48 : ℝ) * -(1 - 1 / 2 ^ 52) =
        -(884279719003555 / 2 ^ 48 * (1 - 1 / 2 ^ 52)) := by ring
    rw [harg, Real.sin_neg]
    have hP : (0 : ℝ) < 884279719003555 / 2 ^ 48 := by norm_num
    have hq : (1 / 2 ^ 52 : ℝ) <
        Real.sin (884279719003555 / 2 ^ 48 * (1 - 1 / 2 ^ 52)) / (884279719003555 / 2 ^ 48) := by
      rw [lt_div_iff₀ hP]
      linarith
    have e2 : (1 / 2 : ℝ) * -Real.sin (884279719003555 / 2 ^ 48 * (1 - 1 / 2 ^ 52)) /
        (884279719003555 / 2 ^ 48) =
        -(1 / 2 * (Real.sin (884279719003555 / 2 ^ 48 * (1 - 1 / 2 ^ 52)) /
          (884279719003555 / 2 ^ 48))) := by ring
    rw [e2]
    linarith
  refine ⟨by norm_num, ?_, hneg, not_le.mpr hneg⟩
  have : (884279719003555 / 2 ^ 48 : ℝ) < 884279719003555 / 2 ^ 48 + 1 / 10 ^ 16 := by norm_num
  linarith

/-- C28 (amended). For every real `phi` and every `half_width > 0`, with the
real sine and a constant `Pi` that is at most `π` and less than `2 ^ (-50)`
below it, as the double closest to `π` is, `computeHeaviside(phi, half_width)`
lies within `2 ^ (-50)` of the interval `[0, 1]`. -/
theorem computeHeaviside_near_unit_interval (Pi phi half_width : ℝ) (hw : 0 < half_width)
    (hle : Pi ≤ Real.pi) (hclose : Real.pi ≤ Pi + 1 / 2 ^ 50) :
    -(1 / 2 ^ 50) ≤ BaseLevelSet.computeHeaviside Real.sin Pi phi half_width ∧
      BaseLevelSet.computeHeaviside Real.sin Pi phi half_width ≤ 1 + 1 / 2 ^ 50 := by
  unfold BaseLevelSet.computeHeaviside
  simp only []
  by_cases hgt : phi / half_width > 1
  · rw [if_pos hgt]
    norm_num
  · rw [if_neg hgt]
    by_cases hband : phi < half_width ∧ phi > -half_width
    · rw [if_pos hband]
      have h1 : -1 < phi / half_width := by
        rw [lt_div_iff₀ hw]
        linarith [hband.2]
      have h2 : phi / half_width < 1 := by
        rw [div_lt_iff₀ hw]
        linarith [hband.1]
      have hPi : 2 ≤ Pi := by
        have h3 := Real.pi_gt_three
        have : (1 : ℝ) / 2 ^ 50 ≤ 1 / 8 := by norm_num
        linarith
      have hPi0 : 0 < Pi := by linarith
      obtain ⟨hlow, hup⟩ := heaviside_band_bounds_of_le_pi Pi (phi / half_width) hPi0 hle h1 h2
      have hslack : (Real.pi - Pi) / (2 * Pi) ≤ 1 / 2 ^ 50 := by
        rw [div_le_iff₀ (by linarith)]
        have : (0 : ℝ) < 1 / 2 ^ 50 := by positivity
        nlinarith
      constructor
      · linarith
      · linarith
    · rw [if_neg hband]
      norm_num

/-- Witness for the amended C28 with the double closest to `π` at
`phi = -(1 - 2 ^ (-52))`, `half_width = 1`. -/
theorem computeHeaviside_near_unit_interval_witness :
    ((0 : ℝ) < 1 ∧ (884279719003555 / 2 ^ 48 : ℝ) ≤ Real.pi ∧
        Real.pi ≤ 884279719003555 / 2 ^ 48 + 1 / 2 ^ 50) ∧
      (-(1 / 2 ^ 50) ≤ BaseLevelSet.computeHeaviside Real.sin (884279719003555 / 2 ^ 48)
          (-(1 - 1 / 2 ^ 52) : ℝ) 1 ∧
        BaseLevelSet.computeHeaviside Real.sin (884279719003555 / 2 ^ 48)
          (-(1 - 1 / 2 ^ 52) : ℝ) 1 ≤ 1 + 1 / 2 ^ 50) :=
  have hle : (884279719003555 / 2 ^ 48 : ℝ) ≤ Real.pi := by
    have : (884279719003555 / 2 ^ 48 : ℝ) < 884279719003555 / 2 ^ 48 + 1 / 10 ^ 16 := by
      norm_num
    linarith [double_pi_bounds.1]
  have hclose : Real.pi ≤ 884279719003555 / 2 ^ 48 + 1 / 2 ^ 50 := double_pi_bounds.2.le
  ⟨⟨by norm_num, hle, hclose⟩,
    computeHeaviside_near_unit_interval _ _ 1 (by norm_num) hle hclose⟩

/-- C30. With the real exponential and `TinyReal > 0`, the updated value of
`UpdateAReactionSpecies` is not negative whenever `input`, `production_rate`,
`loss_rate` and `dt` are not negative. -/
theorem UpdateAReactionSpecies_nonneg (TinyReal input production_rate loss_rate dt : ℝ)
    (hTiny : 0 < TinyReal) (hin : 0 ≤ input) (hprod : 0 ≤ production_rate)
    (hloss : 0 ≤ loss_rate) (hdt : 0 ≤ dt) :
    0 ≤ UpdateAReactionSpecies Real.exp TinyReal input production_rate loss_rate dt := by
  unfold UpdateAReactionSpecies
  have hexp_pos : 0 < Real.exp (-loss_rate * dt) := Real.exp_pos _
  have hexp_le : Real.exp (-loss_rate * dt) ≤ 1 := by
    rw [Real.exp_le_one_iff]
    have := mul_nonneg hloss hdt
    linarith
  have h1 : 0 ≤ input * Real.exp (-loss_rate * dt) := mul_nonneg hin hexp_pos.le
  have h2 : 0 ≤ production_rate * (1 - Real.exp (-loss_rate * dt)) / (loss_rate + TinyReal) :=
    div_nonneg (mul_nonneg hprod (by linarith)) (by linarith)
  linarith

/-- Witness for C30 with all arguments and `TinyReal` equal to 1. -/
theorem UpdateAReactionSpecies_nonneg_witness :
    ((0 : ℝ) < 1 ∧ (0 : ℝ) ≤ 1 ∧ (0 : ℝ) ≤ 1 ∧ (0 : ℝ) ≤ 1 ∧ (0 : ℝ) ≤ 1) ∧
      0 ≤ UpdateAReactionSpecies Real.exp (1 : ℝ) 1 1 1 1 :=
  ⟨⟨one_pos, zero_le_one, zero_le_one, zero_le_one, zero_le_one⟩,
    UpdateAReactionSpecies_nonneg 1 1 1 1 1 one_pos zero_le_one zero_le_one zero_le_one
      zero_le_one⟩

/-! The blend weight of the multi-level probes -/

/-- C26 (as stated, refuted). On the two levels with ratios 1 and 3/2 and
probed values 0 and 1, with `Eps = 2^-52`, the ratio `h = 1 - 2^-53` is accepted
by `getMeshLevel`, which returns level 0 because `h - 1 > -Eps`; the weight is
then `alpha = 1 + 2^-52 > 1`, and the blended value `-2^-52` lies below both
probed values.  Every number here is a `double` and every operation on them is
exact in `double` arithmetic. -/
theorem probeKernelIntegral_convex_counterexample :
    halfStepLevels.StrictlyIncreasingRatios ∧
      halfStepLevels.getMeshLevel sampleEps (1 - 1 / 2 ^ 53) = .ok 0 ∧
      halfStepLevels.mesh_levels_[0]? = some (sampleLevel 1 0 false) ∧
      halfStepLevels.mesh_levels_[0 + 1]? = some (sampleLevel (3 / 2) 1 true) ∧
      blendAlpha (sampleLevel 1 0 false) (sampleLevel (3 / 2) 1 true) (1 - 1 / 2 ^ 53) =
        1 + 1 / 2 ^ 52 ∧
      ¬ (blendAlpha (sampleLevel 1 0 false) (sampleLevel (3 / 2) 1 true) (1 - 1 / 2 ^ 53) ≤ 1) ∧
      halfStepLevels.probeKernelIntegral sampleEps origin (1 - 1 / 2 ^ 53) =
        .ok (-(1 / 2 ^ 52)) ∧
      ¬ (min ((sampleLevel 1 0 false).probeKernelIntegral origin 1)
          ((sampleLevel (3 / 2) 1 true).probeKernelIntegral origin 1) ≤
        (-(1 / 2 ^ 52) : Real)) := by
  have hlevel : halfStepLevels.getMeshLevel sampleEps (1 - 1 / 2 ^ 53) = .ok 0 := by
    norm_num [MultilevelLevelSet.getMeshLevel, getMeshLevelLoop, halfStepLevels,
      sampleMultilevel, sampleLevel, sampleEps]
  refine ⟨?_, hlevel, rfl, rfl, ?_, ?_, ?_, ?_⟩
  · norm_num [MultilevelLevelSet.StrictlyIncreasingRatios, halfStepLevels, sampleMultilevel,
      sampleLevel]
  · norm_num [blendAlpha, sampleLevel]
  · norm_num [blendAlpha, sampleLevel]
  · unfold MultilevelLevelSet.probeKernelIntegral
    rw [hlevel]
    norm_num [halfStepLevels, sampleMultilevel, sampleLevel, blendAlpha,
      LevelSet.probeKernelIntegral]
  · norm_num [sampleLevel, LevelSet.probeKernelIntegral]

/-- C26 (amended). For a positive `Eps`, strictly increasing ratios, a ratio
`h_ratio` for which `getMeshLevel` returns `c`, a level `c + 1` above it, and
`h_ratio` not below level `c`'s own ratio, the weight
`alpha = (r_{c+1} - h_ratio) / (r_{c+1} - r_c)` lies in `[0, 1]`, and so does
`1 - alpha`, and `probeKernelIntegral(position, h_ratio)` returns the weighted
mean `alpha * coarse + (1 - alpha) * fine` of the values probed on the two
levels. -/
theorem probeKernelIntegral_convex (Eps : Real) (m : MultilevelLevelSet D) (position : Vecd D)
    (h_ratio : Real) (c : Nat) (coarse fine : LevelSet Real D) (hEps : 0 < Eps)
    (hinc : m.StrictlyIncreasingRatios) (hc : m.getMeshLevel Eps h_ratio = .ok c)
    (hcoarse : m.mesh_levels_[c]? = some coarse) (hfine : m.mesh_levels_[c + 1]? = some fine)
    (hge : coarse.global_h_ratio_ ≤ h_ratio) :
    0 ≤ blendAlpha coarse fine h_ratio ∧ blendAlpha coarse fine h_ratio ≤ 1 ∧
      0 ≤ 1 - blendAlpha coarse fine h_ratio ∧ 1 - blendAlpha coarse fine h_ratio ≤ 1 ∧
      m.probeKernelIntegral Eps position h_ratio =
        .ok (blendAlpha coarse fine h_ratio * coarse.probeKernelIntegral position 1 +
          (1 - blendAlpha coarse fine h_ratio) * fine.probeKernelIntegral position 1) := by
  obtain ⟨_, _, hhigher⟩ := getMeshLevelLoop_ok Eps m.mesh_levels_ h_ratio m.total_levels_ c hc
  have hlt : c + 1 < m.total_levels_ := by
    obtain ⟨h, _⟩ := List.getElem?_eq_some.mp hfine
    exact m.levels_size ▸ h
  have hnot := hhigher (c + 1) fine (Nat.lt_succ_self c) hlt hfine
  have hbelow : h_ratio ≤ fine.global_h_ratio_ - Eps := by
    have := not_lt.mp hnot
    linarith
  have hden : 0 < fine.global_h_ratio_ - coarse.global_h_ratio_ := by
    have := ratio_lt_of_index_lt m.mesh_levels_ hinc c (c + 1) coarse fine (Nat.lt_succ_self c)
      hcoarse hfine
    linarith
  have ha0 : 0 ≤ blendAlpha coarse fine h_ratio := by
    unfold blendAlpha
    exact div_nonneg (by linarith) hden.le
  have ha1 : blendAlpha coarse fine h_ratio ≤ 1 := by
    unfold blendAlpha
    rw [div_le_one hden]
    linarith
  refine ⟨ha0, ha1, by linarith, by linarith, ?_⟩
  unfold MultilevelLevelSet.probeKernelIntegral
  rw [hc]
  simp only [hcoarse, hfine]

/-- Witness for the amended C26 on the two levels with ratios 1 and 3/2 at the
ratio 5/4. -/
theorem probeKernelIntegral_convex_witness :
    (0 < sampleEps ∧ halfStepLevels.StrictlyIncreasingRatios ∧
        halfStepLevels.getMeshLevel sampleEps (5 / 4) = .ok 0 ∧
        halfStepLevels.mesh_levels_[0]? = some (sampleLevel 1 0 false) ∧
        halfStepLevels.mesh_levels_[0 + 1]? = some (sampleLevel (3 / 2) 1 true) ∧
        (sampleLevel 1 0 false).global_h_ratio_ ≤ 5 / 4) ∧
      (0 ≤ blendAlpha (sampleLevel 1 0 false) (sampleLevel (3 / 2) 1 true) (5 / 4) ∧
        blendAlpha (sampleLevel 1 0 false) (sampleLevel (3 / 2) 1 true) (5 / 4) ≤ 1 ∧
        0 ≤ 1 - blendAlpha (sampleLevel 1 0 false) (sampleLevel (3 / 2) 1 true) (5 / 4) ∧
        1 - blendAlpha (sampleLevel 1 0 false) (sampleLevel (3 / 2) 1 true) (5 / 4) ≤ 1 ∧
        halfStepLevels.probeKernelIntegral sampleEps origin (5 / 4) =
          .ok (blendAlpha (sampleLevel 1 0 false) (sampleLevel (3 / 2) 1 true) (5 / 4) *
              (sampleLevel 1 0 false).probeKernelIntegral origin 1 +
            (1 - blendAlpha (sampleLevel 1 0 false) (sampleLevel (3 / 2) 1 true) (5 / 4)) *
              (sampleLevel (3 / 2) 1 true).probeKernelIntegral origin 1)) :=
  have hEps : 0 < sampleEps := by norm_num [sampleEps]
  have hinc : halfStepLevels.StrictlyIncreasingRatios := by
    norm_num [MultilevelLevelSet.StrictlyIncreasingRatios, halfStepLevels, sampleMultilevel,
      sampleLevel]
  have hc : halfStepLevels.getMeshLevel sampleEps (5 / 4) = .ok 0 := by
    norm_num [MultilevelLevelSet.getMeshLevel, getMeshLevelLoop, halfStepLevels,
      sampleMultilevel, sampleLevel, sampleEps]
  have hge : (sampleLevel 1 0 false).global_h_ratio_ ≤ 5 / 4 := by
    norm_num [sampleLevel]
  ⟨⟨hEps, hinc, hc, rfl, rfl, hge⟩,
    probeKernelIntegral_convex sampleEps halfStepLevels origin (5 / 4) 0 (sampleLevel 1 0 false)
      (sampleLevel (3 / 2) 1 true) hEps hinc hc rfl rfl hge⟩

/-! Packages and the background grid after construction -/

/-- C29. The package `createDataPackage(cell_index, ...)` returns carries
`pkg_index_ = cell_index` and is the package the cell points to; and after the
construction of a level or of a refined level (valid shape, each cell visited
once) every package of `core_data_pkgs_` and of `inner_data_pkgs_` is the
package that the cell at its own `pkg_index_` points to. -/
theorem package_grid_consistency (g : LevelSetSetup D) (k : PackageOperations D)
    (coarse : LevelSet Real D) (hvalid : g.shape_.isValid = true) (hnodup : g.all_cells.Nodup) :
    (∀ (cell_index : Vecu D) (cell_position : Vecd D) (s : LevelSetState D),
        ∃ p, (LevelSetState.createDataPackage g cell_index cell_position s).1.data_pkg_pool_[
              (LevelSetState.createDataPackage g cell_index cell_position s).2]? = some p ∧
          p.pkg_index_ = cell_index ∧
          (LevelSetState.createDataPackage g cell_index cell_position s).1.data_pkg_addrs_
              cell_index =
            some (LevelSetState.createDataPackage g cell_index cell_position s).2) ∧
      (∃ s, LevelSetState.construct g k = .ok s ∧
        ∀ a, a ∈ s.core_data_pkgs_ ∨ a ∈ s.inner_data_pkgs_ →
          ∃ p, s.data_pkg_pool_[a]? = some p ∧ s.data_pkg_addrs_ p.pkg_index_ = some a) ∧
      ∃ r, LevelSetState.constructRefined g k coarse = .ok r ∧
        ∀ a, a ∈ r.core_data_pkgs_ ∨ a ∈ r.inner_data_pkgs_ →
          ∃ p, r.data_pkg_pool_[a]? = some p ∧ r.data_pkg_addrs_ p.pkg_index_ = some a := by
  have key : ∀ {far : Real} {cls tagged : List (Vecu D)} {s : LevelSetState D},
      s.Consistent far cls tagged → ∀ a, a ∈ s.core_data_pkgs_ ∨ a ∈ s.inner_data_pkgs_ →
        ∃ p, s.data_pkg_pool_[a]? = some p ∧ s.data_pkg_addrs_ p.pkg_index_ = some a := by
    intro far cls tagged s h a ha
    rcases ha with ha | ha
    · obtain ⟨h2, hlt⟩ := h.core_real a ha
      exact ⟨_, List.getElem?_eq_getElem hlt,
        h.grid_of_pkg a _ h2 (List.getElem?_eq_getElem hlt)⟩
    · obtain ⟨h2, p, hp, _⟩ := h.inner_real a ha
      exact ⟨p, hp, h.grid_of_pkg a p h2 hp⟩
  refine ⟨?_, ?_, ?_⟩
  · intro cell_index cell_position s
    refine ⟨_, List.getElem?_concat_length _ _, rfl, ?_⟩
    show Function.update s.data_pkg_addrs_ cell_index (some s.data_pkg_pool_.length) cell_index
      = some s.data_pkg_pool_.length
    rw [Function.update_same]
  · obtain ⟨s, hs, h⟩ := LevelSetState.construct_consistent g k hvalid hnodup
    exact ⟨s, hs, key h⟩
  · obtain ⟨r, hr, h⟩ := LevelSetState.constructRefined_consistent g k coarse hvalid hnodup
    exact ⟨r, hr, key h⟩

/-- Witness for C29 on the row of five cells of `sampleSetup`. -/
theorem package_grid_consistency_witness :
    (sampleSetup.shape_.isValid = true ∧ sampleSetup.all_cells.Nodup) ∧
      ((∀ (cell_index : Vecu 2) (cell_position : Vecd 2) (s : LevelSetState 2),
          ∃ p, (LevelSetState.createDataPackage sampleSetup cell_index cell_position
                s).1.data_pkg_pool_[
                (LevelSetState.createDataPackage sampleSetup cell_index cell_position s).2]?
              = some p ∧
            p.pkg_index_ = cell_index ∧
            (LevelSetState.createDataPackage sampleSetup cell_index cell_position
                s).1.data_pkg_addrs_ cell_index =
              some (LevelSetState.createDataPackage sampleSetup cell_index cell_position s).2) ∧
        (∃ s, LevelSetState.construct sampleSetup sampleOperations = .ok s ∧
          ∀ a, a ∈ s.core_data_pkgs_ ∨ a ∈ s.inner_data_pkgs_ →
            ∃ p, s.data_pkg_pool_[a]? = some p ∧ s.data_pkg_addrs_ p.pkg_index_ = some a) ∧
        ∃ r, LevelSetState.constructRefined sampleSetup sampleOperations (sampleLevel 1 0 true)
            = .ok r ∧
          ∀ a, a ∈ r.core_data_pkgs_ ∨ a ∈ r.inner_data_pkgs_ →
            ∃ p, r.data_pkg_pool_[a]? = some p ∧ r.data_pkg_addrs_ p.pkg_index_ = some a) :=
  ⟨⟨rfl, sampleSetup_cells_nodup⟩,
    package_grid_consistency sampleSetup sampleOperations (sampleLevel 1 0 true) rfl
      sampleSetup_cells_nodup⟩

/-! The pool lock in `createDataPackage` -/

/-- C22. Run from a state in which the thread does not hold the pool lock, the
statements of `createDataPackage` reach the state and return the pointer of the
embedding `LevelSetState.createDataPackage`; the lock is not held at the end;
and the lock is held exactly when `malloc` and `unlock` start, that is from
immediately before the allocation to immediately after it, while registration,
geometry, basic data, `pkg_index_` and the address assignment all start with
the lock released. -/
theorem createDataPackage_lock_covers_allocation_only (g : LevelSetSetup D)
    (cell_index : Vecu D) (cell_position : Vecd D) (s : LevelSetState D) :
    (runCreation g cell_index cell_position createDataPackageStatements
        { state := s, lock_held := false, new_data_pkg := none, held_at := [] }).state =
        (LevelSetState.createDataPackage g cell_index cell_position s).1 ∧
      (runCreation g cell_index cell_position createDataPackageStatements
        { state := s, lock_held := false, new_data_pkg := none, held_at := [] }).new_data_pkg =
        some (LevelSetState.createDataPackage g cell_index cell_position s).2 ∧
      (runCreation g cell_index cell_position createDataPackageStatements
        { state := s, lock_held := false, new_data_pkg := none, held_at := [] }).lock_held =
        false ∧
      (runCreation g cell_index cell_position createDataPackageStatements
        { state := s, lock_held := false, new_data_pkg := none, held_at := [] }).held_at =
        [(.lock, false), (.malloc, true), (.unlock, true), (.registerAllVariables, false),
          (.initializePackageGeometry, false), (.initializeBasicData, false),
          (.assignPkgIndex, false), (.assignDataPackageAddress, false)] := by
  refine ⟨?_, rfl, rfl, rfl⟩
  simp only [runCreation, createDataPackageStatements, List.foldl_cons, List.foldl_nil,
    CreationStatement.effect, LevelSetState.createDataPackage,
    LevelSetState.assignDataPackageAddress, modify_append_singleton]

/-! Idempotence of the update passes -/

/-- Two states with the same members are the same state. -/
theorem LevelSetState.eq_of_fields {s t : LevelSetState D}
    (h1 : s.data_pkg_pool_ = t.data_pkg_pool_) (h2 : s.data_pkg_addrs_ = t.data_pkg_addrs_)
    (h3 : s.singular_data_pkgs_addrs_ = t.singular_data_pkgs_addrs_)
    (h4 : s.core_data_pkgs_ = t.core_data_pkgs_) (h5 : s.inner_data_pkgs_ = t.inner_data_pkgs_) :
    s = t := by
  cases s
  cases t
  simp only [LevelSetState.mk.injEq]
  exact ⟨h1, h2, h3, h4, h5⟩

/-- Mapping a function over a list after modifying one entry in a way the
function does not see gives the map of the list. -/
theorem map_modify_of_invariant {α β : Type} (erase : α → β) (w : α → α) (a : Nat)
    (l : List α) (h : ∀ p, erase (w p) = erase p) : (l.modify w a).map erase = l.map erase := by
  apply List.ext_getElem?
  intro i
  rw [List.getElem?_map, List.getElem?_map, List.getElem?_modify]
  cases l[i]? with
  | none => rfl
  | some p =>
    by_cases hc : a = i
    · simp [hc, h]
    · simp [hc]

/-- A pass that rewrites each package of a list from what `erase` keeps of the
level: started from a state that agrees with `s0` up to `erase`, the pass keeps
that agreement, leaves the members other than the pool as they are, and has
written `write s0 i` to every package `i` of the list. -/
theorem writer_pass_spec (erase : LevelSetDataPackage D → LevelSetDataPackage D)
    (write : LevelSetState D → Nat → LevelSetDataPackage D → LevelSetDataPackage D)
    (h1 : ∀ s a p, erase (write s a p) = erase p)
    (h2 : ∀ s a p q, erase p = erase q → write s a p = write s a q)
    (h3 : ∀ s s2 a, s.mapPackages erase = s2.mapPackages erase → write s a = write s2 a)
    (s0 : LevelSetState D) :
    ∀ (pkgs : List Nat) (s : LevelSetState D), s.mapPackages erase = s0.mapPackages erase →
      (PackageIterator_parallel pkgs
          (fun a s1 => { s1 with data_pkg_pool_ := s1.data_pkg_pool_.modify (write s1 a) a })
          s).mapPackages erase = s0.mapPackages erase ∧
        (PackageIterator_parallel pkgs
          (fun a s1 => { s1 with data_pkg_pool_ := s1.data_pkg_pool_.modify (write s1 a) a })
          s).data_pkg_addrs_ = s.data_pkg_addrs_ ∧
        (PackageIterator_parallel pkgs
          (fun a s1 => { s1 with data_pkg_pool_ := s1.data_pkg_pool_.modify (write s1 a) a })
          s).singular_data_pkgs_addrs_ = s.singular_data_pkgs_addrs_ ∧
        (PackageIterator_parallel pkgs
          (fun a s1 => { s1 with data_pkg_pool_ := s1.data_pkg_pool_.modify (write s1 a) a })
          s).core_data_pkgs_ = s.core_data_pkgs_ ∧
        (PackageIterator_parallel pkgs
          (fun a s1 => { s1 with data_pkg_pool_ := s1.data_pkg_pool_.modify (write s1 a) a })
          s).inner_data_pkgs_ = s.inner_data_pkgs_ ∧
        ∀ i, (PackageIterator_parallel pkgs
            (fun a s1 => { s1 with data_pkg_pool_ := s1.data_pkg_pool_.modify (write s1 a) a })
            s).data_pkg_pool_[i]? =
          (s.data_pkg_pool_[i]?).map (fun p => if i ∈ pkgs then write s0 i p else p) := by
  intro pkgs
  induction pkgs with
  | nil =>
    intro s hs
    refine ⟨hs, rfl, rfl, rfl, rfl, ?_⟩
    intro i
    simp [PackageIterator_parallel]
  | cons a pkgs ih =>
    intro s hs
    have hstep : ({ s with data_pkg_pool_ := s.data_pkg_pool_.modify (write s a) a } :
        LevelSetState D).mapPackages erase = s0.mapPackages erase := by
      rw [← hs]
      unfold LevelSetState.mapPackages
      simp only [map_modify_of_invariant erase (write s a) a s.data_pkg_pool_ (h1 s a)]
    obtain ⟨k1, k2, k3, k4, k5, k6⟩ := ih _ hstep
    unfold PackageIterator_parallel at k1 k2 k3 k4 k5 k6 ⊢
    rw [List.foldl_cons]
    refine ⟨k1, k2, k3, k4, k5, ?_⟩
    intro i
    rw [k6 i, List.getElem?_modify, h3 s s0 a hs]
    cases s.data_pkg_pool_[i]? with
    | none => rfl
    | some p =>
      simp only [Option.map_eq_map, Option.map_some', Option.some.injEq, List.mem_cons]
      by_cases hi : i ∈ pkgs
      · simp only [hi, or_true, if_true]
        by_cases hc : a = i
        · subst hc
          simp only [if_true]
          exact h2 s0 a _ _ (h1 s0 a p)
        · simp only [hc, if_false]
      · by_cases hc : a = i
        · subst hc
          simp [hi]
        · have hc2 : ¬ i = a := fun h => hc h.symm
          simp [hi, hc, hc2]

/-- A pass over the inner collection that rewrites each package from what
`erase` keeps of the level gives the same state when it is run a second time. -/
theorem writer_pass_idempotent (erase : LevelSetDataPackage D → LevelSetDataPackage D)
    (write : LevelSetState D → Nat → LevelSetDataPackage D → LevelSetDataPackage D)
    (h1 : ∀ s a p, erase (write s a p) = erase p)
    (h2 : ∀ s a p q, erase p = erase q → write s a p = write s a q)
    (h3 : ∀ s s2 a, s.mapPackages erase = s2.mapPackages erase → write s a = write s2 a)
    (s : LevelSetState D) :
    PackageIterator_parallel
        (PackageIterator_parallel s.inner_data_pkgs_
          (fun a s1 => { s1 with data_pkg_pool_ := s1.data_pkg_pool_.modify (write s1 a) a })
          s).inner_data_pkgs_
        (fun a s1 => { s1 with data_pkg_pool_ := s1.data_pkg_pool_.modify (write s1 a) a })
        (PackageIterator_parallel s.inner_data_pkgs_
          (fun a s1 => { s1 with data_pkg_pool_ := s1.data_pkg_pool_.modify (write s1 a) a })
          s) =
      PackageIterator_parallel s.inner_data_pkgs_
        (fun a s1 => { s1 with data_pkg_pool_ := s1.data_pkg_pool_.modify (write s1 a) a }) s := by
  obtain ⟨k1, k2, k3, k4, k5, k6⟩ :=
    writer_pass_spec erase write h1 h2 h3 s s.inner_data_pkgs_ s rfl
  rw [k5]
  obtain ⟨m1, m2, m3, m4, m5, m6⟩ :=
    writer_pass_spec erase write h1 h2 h3 s s.inner_data_pkgs_ _ k1
  refine LevelSetState.eq_of_fields ?_ m2 m3 m4 m5
  apply List.ext_getElem?
  intro i
  rw [m6 i, k6 i]
  cases s.data_pkg_pool_[i]? with
  | none => rfl
  | some p =>
    simp only [Option.map_some', Option.some.injEq]
    by_cases hi : i ∈ s.inner_data_pkgs_
    · simp only [hi, if_true]
      exact h2 s i _ _ (h1 s i p)
    · simp only [hi, if_false]

/-- C21. When `computeGradient` reads nothing of `phi_gradient_` and
`computeKernelIntegrals` reads nothing of `kernel_weight_` and
`kernel_gradient_`, running `updateLevelSetGradient` twice in a row gives the
same state as running it once, and so does `updateKernelIntegrals`. -/
theorem update_passes_idempotent (k : PackageOperations D) (s : LevelSetState D)
    (hgradient : k.GradientFromPhi) (hkernel : k.KernelIntegralsFromLevelSet) :
    (s.updateLevelSetGradient k).updateLevelSetGradient k = s.updateLevelSetGradient k ∧
      (s.updateKernelIntegrals k).updateKernelIntegrals k = s.updateKernelIntegrals k := by
  constructor
  · refine writer_pass_idempotent LevelSetDataPackage.withoutGradient
      (fun s1 a p => { p with phi_gradient_ := k.computeGradient s1 a }) ?_ ?_ ?_ s
    · intro s1 a p
      rfl
    · intro s1 a p q h
      cases p
      cases q
      simp only [LevelSetDataPackage.withoutGradient, LevelSetDataPackage.mk.injEq] at h ⊢
      simp only [true_and, and_true] at h ⊢
      exact h
    · intro s1 s2 a h
      funext p
      simp only [hgradient s1 s2 a h]
  · refine writer_pass_idempotent LevelSetDataPackage.withoutKernelIntegrals
      (fun s1 a p =>
        { p with
          kernel_weight_ := (k.computeKernelIntegrals s1 a).1
          kernel_gradient_ := (k.computeKernelIntegrals s1 a).2 }) ?_ ?_ ?_ s
    · intro s1 a p
      rfl
    · intro s1 a p q h
      cases p
      cases q
      simp only [LevelSetDataPackage.withoutKernelIntegrals, LevelSetDataPackage.mk.injEq] at h ⊢
      simp only [true_and, and_true] at h ⊢
      exact h
    · intro s1 s2 a h
      funext p
      simp only [hkernel s1 s2 a h]

/-- Witness for C21 on a state with one inner package and computations that
write constant arrays. -/
theorem update_passes_idempotent_witness :
    (sampleOperations.GradientFromPhi ∧ sampleOperations.KernelIntegralsFromLevelSet) ∧
      ((sampleState.updateLevelSetGradient sampleOperations).updateLevelSetGradient
          sampleOperations = sampleState.updateLevelSetGradient sampleOperations ∧
        (sampleState.updateKernelIntegrals sampleOperations).updateKernelIntegrals
          sampleOperations = sampleState.updateKernelIntegrals sampleOperations) :=
  have hgradient : sampleOperations.GradientFromPhi := fun _ _ _ _ => rfl
  have hkernel : sampleOperations.KernelIntegralsFromLevelSet := fun _ _ _ _ => rfl
  ⟨⟨hgradient, hkernel⟩,
    update_passes_idempotent sampleOperations sampleState hgradient hkernel⟩

/-! Per-cell outcome of the classification and tagging passes -/

/-- Pointing the cell to a package is a change that concerns the cell only. -/
theorem LevelSetState.StepAt.of_assign (c : Vecu D) (a0 : Nat) (s : LevelSetState D) :
    LevelSetState.StepAt c s (LevelSetState.assignDataPackageAddress c a0 s) :=
  { addrs_frame := fun y hy => Function.update_noteq hy _ _
    pool_len := le_refl _
    pool_old := fun a p hp => ⟨p, hp, rfl, rfl, id⟩
    pool_new := by
      intro a q ha hq
      have hq : s.data_pkg_pool_[a]? = some q := hq
      obtain ⟨hlt, _⟩ := List.getElem?_eq_some.mp hq
      omega
    core_sub := fun a h => h
    inner_sub := fun a h => h
    inner_new := fun a h => Or.inl h }

/-- Appending a package that carries the index of the cell is a change that
concerns the cell only. -/
theorem LevelSetState.StepAt.of_add {s s2 : LevelSetState D} (c : Vecu D)
    (x : LevelSetDataPackage D) (hx : x.pkg_index_ = c)
    (hpool : s2.data_pkg_pool_ = s.data_pkg_pool_ ++ [x])
    (haddr : ∀ y, y ≠ c → s2.data_pkg_addrs_ y = s.data_pkg_addrs_ y)
    (hcore : ∀ a, a ∈ s.core_data_pkgs_ → a ∈ s2.core_data_pkgs_)
    (hinner : s2.inner_data_pkgs_ = s.inner_data_pkgs_ ∨
      s2.inner_data_pkgs_ = s.inner_data_pkgs_ ++ [s.data_pkg_pool_.length]) :
    LevelSetState.StepAt c s s2 :=
  { addrs_frame := haddr
    pool_len := by rw [hpool, List.length_append]; omega
    pool_old := by
      intro a p hp
      exact ⟨p, by rw [hpool]; exact getElem?_append_singleton_eq_some.mpr (Or.inl hp),
        rfl, rfl, id⟩
    pool_new := by
      intro a q ha hq
      rw [hpool] at hq
      rcases getElem?_append_singleton_eq_some.mp hq with h | ⟨_, h⟩
      · obtain ⟨hlt, _⟩ := List.getElem?_eq_some.mp h
        omega
      · rw [← h]
        exact hx
    core_sub := hcore
    inner_sub := by
      intro a ha
      rcases hinner with h | h
      · rw [h]; exact ha
      · rw [h]; exact List.mem_append_left _ ha
    inner_new := by
      intro a ha
      rcases hinner with h | h
      · rw [h] at ha; exact Or.inl ha
      · rw [h] at ha
        rcases List.mem_append.mp ha with h1 | h1
        · exact Or.inl h1
        · right
          have ha2 : a = s.data_pkg_pool_.length := by simpa using h1
          refine ⟨x, ?_, hx⟩
          rw [hpool, ha2]
          exact getElem?_append_singleton_eq_some.mpr (Or.inr ⟨rfl, rfl⟩) }

/-- Flagging the package of the cell inner and pushing it to the inner
collection is a change that concerns the cell only. -/
theorem LevelSetState.StepAt.of_setInner {s : LevelSetState D} (c : Vecu D) (a0 : Nat)
    (p : LevelSetDataPackage D) (hp : s.data_pkg_pool_[a0]? = some p) (hidx : p.pkg_index_ = c) :
    LevelSetState.StepAt c s
      { LevelSetState.setInner a0 s with
        inner_data_pkgs_ := (LevelSetState.setInner a0 s).inner_data_pkgs_ ++ [a0] } :=
  { addrs_frame := fun y _ => rfl
    pool_len := by
      show _ ≤ (s.data_pkg_pool_.modify _ a0).length
      rw [List.length_modify]
    pool_old := by
      intro a q hq
      refine ⟨if a0 = a then { q with is_inner_pkg_ := true } else q,
        getElem?_modify_eq_some.mpr ⟨q, hq, rfl⟩, ?_, ?_, ?_⟩
      · split <;> rfl
      · split <;> rfl
      · intro h
        split
        · rfl
        · exact h
    pool_new := by
      intro a q ha hq
      obtain ⟨q0, hq0, _⟩ := getElem?_modify_eq_some.mp hq
      obtain ⟨hlt, _⟩ := List.getElem?_eq_some.mp hq0
      omega
    core_sub := fun a h => h
    inner_sub := fun a h => List.mem_append_left _ h
    inner_new := by
      intro a ha
      rcases List.mem_append.mp ha with h1 | h1
      · exact Or.inl h1
      · right
        have ha2 : a = a0 := by simpa using h1
        subst ha2
        exact ⟨{ p with is_inner_pkg_ := true },
          getElem?_modify_eq_some.mpr ⟨p, hp, by rw [if_pos rfl]⟩, hidx⟩ }

/-- The outcome of classifying a cell is kept by a change that concerns another
cell only. -/
theorem LevelSetState.ClassifiedBy.classified_of_stepAt {core_test : Bool} {singular : Nat}
    {x c : Vecu D} {s s2 : LevelSetState D} (h : s.ClassifiedBy core_test singular x)
    (hstep : LevelSetState.StepAt c s s2) (hne : x ≠ c) :
    s2.ClassifiedBy core_test singular x := by
  unfold LevelSetState.ClassifiedBy at h ⊢
  by_cases ht : core_test = true
  · rw [if_pos ht] at h ⊢
    obtain ⟨a, p, ha, h2, hp, hcore, hidx, hmem⟩ := h
    obtain ⟨q, hq, hqc, hqi, _⟩ := hstep.pool_old a p hp
    exact ⟨a, q, by rw [hstep.addrs_frame x hne]; exact ha, h2, hq, by rw [hqc]; exact hcore,
      by rw [hqi]; exact hidx, hstep.core_sub a hmem⟩
  · rw [if_neg ht] at h ⊢
    obtain ⟨ha, hfree⟩ := h
    refine ⟨by rw [hstep.addrs_frame x hne]; exact ha, ?_⟩
    intro a q h2 hq
    by_cases hlt : a < s.data_pkg_pool_.length
    · obtain ⟨p, hp⟩ : ∃ p, s.data_pkg_pool_[a]? = some p :=
        ⟨_, List.getElem?_eq_getElem hlt⟩
      obtain ⟨q2, hq2, _, hqi, _⟩ := hstep.pool_old a p hp
      rw [hq] at hq2
      injection hq2 with hq2
      rw [hq2, hqi]
      exact hfree a p h2 hp
    · rw [hstep.pool_new a q (by omega) hq]
      exact fun e => hne e.symm

/-- What one application of `initializeDataInACell` to a cell not yet classified
does: it concerns that cell only, and the cell gets a core package when its
measure is below the grid spacing and a singular package chosen by
`checkContain` otherwise. -/
theorem LevelSetState.initializeDataInACell_outcome (g : LevelSetSetup D) (far : Real)
    (tagged cls : List (Vecu D)) (c : Vecu D) (s s1 : LevelSetState D)
    (h : s.Consistent far cls tagged) (hc : c ∉ cls)
    (hs1 : LevelSetState.initializeDataInACell g c s = .ok s1) :
    LevelSetState.StepAt c s s1 ∧
      s1.ClassifiedBy
        (decide (LevelSetState.measure g (g.CellPositionFromIndex c) < g.grid_spacing_))
        (if g.shape_.checkContain (g.CellPositionFromIndex c) = true then 0 else 1) c := by
  have hnone : ∀ a, s.data_pkg_addrs_ c = some a → a < 2 := by
    intro a ha
    exact absurd ((h.assigned c).mp ⟨a, ha⟩) hc
  have hfree := h.free_of_singular c hnone
  unfold LevelSetState.initializeDataInACell at hs1
  simp only [] at hs1
  unfold LevelSetState.ClassifiedBy
  by_cases hm : LevelSetState.measure g (g.CellPositionFromIndex c) < g.grid_spacing_
  · rw [if_pos hm] at hs1
    injection hs1 with hs1
    subst hs1
    rw [if_pos (decide_eq_true hm)]
    have hpool : (LevelSetState.setCore s.data_pkg_pool_.length
        (LevelSetState.createDataPackage g c (g.CellPositionFromIndex c) s).1).data_pkg_pool_ =
        s.data_pkg_pool_ ++ [{ g.initializeBasicData (g.CellPositionFromIndex c) with
          is_core_pkg_ := true
          is_inner_pkg_ := (LevelSetDataPackage.construct g.raw_pkg).is_inner_pkg_
          pkg_index_ := c }] := modify_append_singleton _ _ _
    refine ⟨LevelSetState.StepAt.of_add c _ rfl hpool
      (fun y hy => Function.update_noteq hy _ _) (fun a ha => List.mem_append_left _ ha)
      (Or.inl rfl), ?_⟩
    refine ⟨s.data_pkg_pool_.length,
      { g.initializeBasicData (g.CellPositionFromIndex c) with
        is_core_pkg_ := true
        is_inner_pkg_ := (LevelSetDataPackage.construct g.raw_pkg).is_inner_pkg_
        pkg_index_ := c }, ?_, h.two_le, ?_, rfl, rfl, ?_⟩
    · exact Function.update_same _ _ _
    · show (LevelSetState.setCore s.data_pkg_pool_.length
        (LevelSetState.createDataPackage g c (g.CellPositionFromIndex c) s).1).data_pkg_pool_[
          s.data_pkg_pool_.length]? = _
      rw [hpool]
      exact getElem?_append_singleton_eq_some.mpr (Or.inr ⟨rfl, rfl⟩)
    · exact List.mem_append_right _ (List.mem_singleton_self _)
  · rw [if_neg hm, h.singular] at hs1
    rw [if_neg (by simpa using hm)]
    cases hcontain : g.shape_.checkContain (g.CellPositionFromIndex c) with
    | true =>
      rw [hcontain] at hs1
      simp only [if_true] at hs1
      injection hs1 with hs1
      subst hs1
      exact ⟨LevelSetState.StepAt.of_assign c 0 s, Function.update_same _ _ _, hfree⟩
    | false =>
      rw [hcontain] at hs1
      simp only [Bool.false_eq_true, if_false] at hs1
      injection hs1 with hs1
      subst hs1
      exact ⟨LevelSetState.StepAt.of_assign c 1 s, Function.update_same _ _ _, hfree⟩

/-- What one application of `initializeDataInACellFromCoarse` to a cell not yet
classified does: it concerns that cell only, and the cell gets a core package
when the coarse level has it within a core package and its measure is below the
grid spacing, and otherwise keeps the singular package chosen by the sign of
the coarse distance. -/
theorem LevelSetState.initializeDataInACellFromCoarse_outcome (g : LevelSetSetup D)
    (coarse : LevelSet Real D) (far : Real) (tagged cls : List (Vecu D)) (c : Vecu D)
    (s s1 : LevelSetState D) (h : s.Consistent far cls tagged) (hc : c ∉ cls)
    (hs1 : LevelSetState.initializeDataInACellFromCoarse g coarse c s = .ok s1) :
    LevelSetState.StepAt c s s1 ∧
      s1.ClassifiedBy
        (coarse.isWithinCorePackage (g.CellPositionFromIndex c) &&
          decide (LevelSetState.measure g (g.CellPositionFromIndex c) < g.grid_spacing_))
        (if coarse.probeSignedDistance (g.CellPositionFromIndex c) < 0 then 0 else 1) c := by
  have hnone : ∀ a, s.data_pkg_addrs_ c = some a → a < 2 := by
    intro a ha
    exact absurd ((h.assigned c).mp ⟨a, ha⟩) hc
  have hfree := h.free_of_singular c hnone
  have key : ∀ a0 : Nat,
      (let s0 := LevelSetState.assignDataPackageAddress c a0 s
        if coarse.isWithinCorePackage (g.CellPositionFromIndex c) then
          if LevelSetState.measure g (g.CellPositionFromIndex c) < g.grid_spacing_ then
            let created := LevelSetState.createDataPackage g c (g.CellPositionFromIndex c) s0
            let s1 := LevelSetState.setCore created.2 created.1
            (.ok { s1 with core_data_pkgs_ := s1.core_data_pkgs_ ++ [created.2] } :
              Except Fault (LevelSetState D))
          else .ok s0
        else .ok s0) = .ok s1 →
      LevelSetState.StepAt c s s1 ∧
        s1.ClassifiedBy
          (coarse.isWithinCorePackage (g.CellPositionFromIndex c) &&
            decide (LevelSetState.measure g (g.CellPositionFromIndex c) < g.grid_spacing_))
          a0 c := by
    intro a0 hs1
    simp only [] at hs1
    unfold LevelSetState.ClassifiedBy
    by_cases hw : coarse.isWithinCorePackage (g.CellPositionFromIndex c) = true
    · rw [if_pos hw] at hs1
      by_cases hm : LevelSetState.measure g (g.CellPositionFromIndex c) < g.grid_spacing_
      · rw [if_pos hm] at hs1
        injection hs1 with hs1
        subst hs1
        rw [if_pos (by rw [hw, decide_eq_true hm]; rfl)]
        have hpool : (LevelSetState.setCore s.data_pkg_pool_.length
            (LevelSetState.createDataPackage g c (g.CellPositionFromIndex c)
              (LevelSetState.assignDataPackageAddress c a0 s)).1).data_pkg_pool_ =
            s.data_pkg_pool_ ++ [{ g.initializeBasicData (g.CellPositionFromIndex c) with
              is_core_pkg_ := true
              is_inner_pkg_ := (LevelSetDataPackage.construct g.raw_pkg).is_inner_pkg_
              pkg_index_ := c }] := modify_append_singleton _ _ _
        refine ⟨LevelSetState.StepAt.of_add c _ rfl hpool
          (fun y hy => (Function.update_noteq hy _ _).trans (Function.update_noteq hy _ _))
          (fun a ha => List.mem_append_left _ ha) (Or.inl rfl), ?_⟩
        refine ⟨s.data_pkg_pool_.length,
          { g.initializeBasicData (g.CellPositionFromIndex c) with
            is_core_pkg_ := true
            is_inner_pkg_ := (LevelSetDataPackage.construct g.raw_pkg).is_inner_pkg_
            pkg_index_ := c }, ?_, h.two_le, ?_, rfl, rfl, ?_⟩
        · exact Function.update_same _ _ _
        · show (LevelSetState.setCore s.data_pkg_pool_.length
            (LevelSetState.createDataPackage g c (g.CellPositionFromIndex c)
              (LevelSetState.assignDataPackageAddress c a0 s)).1).data_pkg_pool_[
                s.data_pkg_pool_.length]? = _
          rw [hpool]
          exact getElem?_append_singleton_eq_some.mpr (Or.inr ⟨rfl, rfl⟩)
        · exact List.mem_append_right _ (List.mem_singleton_self _)
      · rw [if_neg hm] at hs1
        injection hs1 with hs1
        subst hs1
        rw [if_neg (by simp [hm])]
        exact ⟨LevelSetState.StepAt.of_assign c a0 s, Function.update_same _ _ _, hfree⟩
    · rw [if_neg hw] at hs1
      injection hs1 with hs1
      subst hs1
      rw [if_neg (by simp [hw])]
      exact ⟨LevelSetState.StepAt.of_assign c a0 s, Function.update_same _ _ _, hfree⟩
  unfold LevelSetState.initializeDataInACellFromCoarse at hs1
  simp only [] at hs1
  rw [h.singular] at hs1
  by_cases hneg : coarse.probeSignedDistance (g.CellPositionFromIndex c) < 0
  · rw [if_pos hneg] at hs1 ⊢
    exact key 0 hs1
  · rw [if_neg hneg] at hs1 ⊢
    exact key 1 hs1

/-- A pass whose functor, applied to a cell not yet classified, returns, keeps
the state consistent, concerns that cell only and classifies it, returns and
leaves every cell classified. -/
theorem LevelSetState.classifying_pass
    (functor : Vecu D → LevelSetState D → Except Fault (LevelSetState D)) (far : Real)
    (test : Vecu D → Bool) (sing : Vecu D → Nat)
    (hstep : ∀ (cls : List (Vecu D)) (c : Vecu D) (s : LevelSetState D),
      s.Consistent far cls [] → c ∉ cls →
      ∃ s1, functor c s = .ok s1 ∧ s1.Consistent far (c :: cls) [] ∧
        LevelSetState.StepAt c s s1 ∧ s1.ClassifiedBy (test c) (sing c) c)
    (cells : List (Vecu D)) (s0 : LevelSetState D) (h0 : s0.Consistent far [] [])
    (hnodup : cells.Nodup) :
    ∃ s1, MeshIterator_parallel functor cells s0 = .ok s1 ∧
      s1.Consistent far (cells.reverse ++ []) [] ∧
      ∀ c, c ∈ cells → s1.ClassifiedBy (test c) (sing c) c := by
  obtain ⟨s1, hs1, hcons, hall⟩ := MeshIterator_parallel_invariant functor
    (fun visited s => s.Consistent far visited [] ∧
      ∀ x, x ∈ visited → s.ClassifiedBy (test x) (sing x) x) (fun _ => True)
    (by
      intro visited c s hinv _ hc
      obtain ⟨s1, hs1, hcons, hat, hcl⟩ := hstep visited c s hinv.1 hc
      refine ⟨s1, hs1, hcons, ?_⟩
      intro x hx
      rcases List.mem_cons.mp hx with hxc | hxv
      · rw [hxc]
        exact hcl
      · exact (hinv.2 x hxv).classified_of_stepAt hat (fun e => hc (e ▸ hxv)))
    cells [] s0 hnodup (fun _ _ => trivial) (fun c _ => List.not_mem_nil c)
    ⟨h0, fun x hx => absurd hx (List.not_mem_nil x)⟩
  exact ⟨s1, hs1, hcons, fun c hc => hall c (by simpa using hc)⟩

/-- The classification pass of a `LevelSet` returns, leaves a consistent state
and classifies every cell by its measure and `checkContain`. -/
theorem LevelSetState.classification_pass_outcome (g : LevelSetSetup D) (far : Real)
    (s0 : LevelSetState D) (h0 : s0.Consistent far [] []) (hnodup : g.all_cells.Nodup) :
    ∃ s1, MeshIterator_parallel (LevelSetState.initializeDataInACell g) g.all_cells s0 = .ok s1 ∧
      s1.Consistent far (g.all_cells.reverse ++ []) [] ∧
      ∀ c, c ∈ g.all_cells → s1.ClassifiedBy
        (decide (LevelSetState.measure g (g.CellPositionFromIndex c) < g.grid_spacing_))
        (if g.shape_.checkContain (g.CellPositionFromIndex c) = true then 0 else 1) c := by
  refine LevelSetState.classifying_pass (LevelSetState.initializeDataInACell g) far _ _ ?_
    g.all_cells s0 h0 hnodup
  intro cls c s h hc
  obtain ⟨s1, hs1, hcons⟩ := LevelSetState.initializeDataInACell_step g far [] cls c s h hc
  obtain ⟨hat, hcl⟩ := LevelSetState.initializeDataInACell_outcome g far [] cls c s s1 h hc hs1
  exact ⟨s1, hs1, hcons, hat, hcl⟩

/-- The classification pass of a `RefinedLevelSet` returns, leaves a consistent
state and classifies every cell by the coarse level, its measure and the sign
of the coarse distance. -/
theorem LevelSetState.classification_pass_from_coarse_outcome (g : LevelSetSetup D)
    (coarse : LevelSet Real D) (far : Real) (s0 : LevelSetState D) (h0 : s0.Consistent far [] [])
    (hnodup : g.all_cells.Nodup) :
    ∃ s1, MeshIterator_parallel (LevelSetState.initializeDataInACellFromCoarse g coarse)
        g.all_cells s0 = .ok s1 ∧
      s1.Consistent far (g.all_cells.reverse ++ []) [] ∧
      ∀ c, c ∈ g.all_cells → s1.ClassifiedBy
        (coarse.isWithinCorePackage (g.CellPositionFromIndex c) &&
          decide (LevelSetState.measure g (g.CellPositionFromIndex c) < g.grid_spacing_))
        (if coarse.probeSignedDistance (g.CellPositionFromIndex c) < 0 then 0 else 1) c := by
  refine LevelSetState.classifying_pass (LevelSetState.initializeDataInACellFromCoarse g coarse)
    far _ _ ?_ g.all_cells s0 h0 hnodup
  intro cls c s h hc
  obtain ⟨s1, hs1, hcons⟩ :=
    LevelSetState.initializeDataInACellFromCoarse_step g coarse far [] cls c s h hc
  obtain ⟨hat, hcl⟩ :=
    LevelSetState.initializeDataInACellFromCoarse_outcome g coarse far [] cls c s s1 h hc hs1
  exact ⟨s1, hs1, hcons, hat, hcl⟩

/-- C23. Run over pairwise different cells from the state the five-argument
constructor leaves (valid shape), the pass of `initializeDataInACell` returns,
and afterwards a cell points to a real package that was created in the pass, is
flagged `is_core_pkg_`, carries the index of the cell and is in
`core_data_pkgs_` if and only if the measure at the cell centre is below
`grid_spacing_`; every other cell points to singular package 0 when
`checkContain` holds at the cell centre and to singular package 1 when it does
not, and no real package carries its index. -/
theorem initializeDataInACell_classifies_cells (g : LevelSetSetup D)
    (hvalid : g.shape_.isValid = true) (hnodup : g.all_cells.Nodup) :
    ∃ s0 s1, LevelSetState.construct5 { g with buffer_width_ := 4 } = .ok s0 ∧
      MeshIterator_parallel (LevelSetState.initializeDataInACell g) g.all_cells s0 = .ok s1 ∧
      ∀ c, c ∈ g.all_cells →
        ((∃ a p, s1.data_pkg_addrs_ c = some a ∧ a ∉ s1.singular_data_pkgs_addrs_ ∧
            s0.data_pkg_pool_.length ≤ a ∧ s1.data_pkg_pool_[a]? = some p ∧
            p.is_core_pkg_ = true ∧ p.pkg_index_ = c ∧ a ∈ s1.core_data_pkgs_) ↔
          (LevelSetState.measure g (g.CellPositionFromIndex c) < g.grid_spacing_)) ∧
        (¬ (LevelSetState.measure g (g.CellPositionFromIndex c) < g.grid_spacing_) →
          s1.data_pkg_addrs_ c =
            (if g.shape_.checkContain (g.CellPositionFromIndex c) = true
              then s1.singular_data_pkgs_addrs_[0]? else s1.singular_data_pkgs_addrs_[1]?) ∧
          (∃ a, s1.data_pkg_addrs_ c = some a ∧ a ∈ s1.singular_data_pkgs_addrs_) ∧
          ∀ (a : Nat) (p : LevelSetDataPackage D), a ∉ s1.singular_data_pkgs_addrs_ →
            s1.data_pkg_pool_[a]? = some p → p.pkg_index_ ≠ c) := by
  obtain ⟨s0, hs0, h0, hlen, _⟩ :=
    LevelSetState.construct5_consistent { g with buffer_width_ := 4 } hvalid
  obtain ⟨s1, hs1, hcons, hall⟩ := LevelSetState.classification_pass_outcome g _ s0 h0 hnodup
  refine ⟨s0, s1, hs0, hs1, ?_⟩
  intro c hc
  have hcl := hall c hc
  unfold LevelSetState.ClassifiedBy at hcl
  rw [hcons.singular]
  have hreal : ∀ a : Nat, a ∉ [0, 1] ↔ 2 ≤ a := by
    intro a
    simp only [List.mem_cons, List.mem_singleton, List.not_mem_nil, or_false]
    omega
  by_cases hm : LevelSetState.measure g (g.CellPositionFromIndex c) < g.grid_spacing_
  · rw [if_pos (decide_eq_true hm)] at hcl
    obtain ⟨a, p, ha, h2, hp, hcore, hidx, hmem⟩ := hcl
    refine ⟨⟨fun _ => hm, fun _ => ⟨a, p, ha, (hreal a).mpr h2, by omega, hp, hcore, hidx, hmem⟩⟩,
      fun hn => absurd hm hn⟩
  · rw [if_neg (by simpa using hm)] at hcl
    obtain ⟨ha, hfree⟩ := hcl
    have hsing : s1.data_pkg_addrs_ c =
        (if g.shape_.checkContain (g.CellPositionFromIndex c) = true then [0, 1][0]? else [0, 1][1]?) := by
      rw [ha]
      split <;> rfl
    refine ⟨⟨?_, fun h => absurd h hm⟩, fun _ => ⟨hsing, ⟨_, ha, ?_⟩, ?_⟩⟩
    · rintro ⟨a, p, ha2, hns, _⟩
      rw [ha] at ha2
      injection ha2 with ha2
      have := (hreal a).mp hns
      rw [← ha2] at this
      split at this <;> omega
    · split <;> simp
    · intro a p hns hp
      exact hfree a p ((hreal a).mp hns) hp

/-- C25. Run over pairwise different cells from the state the five-argument
constructor leaves (valid shape), the pass of `initializeDataInACellFromCoarse`
returns, and afterwards a fine cell points to a real package that was created in
the pass, is flagged `is_core_pkg_`, carries the index of the cell and is in
`core_data_pkgs_` if and only if `isWithinCorePackage` of the coarse level holds
at the cell centre and the measure there is below `grid_spacing_`; every other
fine cell points to singular package 0 when the signed distance probed from the
coarse level at the cell centre is negative and to singular package 1
otherwise, and no real package carries its index.  So every core cell lies
within the core band of the coarse level. -/
theorem initializeDataInACellFromCoarse_classifies_cells (g : LevelSetSetup D)
    (coarse : LevelSet Real D)
    (hvalid : g.shape_.isValid = true) (hnodup : g.all_cells.Nodup) :
    ∃ s0 s1, LevelSetState.construct5 { g with buffer_width_ := 4 } = .ok s0 ∧
      MeshIterator_parallel (LevelSetState.initializeDataInACellFromCoarse g coarse)
          g.all_cells s0 = .ok s1 ∧
      ∀ c, c ∈ g.all_cells →
        ((∃ a p, s1.data_pkg_addrs_ c = some a ∧ a ∉ s1.singular_data_pkgs_addrs_ ∧
            s0.data_pkg_pool_.length ≤ a ∧ s1.data_pkg_pool_[a]? = some p ∧
            p.is_core_pkg_ = true ∧ p.pkg_index_ = c ∧ a ∈ s1.core_data_pkgs_) ↔
          (coarse.isWithinCorePackage (g.CellPositionFromIndex c) = true ∧
            LevelSetState.measure g (g.CellPositionFromIndex c) < g.grid_spacing_)) ∧
        (¬ (coarse.isWithinCorePackage (g.CellPositionFromIndex c) = true ∧
            LevelSetState.measure g (g.CellPositionFromIndex c) < g.grid_spacing_) →
          s1.data_pkg_addrs_ c =
            (if coarse.probeSignedDistance (g.CellPositionFromIndex c) < 0
              then s1.singular_data_pkgs_addrs_[0]? else s1.singular_data_pkgs_addrs_[1]?) ∧
          (∃ a, s1.data_pkg_addrs_ c = some a ∧ a ∈ s1.singular_data_pkgs_addrs_) ∧
          ∀ (a : Nat) (p : LevelSetDataPackage D), a ∉ s1.singular_data_pkgs_addrs_ →
            s1.data_pkg_pool_[a]? = some p → p.pkg_index_ ≠ c) := by
  obtain ⟨s0, hs0, h0, hlen, _⟩ :=
    LevelSetState.construct5_consistent { g with buffer_width_ := 4 } hvalid
  obtain ⟨s1, hs1, hcons, hall⟩ :=
    LevelSetState.classification_pass_from_coarse_outcome g coarse _ s0 h0 hnodup
  refine ⟨s0, s1, hs0, hs1, ?_⟩
  intro c hc
  have hcl := hall c hc
  unfold LevelSetState.ClassifiedBy at hcl
  rw [hcons.singular]
  have hreal : ∀ a : Nat, a ∉ [0, 1] ↔ 2 ≤ a := by
    intro a
    simp only [List.mem_cons, List.mem_singleton, List.not_mem_nil, or_false]
    omega
  by_cases hm : coarse.isWithinCorePackage (g.CellPositionFromIndex c) = true ∧
      LevelSetState.measure g (g.CellPositionFromIndex c) < g.grid_spacing_
  · rw [if_pos (by rw [hm.1, decide_eq_true hm.2]; rfl)] at hcl
    obtain ⟨a, p, ha, h2, hp, hcore, hidx, hmem⟩ := hcl
    refine ⟨⟨fun _ => hm, fun _ => ⟨a, p, ha, (hreal a).mpr h2, by omega, hp, hcore, hidx, hmem⟩⟩,
      fun hn => absurd hm hn⟩
  · rw [if_neg (by simpa using hm)] at hcl
    obtain ⟨ha, hfree⟩ := hcl
    have hsing : s1.data_pkg_addrs_ c =
        (if coarse.probeSignedDistance (g.CellPositionFromIndex c) < 0 then [0, 1][0]? else [0, 1][1]?) := by
      rw [ha]
      split <;> rfl
    refine ⟨⟨?_, fun h => absurd h hm⟩, fun _ => ⟨hsing, ⟨_, ha, ?_⟩, ?_⟩⟩
    · rintro ⟨a, p, ha2, hns, _⟩
      rw [ha] at ha2
      injection ha2 with ha2
      have := (hreal a).mp hns
      rw [← ha2] at this
      split at this <;> omega
    · split <;> simp
    · intro a p hns hp
      exact hfree a p ((hreal a).mp hns) hp

/-- Witness for C23 on the row of five cells of `sampleSetup`. -/
theorem initializeDataInACell_classifies_cells_witness :
    (sampleSetup.shape_.isValid = true ∧ sampleSetup.all_cells.Nodup) ∧
      ∃ s0 s1, LevelSetState.construct5 { sampleSetup with buffer_width_ := 4 } = .ok s0 ∧
        MeshIterator_parallel (LevelSetState.initializeDataInACell sampleSetup) sampleSetup.all_cells s0 = .ok s1 ∧
        ∀ c, c ∈ sampleSetup.all_cells →
          ((∃ a p, s1.data_pkg_addrs_ c = some a ∧ a ∉ s1.singular_data_pkgs_addrs_ ∧
              s0.data_pkg_pool_.length ≤ a ∧ s1.data_pkg_pool_[a]? = some p ∧
              p.is_core_pkg_ = true ∧ p.pkg_index_ = c ∧ a ∈ s1.core_data_pkgs_) ↔
            (LevelSetState.measure sampleSetup (sampleSetup.CellPositionFromIndex c) <
              sampleSetup.grid_spacing_)) ∧
          (¬ (LevelSetState.measure sampleSetup (sampleSetup.CellPositionFromIndex c) <
              sampleSetup.grid_spacing_) →
            s1.data_pkg_addrs_ c =
              (if sampleSetup.shape_.checkContain (sampleSetup.CellPositionFromIndex c) = true
                then s1.singular_data_pkgs_addrs_[0]? else s1.singular_data_pkgs_addrs_[1]?) ∧
            (∃ a, s1.data_pkg_addrs_ c = some a ∧ a ∈ s1.singular_data_pkgs_addrs_) ∧
            ∀ (a : Nat) (p : LevelSetDataPackage 2), a ∉ s1.singular_data_pkgs_addrs_ →
              s1.data_pkg_pool_[a]? = some p → p.pkg_index_ ≠ c) :=
  ⟨⟨rfl, sampleSetup_cells_nodup⟩,
    initializeDataInACell_classifies_cells sampleSetup rfl sampleSetup_cells_nodup⟩

/-- Witness for C25 on the row of five cells of `sampleSetup`. -/
theorem initializeDataInACellFromCoarse_classifies_cells_witness :
    (sampleSetup.shape_.isValid = true ∧ sampleSetup.all_cells.Nodup) ∧
      ∃ s0 s1, LevelSetState.construct5 { sampleSetup with buffer_width_ := 4 } = .ok s0 ∧
        MeshIterator_parallel
            (LevelSetState.initializeDataInACellFromCoarse sampleSetup (sampleLevel 1 0 true))
            sampleSetup.all_cells s0 = .ok s1 ∧
        ∀ c, c ∈ sampleSetup.all_cells →
          ((∃ a p, s1.data_pkg_addrs_ c = some a ∧ a ∉ s1.singular_data_pkgs_addrs_ ∧
              s0.data_pkg_pool_.length ≤ a ∧ s1.data_pkg_pool_[a]? = some p ∧
              p.is_core_pkg_ = true ∧ p.pkg_index_ = c ∧ a ∈ s1.core_data_pkgs_) ↔
            ((sampleLevel 1 0 true).isWithinCorePackage (sampleSetup.CellPositionFromIndex c) = true ∧
              LevelSetState.measure sampleSetup (sampleSetup.CellPositionFromIndex c) <
                sampleSetup.grid_spacing_)) ∧
          (¬ ((sampleLevel 1 0 true).isWithinCorePackage (sampleSetup.CellPositionFromIndex c) = true ∧
              LevelSetState.measure sampleSetup (sampleSetup.CellPositionFromIndex c) <
                sampleSetup.grid_spacing_) →
            s1.data_pkg_addrs_ c =
              (if (sampleLevel 1 0 true).probeSignedDistance (sampleSetup.CellPositionFromIndex c) < 0
                then s1.singular_data_pkgs_addrs_[0]? else s1.singular_data_pkgs_addrs_[1]?) ∧
            (∃ a, s1.data_pkg_addrs_ c = some a ∧ a ∈ s1.singular_data_pkgs_addrs_) ∧
            ∀ (a : Nat) (p : LevelSetDataPackage 2), a ∉ s1.singular_data_pkgs_addrs_ →
              s1.data_pkg_pool_[a]? = some p → p.pkg_index_ ≠ c) :=
  ⟨⟨rfl, sampleSetup_cells_nodup⟩,
    initializeDataInACellFromCoarse_classifies_cells sampleSetup (sampleLevel 1 0 true) rfl sampleSetup_cells_nodup⟩

/-! The tagging pass -/

/-- A state is reached from itself by a change that concerns any one cell. -/
theorem LevelSetState.StepAt.refl (c : Vecu D) (s : LevelSetState D) :
    LevelSetState.StepAt c s s :=
  { addrs_frame := fun _ _ => rfl
    pool_len := le_refl _
    pool_old := fun a p hp => ⟨p, hp, rfl, rfl, id⟩
    pool_new := by
      intro a q ha hq
      obtain ⟨hlt, _⟩ := List.getElem?_eq_some.mp hq
      omega
    core_sub := fun _ h => h
    inner_sub := fun _ h => h
    inner_new := fun _ h => Or.inl h }

/-- In a consistent state the package a cell points to is in the pool; it is
not core when it is singular and carries the index of the cell when it is
real. -/
theorem LevelSetState.Consistent.pkg_at {far : Real} {cls tagged : List (Vecu D)}
    {s : LevelSetState D} (h : s.Consistent far cls tagged) (c : Vecu D) (a : Nat)
    (ha : s.data_pkg_addrs_ c = some a) :
    ∃ p, s.data_pkg_pool_[a]? = some p ∧ (a < 2 → p.is_core_pkg_ = false) ∧
      (2 ≤ a → p.pkg_index_ = c) := by
  by_cases hlt : a < 2
  · have hcases : a = 0 ∨ a = 1 := by omega
    rcases hcases with h0 | h1
    · obtain ⟨p, hp, _, hnc⟩ := h.inside
      exact ⟨p, h0 ▸ hp, fun _ => hnc, fun h2 => by omega⟩
    · obtain ⟨p, hp, _, hnc⟩ := h.outside
      exact ⟨p, h1 ▸ hp, fun _ => hnc, fun h2 => by omega⟩
  · rcases h.pkg_of_grid c a ha with hlt2 | ⟨p, hp, hidx⟩
    · exact absurd hlt2 hlt
    · exact ⟨p, hp, fun h2 => absurd h2 hlt, fun _ => hidx⟩

/-- The outcome of tagging a cell is kept by a change that concerns another
cell only. -/
theorem LevelSetState.Tagged.tagged_of_stepAt {g : LevelSetSetup D} {far : Real}
    {cls tagged : List (Vecu D)} {s1 s s2 : LevelSetState D} {x c : Vecu D}
    (h : LevelSetState.Tagged g s1 x s) (hcons : s.Consistent far cls tagged)
    (hstep : LevelSetState.StepAt c s s2) (hne : x ≠ c) : LevelSetState.Tagged g s1 x s2 := by
  unfold LevelSetState.Tagged at h ⊢
  by_cases hin : g.isInnerPackage s1 x = true
  · rw [if_pos hin] at h ⊢
    obtain ⟨a, q, ha, hq, hmem, hflag, hidx, hkind⟩ := h
    obtain ⟨q2, hq2, hqc, hqi, hqf⟩ := hstep.pool_old a q hq
    refine ⟨a, q2, by rw [hstep.addrs_frame x hne]; exact ha, hq2, hstep.inner_sub a hmem,
      hqf hflag, by rw [hqi]; exact hidx, ?_⟩
    rcases hkind with ⟨h1, h2⟩ | ⟨h1, h2, h3⟩
    · exact Or.inl ⟨h1, by rw [hqc]; exact h2⟩
    · exact Or.inr ⟨h1, h2, by rw [hqc]; exact h3⟩
  · rw [if_neg hin] at h ⊢
    obtain ⟨ha, hfree⟩ := h
    refine ⟨by rw [hstep.addrs_frame x hne]; exact ha, ?_⟩
    intro a q hmem hq
    rcases hstep.inner_new a hmem with hold | ⟨q2, hq2, hidx⟩
    · obtain ⟨_, p, hp, _⟩ := hcons.inner_real a hold
      obtain ⟨q2, hq2, _, hqi, _⟩ := hstep.pool_old a p hp
      rw [hq] at hq2
      injection hq2 with hq2
      rw [hq2, hqi]
      exact hfree a p hold hp
    · rw [hq] at hq2
      injection hq2 with hq2
      rw [hq2, hidx]
      exact fun e => hne e.symm

/-- What a tagging pass keeps of the state it started from is kept by a change
that concerns the cell visited next. -/
theorem LevelSetState.TaggingFrame.frame_of_stepAt {s1 s s2 : LevelSetState D}
    {visited : List (Vecu D)} {c : Vecu D} (h : LevelSetState.TaggingFrame s1 visited s)
    (hstep : LevelSetState.StepAt c s s2) : LevelSetState.TaggingFrame s1 (c :: visited) s2 :=
  { addrs_unvisited := by
      intro y hy
      have hyc : y ≠ c := fun e => hy (e ▸ List.mem_cons_self _ _)
      rw [hstep.addrs_frame y hyc]
      exact h.addrs_unvisited y (fun hm => hy (List.mem_cons_of_mem _ hm))
    pool_len := le_trans h.pool_len hstep.pool_len
    pool_old := by
      intro a p hp
      obtain ⟨q, hq, hqc, hqi⟩ := h.pool_old a p hp
      obtain ⟨q2, hq2, hqc2, hqi2, _⟩ := hstep.pool_old a q hq
      exact ⟨q2, hq2, hqc2.trans hqc, hqi2.trans hqi⟩ }

/-- During a tagging pass every cell shows the core flag it showed when the pass
started. -/
theorem LevelSetState.TaggingFrame.coreFlagAt_eq {g : LevelSetSetup D} {far : Real}
    {cls visited : List (Vecu D)} {s1 s : LevelSetState D} (h1 : s1.Consistent far cls [])
    (hframe : LevelSetState.TaggingFrame s1 visited s)
    (htag : ∀ x, x ∈ visited → LevelSetState.Tagged g s1 x s) :
    ∀ y, s.coreFlagAt y = s1.coreFlagAt y := by
  have hsame : ∀ y, s.data_pkg_addrs_ y = s1.data_pkg_addrs_ y →
      s.coreFlagAt y = s1.coreFlagAt y := by
    intro y hy
    unfold LevelSetState.coreFlagAt
    rw [hy]
    cases ha : s1.data_pkg_addrs_ y with
    | none => rfl
    | some a =>
      obtain ⟨p, hp, _⟩ := h1.pkg_at y a ha
      obtain ⟨q, hq, hqc, _⟩ := hframe.pool_old a p hp
      simp only [hp, hq, Option.map_some', hqc]
  intro y
  by_cases hy : y ∈ visited
  · have ht := htag y hy
    unfold LevelSetState.Tagged at ht
    by_cases hin : g.isInnerPackage s1 y = true
    · rw [if_pos hin] at ht
      obtain ⟨a, q, ha, hq, _, _, _, hkind⟩ := ht
      rcases hkind with ⟨ha1, hcore⟩ | ⟨⟨a1, ha1, hlt⟩, _, hcore⟩
      · exact hsame y (by rw [ha, ha1])
      · obtain ⟨p, hp, hnc, _⟩ := h1.pkg_at y a1 ha1
        unfold LevelSetState.coreFlagAt
        simp only [ha, hq, ha1, hp, Option.map_some', hcore, hnc hlt]
    · rw [if_neg hin] at ht
      exact hsame y ht.1
  · exact hsame y (hframe.addrs_unvisited y hy)

/-- What one application of `tagACellIsInnerPackage` to a classified cell not
yet tagged does, when `isInnerPackage` answers as at the start of the pass: it
concerns that cell only and tags it. -/
theorem LevelSetState.tagACellIsInnerPackage_outcome (g : LevelSetSetup D) (far : Real)
    (cls tagged : List (Vecu D)) (c : Vecu D) (s1 s s2 : LevelSetState D)
    (h : s.Consistent far cls tagged) (hc : c ∈ cls) (hnt : c ∉ tagged)
    (hframe : LevelSetState.TaggingFrame s1 tagged s)
    (hinner : g.isInnerPackage s c = g.isInnerPackage s1 c)
    (hs2 : LevelSetState.tagACellIsInnerPackage g c s = .ok s2) :
    LevelSetState.StepAt c s s2 ∧ LevelSetState.Tagged g s1 c s2 := by
  have haddr := hframe.addrs_unvisited c hnt
  unfold LevelSetState.tagACellIsInnerPackage at hs2
  unfold LevelSetState.Tagged
  by_cases hin : g.isInnerPackage s c = true
  · rw [if_pos hin] at hs2
    rw [if_pos (hinner ▸ hin)]
    obtain ⟨a, ha⟩ := (h.assigned c).mpr hc
    obtain ⟨p, hp, hsing, hreal⟩ := h.pkg_at c a ha
    simp only [ha, hp] at hs2
    by_cases hcore : p.is_core_pkg_ = true
    · rw [if_pos hcore] at hs2
      injection hs2 with hs2
      subst hs2
      have h2 : 2 ≤ a := by
        by_contra hlt
        have := hsing (by omega)
        rw [this] at hcore
        exact Bool.noConfusion hcore
      refine ⟨LevelSetState.StepAt.of_setInner c a p hp (hreal h2), a,
        { p with is_inner_pkg_ := true }, ha,
        getElem?_modify_eq_some.mpr ⟨p, hp, by rw [if_pos rfl]⟩,
        List.mem_append_right _ (List.mem_singleton_self _), rfl, hreal h2,
        Or.inl ⟨by rw [← haddr]; exact ha, hcore⟩⟩
    · rw [if_neg hcore] at hs2
      injection hs2 with hs2
      subst hs2
      have hnc : p.is_core_pkg_ = false := by
        cases hv : p.is_core_pkg_ with
        | true => exact absurd hv hcore
        | false => rfl
      have hlt : a < 2 := by
        by_contra hge
        have := h.noncore_tagged a p (by omega) hp hnc
        rw [hreal (by omega)] at this
        exact hnt this
      have hpool : (LevelSetState.setInner s.data_pkg_pool_.length
          (LevelSetState.createDataPackage g c (g.CellPositionFromIndex c) s).1).data_pkg_pool_ =
          s.data_pkg_pool_ ++ [{ g.initializeBasicData (g.CellPositionFromIndex c) with
            is_core_pkg_ := (LevelSetDataPackage.construct g.raw_pkg).is_core_pkg_
            is_inner_pkg_ := true
            pkg_index_ := c }] := modify_append_singleton _ _ _
      refine ⟨LevelSetState.StepAt.of_add c _ rfl hpool
        (fun y hy => Function.update_noteq hy _ _) (fun a ha => ha) (Or.inr rfl),
        s.data_pkg_pool_.length,
        { g.initializeBasicData (g.CellPositionFromIndex c) with
          is_core_pkg_ := (LevelSetDataPackage.construct g.raw_pkg).is_core_pkg_
          is_inner_pkg_ := true
          pkg_index_ := c }, Function.update_same _ _ _, ?_,
        List.mem_append_right _ (List.mem_singleton_self _), rfl, rfl,
        Or.inr ⟨⟨a, by rw [← haddr]; exact ha, hlt⟩, hframe.pool_len, rfl⟩⟩
      show (LevelSetState.setInner s.data_pkg_pool_.length
        (LevelSetState.createDataPackage g c (g.CellPositionFromIndex c) s).1).data_pkg_pool_[
          s.data_pkg_pool_.length]? = _
      rw [hpool]
      exact getElem?_append_singleton_eq_some.mpr (Or.inr ⟨rfl, rfl⟩)
  · rw [if_neg hin] at hs2
    injection hs2 with hs2
    subst hs2
    rw [if_neg (hinner ▸ hin)]
    refine ⟨LevelSetState.StepAt.refl c s, haddr, ?_⟩
    intro a q hmem hq
    obtain ⟨_, p, hp, hidx⟩ := h.inner_real a hmem
    rw [hq] at hp
    injection hp with hp
    rw [hp]
    exact fun e => hnt (e ▸ hidx)

/-- The tagging pass over pairwise different classified cells, with an
`isInnerPackage` that reads the core flags only, returns, leaves a consistent
state, keeps the packages that existed before it and tags every cell. -/
theorem LevelSetState.tagging_pass_outcome (g : LevelSetSetup D) (far : Real)
    (cls : List (Vecu D)) (s1 : LevelSetState D) (h1 : s1.Consistent far cls [])
    (hnodup : g.all_cells.Nodup) (hcls : ∀ c, c ∈ g.all_cells → c ∈ cls)
    (hinner : g.InnerFromCoreFlags) :
    ∃ s2, MeshIterator_parallel (LevelSetState.tagACellIsInnerPackage g) g.all_cells s1 = .ok s2 ∧
      s2.Consistent far cls (g.all_cells.reverse ++ []) ∧
      LevelSetState.TaggingFrame s1 (g.all_cells.reverse ++ []) s2 ∧
      (∀ y, s2.coreFlagAt y = s1.coreFlagAt y) ∧
      ∀ c, c ∈ g.all_cells → LevelSetState.Tagged g s1 c s2 := by
  obtain ⟨s2, hs2, hcons, hframe, hall⟩ := MeshIterator_parallel_invariant
    (LevelSetState.tagACellIsInnerPackage g)
    (fun visited s => s.Consistent far cls visited ∧ LevelSetState.TaggingFrame s1 visited s ∧
      ∀ x, x ∈ visited → LevelSetState.Tagged g s1 x s) (fun c => c ∈ cls)
    (by
      intro visited c s hinv hc hnt
      obtain ⟨hcons, hframe, hall⟩ := hinv
      obtain ⟨s2, hs2, hcons2⟩ :=
        LevelSetState.tagACellIsInnerPackage_step g far cls visited c s hcons hc hnt
      have hflags := hframe.coreFlagAt_eq h1 hall
      obtain ⟨hat, htag⟩ := LevelSetState.tagACellIsInnerPackage_outcome g far cls visited c s1 s
        s2 hcons hc hnt hframe (hinner s s1 c hflags) hs2
      refine ⟨s2, hs2, hcons2, hframe.frame_of_stepAt hat, ?_⟩
      intro x hx
      rcases List.mem_cons.mp hx with hxc | hxv
      · rw [hxc]
        exact htag
      · exact (hall x hxv).tagged_of_stepAt hcons hat (fun e => hnt (e ▸ hxv)))
    g.all_cells [] s1 hnodup hcls (fun c _ => List.not_mem_nil c)
    ⟨h1,
      { addrs_unvisited := fun _ _ => rfl
        pool_len := le_refl _
        pool_old := fun a p hp => ⟨p, hp, rfl, rfl⟩ },
      fun x hx => absurd hx (List.not_mem_nil x)⟩
  exact ⟨s2, hs2, hcons, hframe, hframe.coreFlagAt_eq h1 hall,
    fun c hc => hall c (by simpa using hc)⟩

/-- The test `isInnerPackage` of `sampleSetup` reads the core flags only. -/
theorem sampleSetup_inner_from_core_flags : sampleSetup.InnerFromCoreFlags := by
  intro s s2 c hflags
  have key : ∀ (t : LevelSetState 2) (n : Vecu 2),
      (match t.data_pkg_addrs_ n with
        | none => false
        | some pkg =>
          match t.data_pkg_pool_[pkg]? with
          | none => false
          | some p => p.is_core_pkg_) = (t.coreFlagAt n).getD false := by
    intro t n
    unfold LevelSetState.coreFlagAt
    cases t.data_pkg_addrs_ n with
    | none => rfl
    | some pkg =>
      simp only []
      cases t.data_pkg_pool_[pkg]? <;> rfl
  unfold sampleSetup
  simp only []
  congr 1
  funext n
  exact ((key s n).trans (by rw [hflags])).trans (key s2 n).symm

/-- C24. Run after the classification pass of a `LevelSet` (valid shape,
pairwise different cells, an `isInnerPackage` that reads the core flags only),
the pass of `tagACellIsInnerPackage` returns; `isInnerPackage` answers after it
as before it; `inner_data_pkgs_` has no package twice, and each of its packages
belongs to a cell for which `isInnerPackage` holds.  A cell for which
`isInnerPackage` holds points to a package of `inner_data_pkgs_` flagged
`is_inner_pkg_`, the only one of the collection with the index of the cell:
the same core package the cell pointed to before the pass, or, when the cell
pointed to a singular package, a real package that was not in the pool before
the pass and is not core.  A cell for which it does not hold points where it
pointed, and no package of `inner_data_pkgs_` carries its index. -/
theorem tagging_pass_inner_collection (g : LevelSetSetup D)
    (hvalid : g.shape_.isValid = true) (hnodup : g.all_cells.Nodup)
    (hinner : g.InnerFromCoreFlags) :
    ∃ s0 s1 s2, LevelSetState.construct5 { g with buffer_width_ := 4 } = .ok s0 ∧
      MeshIterator_parallel (LevelSetState.initializeDataInACell g) g.all_cells s0 = .ok s1 ∧
      MeshIterator_parallel (LevelSetState.tagACellIsInnerPackage g) g.all_cells s1 = .ok s2 ∧
      (∀ c, g.isInnerPackage s2 c = g.isInnerPackage s1 c) ∧
      s2.inner_data_pkgs_.Nodup ∧
      (∀ a, a ∈ s2.inner_data_pkgs_ → ∃ q, s2.data_pkg_pool_[a]? = some q ∧
        q.pkg_index_ ∈ g.all_cells ∧ g.isInnerPackage s1 q.pkg_index_ = true ∧
        s2.data_pkg_addrs_ q.pkg_index_ = some a) ∧
      ∀ c, c ∈ g.all_cells →
        (g.isInnerPackage s1 c = true →
          ∃ a q, s2.data_pkg_addrs_ c = some a ∧ s2.data_pkg_pool_[a]? = some q ∧
            a ∈ s2.inner_data_pkgs_ ∧ q.is_inner_pkg_ = true ∧ q.pkg_index_ = c ∧
            (∀ (a2 : Nat) (q2 : LevelSetDataPackage D), a2 ∈ s2.inner_data_pkgs_ →
              s2.data_pkg_pool_[a2]? = some q2 → q2.pkg_index_ = c → a2 = a) ∧
            ((∃ p, s1.data_pkg_addrs_ c = some a ∧ s1.data_pkg_pool_[a]? = some p ∧
                p.is_core_pkg_ = true ∧ q.is_core_pkg_ = true) ∨
              ((∃ a1, s1.data_pkg_addrs_ c = some a1 ∧ a1 ∈ s1.singular_data_pkgs_addrs_) ∧
                a ∉ s2.singular_data_pkgs_addrs_ ∧ s1.data_pkg_pool_.length ≤ a ∧
                q.is_core_pkg_ = false))) ∧
        (¬ g.isInnerPackage s1 c = true →
          s2.data_pkg_addrs_ c = s1.data_pkg_addrs_ c ∧
          ∀ (a : Nat) (q : LevelSetDataPackage D), a ∈ s2.inner_data_pkgs_ →
            s2.data_pkg_pool_[a]? = some q → q.pkg_index_ ≠ c) := by
  obtain ⟨s0, hs0, h0, _⟩ :=
    LevelSetState.construct5_consistent { g with buffer_width_ := 4 } hvalid
  obtain ⟨s1, hs1, h1⟩ := LevelSetState.classification_pass g _ s0 h0 hnodup
  obtain ⟨s2, hs2, h2, hframe, hflags, hall⟩ := LevelSetState.tagging_pass_outcome g _ _ s1 h1
    hnodup (fun c hc => by simpa using hc) hinner
  have hreal : ∀ a : Nat, a ∉ [0, 1] ↔ 2 ≤ a := by
    intro a
    simp only [List.mem_cons, List.mem_singleton, List.not_mem_nil, or_false]
    omega
  refine ⟨s0, s1, s2, hs0, hs1, hs2, fun c => hinner s2 s1 c hflags, h2.inner_nodup, ?_, ?_⟩
  · intro a ha
    obtain ⟨hge, q, hq, hidx⟩ := h2.inner_real a ha
    have hcell : q.pkg_index_ ∈ g.all_cells := by simpa using hidx
    refine ⟨q, hq, hcell, ?_, h2.grid_of_pkg a q hge hq⟩
    by_contra hn
    have ht := hall q.pkg_index_ hcell
    unfold LevelSetState.Tagged at ht
    rw [if_neg hn] at ht
    exact ht.2 a q ha hq rfl
  · intro c hc
    have ht := hall c hc
    unfold LevelSetState.Tagged at ht
    constructor
    · intro hin
      rw [if_pos hin] at ht
      obtain ⟨a, q, ha, hq, hmem, hflag, hidx, hkind⟩ := ht
      refine ⟨a, q, ha, hq, hmem, hflag, hidx, ?_, ?_⟩
      · intro a2 q2 hmem2 hq2 hidx2
        have := h2.grid_of_pkg a2 q2 (h2.inner_real a2 hmem2).1 hq2
        rw [hidx2, ha] at this
        injection this with this
        exact this.symm
      · rcases hkind with ⟨ha1, hcore⟩ | ⟨⟨a1, ha1, hlt⟩, hlen, hcore⟩
        · obtain ⟨p, hp, _⟩ := h1.pkg_at c a ha1
          obtain ⟨q2, hq2, hqc, _⟩ := hframe.pool_old a p hp
          rw [hq] at hq2
          injection hq2 with hq2
          exact Or.inl ⟨p, ha1, hp, by rw [← hqc, ← hq2]; exact hcore, hcore⟩
        · refine Or.inr ⟨⟨a1, ha1, ?_⟩, ?_, hlen, hcore⟩
          · rw [h1.singular]
            have : a1 = 0 ∨ a1 = 1 := by omega
            rcases this with e | e <;> simp [e]
          · rw [h2.singular]
            exact (hreal a).mpr (h2.inner_real a hmem).1
    · intro hin
      rw [if_neg hin] at ht
      exact ht

/-- Witness for C24 on the row of five cells of `sampleSetup`. -/
theorem tagging_pass_inner_collection_witness :
    (sampleSetup.shape_.isValid = true ∧ sampleSetup.all_cells.Nodup ∧
        sampleSetup.InnerFromCoreFlags) ∧
      ∃ s0 s1 s2, LevelSetState.construct5 { sampleSetup with buffer_width_ := 4 } = .ok s0 ∧
        MeshIterator_parallel (LevelSetState.initializeDataInACell sampleSetup) sampleSetup.all_cells s0 = .ok s1 ∧
        MeshIterator_parallel (LevelSetState.tagACellIsInnerPackage sampleSetup) sampleSetup.all_cells s1 = .ok s2 ∧
        (∀ c, sampleSetup.isInnerPackage s2 c = sampleSetup.isInnerPackage s1 c) ∧
        s2.inner_data_pkgs_.Nodup ∧
        (∀ a, a ∈ s2.inner_data_pkgs_ → ∃ q, s2.data_pkg_pool_[a]? = some q ∧
          q.pkg_index_ ∈ sampleSetup.all_cells ∧ sampleSetup.isInnerPackage s1 q.pkg_index_ = true ∧
          s2.data_pkg_addrs_ q.pkg_index_ = some a) ∧
        ∀ c, c ∈ sampleSetup.all_cells →
          (sampleSetup.isInnerPackage s1 c = true →
            ∃ a q, s2.data_pkg_addrs_ c = some a ∧ s2.data_pkg_pool_[a]? = some q ∧
              a ∈ s2.inner_data_pkgs_ ∧ q.is_inner_pkg_ = true ∧ q.pkg_index_ = c ∧
              (∀ (a2 : Nat) (q2 : LevelSetDataPackage 2), a2 ∈ s2.inner_data_pkgs_ →
                s2.data_pkg_pool_[a2]? = some q2 → q2.pkg_index_ = c → a2 = a) ∧
              ((∃ p, s1.data_pkg_addrs_ c = some a ∧ s1.data_pkg_pool_[a]? = some p ∧
                  p.is_core_pkg_ = true ∧ q.is_core_pkg_ = true) ∨
                ((∃ a1, s1.data_pkg_addrs_ c = some a1 ∧ a1 ∈ s1.singular_data_pkgs_addrs_) ∧
                  a ∉ s2.singular_data_pkgs_addrs_ ∧ s1.data_pkg_pool_.length ≤ a ∧
                  q.is_core_pkg_ = false))) ∧
          (¬ sampleSetup.isInnerPackage s1 c = true →
            s2.data_pkg_addrs_ c = s1.data_pkg_addrs_ c ∧
            ∀ (a : Nat) (q : LevelSetDataPackage 2), a ∈ s2.inner_data_pkgs_ →
              s2.data_pkg_pool_[a]? = some q → q.pkg_index_ ≠ c) :=
  ⟨⟨rfl, sampleSetup_cells_nodup, sampleSetup_inner_from_core_flags⟩,
    tagging_pass_inner_collection sampleSetup rfl sampleSetup_cells_nodup
      sampleSetup_inner_from_core_flags⟩

end SPH
